import Mathlib

/-!
# Faunus: move protocol and geometry

A shallow embedding of the Monte Carlo move framework (`src/src/move.cpp`), the
geometries (`src/src/geometry.cpp`), the Cartesian point (`src/classes/point.h`) and the
titration energy (`src/include/faunus/moves/charge.h`).

Conventions of the embedding

* `double` is modelled by an ordered field `K` (the rationals for evaluation, the
  reals for the statements that need `exp`, `pow`, `sqrt`, `cos`, `sin`); rounding is
  not modelled.  Functions of `<cmath>` that a rational field does not have are passed
  to the definitions as arguments.
* `assert(c)` is an abort: a function that contains assertions returns an `Option`
  and `none` stands for a failed assertion.
* the global random source `slp_global` is an explicit stream with a cursor.
* virtual functions are records of functions (`Geometrybase`, `GeometryVT`, `MoveVT`);
  classes whose code is not among the sources are modelled from the specification and
  marked so.
-/

namespace Faunus

/-! ## Numbers -/

/-- A `double` energy: a finite value or the sentinel `pc::infty` (plus infinity). -/
inductive EDouble (K : Type) where
  | fin : K → EDouble K
  | infty : EDouble K
  deriving DecidableEq

namespace EDouble

variable {K : Type} [LinearOrderedField K]

/-- The test `du > 0` of the source; plus infinity is positive. -/
def pos : EDouble K → Bool
  | fin x => decide (0 < x)
  | infty => true

/-- The value of `std::exp(-du)`, the exponential being given; `exp(-inf)` is `0`. -/
def expNeg (exp : K → K) : EDouble K → K
  | fin x => exp (-x)
  | infty => 0

/-- Addition of doubles, `x + inf = inf`. -/
def add : EDouble K → EDouble K → EDouble K
  | fin a, fin b => fin (a + b)
  | _, _ => infty

end EDouble

/-! ## Random source -/

/-- Modelled from the spec: the uniform variate generator `slp_global` (`slump.h` is not
among the sources).  The variates to come are `seq pos`, `seq (pos+1)`, ... -/
structure Slump (K : Type) where
  seq : ℕ → K
  pos : ℕ

namespace Slump

variable {K : Type} [LinearOrderedField K]

/-- Modelled from the spec: `randOne()`, the next uniform variate of `[0,1)`. -/
def randOne (s : Slump K) : K × Slump K :=
  (s.seq s.pos, { s with pos := s.pos + 1 })

/-- Modelled from the spec: `randHalf()`, a uniform variate of `[-1/2,1/2)`, the next
variate of the stream shifted by one half. -/
def randHalf (s : Slump K) : K × Slump K :=
  (s.seq s.pos - 1 / 2, { s with pos := s.pos + 1 })

end Slump

/-! ## Points (`src/classes/point.h`) -/

/-- Cartesian coordinates, class `point`. -/
structure Point (K : Type) where
  x : K
  y : K
  z : K
  deriving DecidableEq

namespace Point

variable {K : Type} [LinearOrderedField K]

/-- Modelled from the spec: `operator+(point)`, componentwise (its body is not among the
sources). -/
def add (a b : Point K) : Point K := ⟨a.x + b.x, a.y + b.y, a.z + b.z⟩

/-- Modelled from the spec: `operator-(point)`, componentwise. -/
def sub (a b : Point K) : Point K := ⟨a.x - b.x, a.y - b.y, a.z - b.z⟩

/-- Modelled from the spec: `operator*(double)`, scaling of a vector. -/
def smul (a : Point K) (s : K) : Point K := ⟨a.x * s, a.y * s, a.z * s⟩

/-- The function `point::sqdist(point &p)`: plain squared distance. -/
def sqdist (a p : Point K) : K :=
  let dx := a.x - p.x
  let dy := a.y - p.y
  let dz := a.z - p.z
  dx * dx + dy * dy + dz * dz

/-- The function `point::sqdist(point &p, double &len, double &inv_len)`: squared
distance under the three-dimensional minimum image convention. -/
def sqdistMI [FloorRing K] (a p : Point K) (len inv_len : K) : K :=
  let dx := a.x - p.x
  let dy := a.y - p.y
  let dz := a.z - p.z
  let dx := dx - len * (⌊dx * inv_len + 1 / 2⌋ : ℤ)
  let dy := dy - len * (⌊dy * inv_len + 1 / 2⌋ : ℤ)
  let dz := dz - len * (⌊dz * inv_len + 1 / 2⌋ : ℤ)
  dx * dx + dy * dy + dz * dz

/-- The unit vector of a coordinate axis, `0` for x, `1` for y, `2` for z. -/
def axisUnit (axis : Fin 3) : Point K :=
  match axis with
  | 0 => ⟨1, 0, 0⟩
  | 1 => ⟨0, 1, 0⟩
  | 2 => ⟨0, 0, 1⟩

end Point

/-- Class `particle`: a point with charge, radius, weight and species identifier. -/
structure particle (K : Type) extends Point K where
  charge : K
  radius : K
  mw : K
  id : ℕ
  deriving DecidableEq

/-- A particle at given coordinates, the other members zero. -/
def particle.at {K : Type} [LinearOrderedField K] (x y z : K) : particle K :=
  { x := x, y := y, z := z, charge := 0, radius := 0, mw := 0, id := 0 }

/-! ## Geometries (`src/src/geometry.cpp`) -/

/-- The enumeration `Geometrybase::collisiontype`. -/
inductive collisiontype where
  | BOUNDARY
  | ZONE
  deriving DecidableEq

/-- The virtual interface of `Geometrybase` that moves and rotations consult. -/
structure Geometrybase (K : Type) where
  boundary : Point K → Point K
  sqdist : Point K → Point K → K
  collision : particle K → collisiontype → Bool

namespace Geometrybase

variable {K : Type} [LinearOrderedField K]

/-- The function `Geometrybase::dist`, the square root being given. -/
def dist (sqrt : K → K) (geo : Geometrybase K) (p1 p2 : Point K) : K :=
  sqrt (geo.sqdist p1 p2)

/-- The function `Geometrybase::setVolume` over the two virtual functions `_setVolume`
and `_getVolume` of a geometry with state `G`; both assertions are checked. -/
def setVolume {G : Type} (_setVolume : G → K → Option G) (_getVolume : G → K)
    (g : G) (volume : K) : Option G :=
  if 0 < volume then
    match _setVolume g volume with
    | none => none
    | some g' =>
      if |(volume - _getVolume g') / volume| < 1 / 10 ^ 9 then some g' else none
  else none

/-- Application of `boundary(Point&)` to a particle: only the coordinates change. -/
def boundaryParticle (geo : Geometrybase K) (a : particle K) : particle K :=
  { a with toPoint := geo.boundary a.toPoint }

/-- The function `Geometrybase::scale`, inherited by the geometries that do not override
it: its body is `assert(!"...")`, the negation of a string literal, which always fails. -/
def scale (a : Point K) (_s : K) : Option (Point K) :=
  if False then some a else none

end Geometrybase

/-- The data members of `Sphere`. -/
structure Sphere (K : Type) where
  r : K
  r2 : K
  diameter : K
  deriving DecidableEq

namespace Sphere

variable {K : Type} [LinearOrderedField K]

/-- The function `Sphere::setradius`; the radius must be positive. -/
def setradius (_s : Sphere K) (radius : K) : Option (Sphere K) :=
  if 0 < radius then
    some { r := radius, r2 := radius * radius, diameter := 2 * radius }
  else none

/-- The function `Sphere::_getVolume`, with `std::pow` and `pc::pi` given. -/
def _getVolume (pow : K → K → K) (pi : K) (s : Sphere K) : K :=
  4 / 3 * pi * pow s.r 3

/-- The function `Sphere::_setVolume`. -/
def _setVolume (pow : K → K → K) (pi : K) (s : Sphere K) (vol : K) : Option (Sphere K) :=
  s.setradius (pow (3 * vol / (4 * pi)) (1 / 3))

/-- The function `Geometrybase::setVolume` on a sphere. -/
def setVolume (pow : K → K → K) (pi : K) (s : Sphere K) (volume : K) : Option (Sphere K) :=
  Geometrybase.setVolume (_setVolume pow pi) (_getVolume pow pi) s volume

/-- The function `Geometrybase::getVolume` on a sphere. -/
def getVolume (pow : K → K → K) (pi : K) (s : Sphere K) : K :=
  _getVolume pow pi s

/-- The function `Sphere::scale`: both assertions, then the scaling of the point. -/
def scale (pow : K → K → K) (pi : K) (s : Sphere K) (a : Point K) (newvolume : K) :
    Option (Point K) :=
  if 0 < s.getVolume pow pi then
    if 0 < newvolume then
      let newradius := pow (3 * newvolume / (4 * pi)) (1 / 3)
      some (a.smul (newradius / s.r))
    else none
  else none

/-- The function `Sphere::boundary`: the body is empty. -/
def boundary (_s : Sphere K) (m : Point K) : Point K := m

/-- The function `Sphere::collision`. -/
def collision (s : Sphere K) (a : particle K) (_type : collisiontype) : Bool :=
  if a.x * a.x + a.y * a.y + a.z * a.z > s.r2 then true else false

/-- Modelled from the spec: `Sphere::sqdist` (declared in `geometry.h`, which is not among
the sources): the Euclidean squared distance, the boundary convention of a closed
geometry being the identity. -/
def sqdist (_s : Sphere K) (p1 p2 : Point K) : K := p1.sqdist p2

/-- A sphere seen through the virtual interface. -/
def toGeometrybase (s : Sphere K) : Geometrybase K :=
  { boundary := s.boundary, sqdist := s.sqdist, collision := s.collision }

end Sphere

/-- The data members of `Cuboid`. -/
structure Cuboid (K : Type) where
  len : Point K
  len_half : Point K
  len_inv : Point K
  slice_min : Point K
  slice_max : Point K
  deriving DecidableEq

namespace Cuboid

variable {K : Type} [LinearOrderedField K]

/-- The function `Cuboid::setlen`: three assertions, then the guarded update. -/
def setlen (c : Cuboid K) (l : Point K) : Option (Bool × Cuboid K) :=
  if 0 < l.x ∧ 0 < l.y ∧ 0 < l.z then
    if l.x ≤ 0 ∨ l.y ≤ 0 ∨ l.z ≤ 0 then some (false, c)
    else
      some (true, { c with
        len := l
        len_half := l.smul (1 / 2)
        len_inv := ⟨1 / l.x, 1 / l.y, 1 / l.z⟩ })
  else none

/-- The function `Cuboid::_getVolume`. -/
def _getVolume (c : Cuboid K) : K := c.len.x * c.len.y * c.len.z

/-- The function `Geometrybase::getVolume` on a cuboid. -/
def getVolume (c : Cuboid K) : K := c._getVolume

/-- The function `Cuboid::scale`: both assertions, then the scaling of the point. -/
def scale (pow : K → K → K) (c : Cuboid K) (a : Point K) (newvolume : K) :
    Option (Point K) :=
  if 0 < c.getVolume then
    if 0 < newvolume then some (a.smul (pow (newvolume / c.getVolume) (1 / 3)))
    else none
  else none

/-- The function `Cuboid::_setVolume`: `scale(len,newV)` rewrites the member `len`, then
`setlen(len)` is called and its result dropped. -/
def _setVolume (pow : K → K → K) (c : Cuboid K) (newV : K) : Option (Cuboid K) :=
  match c.scale pow c.len newV with
  | none => none
  | some l =>
    let c1 := { c with len := l }
    match c1.setlen c1.len with
    | none => none
    | some r => some r.2

/-- The function `Geometrybase::setVolume` on a cuboid. -/
def setVolume (pow : K → K → K) (c : Cuboid K) (volume : K) : Option (Cuboid K) :=
  Geometrybase.setVolume (_setVolume pow) _getVolume c volume

/-- The function `Cuboid::collision`. -/
def collision (c : Cuboid K) (a : particle K) (type : collisiontype) : Bool :=
  match type with
  | collisiontype.BOUNDARY =>
    if |a.x| > c.len_half.x ∨ |a.y| > c.len_half.y ∨ |a.z| > c.len_half.z then true
    else false
  | collisiontype.ZONE =>
    if |a.x| > c.len_half.x ∨ |a.y| > c.len_half.y ∨ |a.z| > c.len_half.z ∨
        a.x < c.slice_min.x ∨ a.y < c.slice_min.y ∨ a.z < c.slice_min.z ∨
        a.x > c.slice_max.x ∨ a.y > c.slice_max.y ∨ a.z > c.slice_max.z then true
    else false

end Cuboid

/-- The data members of `Cylinder`. -/
structure Cylinder (K : Type) where
  len : K
  r : K
  r2 : K
  diameter : K
  halflen : K
  deriving DecidableEq

namespace Cylinder

variable {K : Type} [LinearOrderedField K]

/-- The function `Cylinder::init`; length and radius must be positive. -/
def init (length radius : K) : Option (Cylinder K) :=
  if 0 < length ∧ 0 < radius then
    some { len := length, r := radius, r2 := radius * radius, diameter := radius * 2,
           halflen := length / 2 }
  else none

/-- The function `Cylinder::collision`. -/
def collision (c : Cylinder K) (a : particle K) (_type : collisiontype) : Bool :=
  if a.x * a.x + a.y * a.y > c.r2 ∨ (a.z < -c.halflen ∨ a.z > c.halflen) then true
  else false

/-- The function `Cylinder::_setVolume`: its body is `assert(!"...")`, which always
fails; nothing is assigned. -/
def _setVolume (c : Cylinder K) (_newV : K) : Option (Cylinder K) :=
  if False then some c else none

/-- The function `Cylinder::_getVolume`, with `pc::pi` given. -/
def _getVolume (pi : K) (c : Cylinder K) : K := 2 * c.r2 * pi * c.len

/-- The function `Geometrybase::setVolume` on a cylinder. -/
def setVolume (pi : K) (c : Cylinder K) (volume : K) : Option (Cylinder K) :=
  Geometrybase.setVolume _setVolume (_getVolume pi) c volume

/-- The function `Geometrybase::getVolume` on a cylinder. -/
def getVolume (pi : K) (c : Cylinder K) : K := _getVolume pi c

/-- The function `scale` on a cylinder: `Cylinder` has no `scale` of its own in
`geometry.cpp`, the call is the one of `Geometrybase`. -/
def scale (_c : Cylinder K) (a : Point K) (newvolume : K) : Option (Point K) :=
  Geometrybase.scale a newvolume

end Cylinder

/-- The data members of `VectorRotate`. -/
structure VectorRotate (K : Type) where
  origin : Point K
  u : Point K
  cosang : K
  sinang : K
  e1mcox : K
  e1mcoy : K
  e1mcoz : K

namespace VectorRotate

variable {K : Type} [LinearOrderedField K]

/-- The function `VectorRotate::setAxis`, with `sqrt`, `cos` and `sin` given.  Every
member is overwritten; the assertion on the address of a reference always holds. -/
def setAxis (sqrt cos sin : K → K) (geo : Geometrybase K) (beg end_ : Point K)
    (angle : K) : VectorRotate K :=
  let origin := beg
  let u := end_.sub beg
  let u := geo.boundary u
  let u := u.smul (1 / geo.dist sqrt beg end_)
  let cosang := cos angle
  let sinang := sin angle
  { origin := origin
    u := u
    cosang := cosang
    sinang := sinang
    e1mcox := (1 - cosang) * u.x
    e1mcoy := (1 - cosang) * u.y
    e1mcoz := (1 - cosang) * u.z }

/-- The function `VectorRotate::rotate`. -/
def rotate (v : VectorRotate K) (geo : Geometrybase K) (p : Point K) : Point K :=
  let b := p.sub v.origin
  let b := geo.boundary b
  let eb := v.u.x * b.x + v.u.y * b.y + v.u.z * b.z
  let px := v.e1mcox * eb + v.cosang * b.x + v.sinang * (v.u.y * b.z - v.u.z * b.y) + v.origin.x
  let py := v.e1mcoy * eb + v.cosang * b.y + v.sinang * (v.u.z * b.x - v.u.x * b.z) + v.origin.y
  let pz := v.e1mcoz * eb + v.cosang * b.z + v.sinang * (v.u.x * b.y - v.u.y * b.x) + v.origin.z
  geo.boundary ⟨px, py, pz⟩

end VectorRotate

/-! ## The move base class (`src/src/move.cpp`) -/

/-- The data members of `Movebase` that the protocol updates. -/
structure Movebase (K : Type) where
  cnt : ℕ
  cnt_accepted : ℕ
  dusum : EDouble K
  runfraction : K

namespace Movebase

variable {K : Type} [LinearOrderedField K]

/-- The function `Movebase::metropolis`: the uniform variate is drawn only when `du > 0`. -/
def metropolis (exp : K → K) (du : EDouble K) (slp : Slump K) : Bool × Slump K :=
  if du.pos then
    let r := slp.randOne
    if r.1 > du.expNeg exp then (false, r.2) else (true, r.2)
  else (true, slp)

/-- The function `Movebase::run`. -/
def run (m : Movebase K) (slp : Slump K) : Bool × Slump K :=
  let r := slp.randOne
  if r.1 < m.runfraction then (true, r.2) else (false, r.2)

end Movebase

/-! ## Containers, groups and statistics used by the moves -/

/-- Element read `v[i]` of a `std::vector` with an `int` index.  Outside the range the
behaviour of the program is undefined, which is `none` here. -/
def vecGet {α : Type} (v : List α) (i : ℤ) : Option α :=
  if 0 ≤ i then v.get? i.toNat else none

/-- Element write `v[i] = a` of a `std::vector` with an `int` index; `none` outside the
range. -/
def vecSet {α : Type} (v : List α) (i : ℤ) (a : α) : Option (List α) :=
  if 0 ≤ i ∧ i.toNat < v.length then some (v.set i.toNat a) else none

/-- Modelled from the spec: the role tag of a group, `Group::ATOMIC` for a collection of
atoms and molecular otherwise. -/
inductive GroupType where
  | ATOMIC
  | MOLECULAR
  deriving DecidableEq

/-- Modelled from the spec: class `Group` (`group.h` is not among the sources), a
contiguous index range `[beg,end]` of the particle system. -/
structure Group where
  beg : ℤ
  end_ : ℤ
  id : GroupType := GroupType.MOLECULAR
  deriving DecidableEq

namespace Group

variable {K : Type} [LinearOrderedField K]

/-- Modelled from the spec: `Group::size()`, the number of indices of the range. -/
def size (g : Group) : ℤ := g.end_ - g.beg + 1

/-- Modelled from the spec: `Group::random()`, a member of the range chosen with one
uniform variate of the global random source. -/
def random [FloorRing K] (g : Group) (slp : Slump K) : ℤ × Slump K :=
  let r := slp.randOne
  (g.beg + ⌊r.1 * (g.size : K)⌋, r.2)

end Group

/-- Modelled from the spec: class `average<double>` (not among the sources), a running
mean kept as sum and number of samples. -/
structure average (K : Type) where
  sum : K
  cnt : ℕ
  deriving DecidableEq

/-- Modelled from the spec: `average::operator+=`, one more sample. -/
def average.add {K : Type} [LinearOrderedField K] (a : average K) (x : K) : average K :=
  { sum := a.sum + x, cnt := a.cnt + 1 }

/-- The statement `m[k] += x` on a `std::map<short, average<double>>`: the entry is
created when it is absent. -/
def mapAdd {K : Type} [LinearOrderedField K] (m : List (ℕ × average K)) (k : ℕ) (x : K) :
    List (ℕ × average K) :=
  match m with
  | [] => [(k, average.add ⟨0, 0⟩ x)]
  | e :: t => if e.1 = k then (e.1, e.2.add x) :: t else e :: mapAdd t k x

/-- Class `Space`: the current configuration `p`, the trial configuration, the pointer
to the geometry (`none` is the null pointer) and the vector `g` of groups. -/
structure Space (K : Type) where
  p : List (particle K)
  trial : List (particle K)
  geo : Option (Geometrybase K)
  g : List Group := []

/-- The virtual functions `_trialMove`, `_energyChange`, `_acceptMove`, `_rejectMove` of
a move class whose own data members have type `σ`. -/
structure MoveVT (K σ : Type) where
  _trialMove : Space K → σ → Slump K → Option (Space K × σ × Slump K)
  _energyChange : Space K → σ → Option (EDouble K × Space K × σ)
  _acceptMove : Space K → σ → Option (Space K × σ)
  _rejectMove : Space K → σ → Option (Space K × σ)

/-- Everything a move reads and writes: the base class members, the space it points to,
the members of the derived class and the global random source. -/
structure MoveState (K σ : Type) where
  base : Movebase K
  spc : Space K
  self : σ
  slp : Slump K

namespace Movebase

variable {K σ : Type} [LinearOrderedField K]

/-- The function `Movebase::trialMove`: the geometry must be set. -/
def trialMove (vt : MoveVT K σ) (s : MoveState K σ) : Option (MoveState K σ) :=
  if s.spc.geo.isSome then
    match vt._trialMove s.spc s.self s.slp with
    | none => none
    | some r =>
      some { base := { s.base with cnt := s.base.cnt + 1 }, spc := r.1, self := r.2.1,
             slp := r.2.2 }
  else none

/-- The function `Movebase::acceptMove`. -/
def acceptMove (vt : MoveVT K σ) (s : MoveState K σ) : Option (MoveState K σ) :=
  match vt._acceptMove s.spc s.self with
  | none => none
  | some r =>
    some { s with base := { s.base with cnt_accepted := s.base.cnt_accepted + 1 },
                  spc := r.1, self := r.2 }

/-- The function `Movebase::rejectMove`. -/
def rejectMove (vt : MoveVT K σ) (s : MoveState K σ) : Option (MoveState K σ) :=
  match vt._rejectMove s.spc s.self with
  | none => none
  | some r => some { s with spc := r.1, self := r.2 }

/-- The function `Movebase::energyChange`; it is not `const`, the state after the call
is part of the result. -/
def energyChange (vt : MoveVT K σ) (s : MoveState K σ) :
    Option (EDouble K × MoveState K σ) :=
  match vt._energyChange s.spc s.self with
  | none => none
  | some r => some (r.1, { s with spc := r.2.1, self := r.2.2 })

/-- The function `Movebase::move`; the result is the returned energy change and the
state after the call. -/
def move (exp : K → K) (vt : MoveVT K σ) (s : MoveState K σ) :
    Option (EDouble K × MoveState K σ) :=
  let r := s.base.run s.slp
  let s0 : MoveState K σ := { s with slp := r.2 }
  if r.1 = false then some (EDouble.fin 0, s0)
  else
    match trialMove vt s0 with
    | none => none
    | some s1 =>
      match energyChange vt s1 with
      | none => none
      | some e =>
        let du := e.1
        let t := metropolis exp du e.2.slp
        let s2 : MoveState K σ := { e.2 with slp := t.2 }
        if t.1 = false then
          match rejectMove vt s2 with
          | none => none
          | some s3 => some (EDouble.fin 0, s3)
        else
          match acceptMove vt s2 with
          | none => none
          | some s3 =>
            some (du, { s3 with base := { s3.base with dusum := s3.base.dusum.add du } })

end Movebase

/-! ## Single particle translation (`src/src/move.cpp`) -/

/-- The data members of `ParticleTranslation`; `igroup = none` is the null pointer. -/
structure ParticleTranslation (K : Type) where
  iparticle : ℤ
  igroup : Option Group
  dir : Point K
  sqrmap : List (ℕ × average K)
  accmap : List (ℕ × average K)

namespace ParticleTranslation

variable {K : Type} [LinearOrderedField K]

/-- The function `ParticleTranslation::setParticle`. -/
def setParticle (m : ParticleTranslation K) (i : ℤ) : ParticleTranslation K :=
  { m with iparticle := i, igroup := none }

/-- The function `ParticleTranslation::setGroup`. -/
def setGroup (m : ParticleTranslation K) (g : Group) : ParticleTranslation K :=
  { m with igroup := some g, iparticle := -1 }

/-- The function `ParticleTranslation::_trialMove`; `dp` is the displacement parameter
`atom[id].dp` of the species table. -/
def _trialMove [FloorRing K] (dp : ℕ → K) (spc : Space K) (m : ParticleTranslation K)
    (slp : Slump K) : Option (Space K × ParticleTranslation K × Slump K) :=
  let sel : ParticleTranslation K × Slump K :=
    match m.igroup with
    | some g => ({ m with iparticle := (g.random slp).1 }, (g.random slp).2)
    | none => (m, slp)
  if sel.1.iparticle > -1 then
    match spc.geo, vecGet spc.p sel.1.iparticle, vecGet spc.trial sel.1.iparticle with
    | some geo, some pi, some t =>
      let d := dp pi.id
      let r1 := sel.2.randHalf
      let r2 := r1.2.randHalf
      let r3 := r2.2.randHalf
      let t1 : particle K := { t with
        x := t.x + sel.1.dir.x * d * r1.1
        y := t.y + sel.1.dir.y * d * r2.1
        z := t.z + sel.1.dir.z * d * r3.1 }
      match vecSet spc.trial sel.1.iparticle (geo.boundaryParticle t1) with
      | some tr => some ({ spc with trial := tr }, sel.1, r3.2)
      | none => none
    | _, _, _ => none
  else some (spc, sel.1, sel.2)

/-- The function `ParticleTranslation::_acceptMove`. -/
def _acceptMove (spc : Space K) (m : ParticleTranslation K) :
    Option (Space K × ParticleTranslation K) :=
  match spc.geo, vecGet spc.p m.iparticle, vecGet spc.trial m.iparticle with
  | some geo, some pi, some t =>
    let r2 := geo.sqdist pi.toPoint t.toPoint
    match vecSet spc.p m.iparticle t with
    | some p1 =>
      some ({ spc with p := p1 },
        { m with sqrmap := mapAdd m.sqrmap pi.id r2, accmap := mapAdd m.accmap pi.id 1 })
    | none => none
  | _, _, _ => none

/-- The function `ParticleTranslation::_rejectMove`. -/
def _rejectMove (spc : Space K) (m : ParticleTranslation K) :
    Option (Space K × ParticleTranslation K) :=
  match vecGet spc.p m.iparticle with
  | some pi =>
    match vecSet spc.trial m.iparticle pi with
    | some tr =>
      some ({ spc with trial := tr },
        { m with sqrmap := mapAdd m.sqrmap pi.id 0, accmap := mapAdd m.accmap pi.id 0 })
    | none => none
  | none => none

/-- The function `ParticleTranslation::_energyChange`; `i_total` is the total interaction
energy of one index in a configuration, as given by the energy oracle `pot`.  The
collision type of the asserted call is the default argument, `BOUNDARY`. -/
def _energyChange (i_total : List (particle K) → ℤ → K) (spc : Space K)
    (m : ParticleTranslation K) : Option (EDouble K) :=
  if m.iparticle > -1 then
    match spc.geo, vecGet spc.p m.iparticle, vecGet spc.trial m.iparticle with
    | some geo, some pi, some t =>
      if geo.collision pi collisiontype.BOUNDARY = false then
        if geo.collision t collisiontype.BOUNDARY then some EDouble.infty
        else some (EDouble.fin (i_total spc.trial m.iparticle - i_total spc.p m.iparticle))
      else none
    | _, _, _ => none
  else some (EDouble.fin 0)

/-- The virtual functions of `ParticleTranslation`; its `_energyChange` changes nothing. -/
def vt [FloorRing K] (dp : ℕ → K) (i_total : List (particle K) → ℤ → K) :
    MoveVT K (ParticleTranslation K) :=
  { _trialMove := _trialMove dp
    _energyChange := fun spc m =>
      match _energyChange i_total spc m with
      | none => none
      | some du => some (du, spc, m)
    _acceptMove := _acceptMove
    _rejectMove := _rejectMove }

/-- The loop of `ParticleTranslation::move` over a bound group, `n` rounds to go with
`du` summed so far. -/
def moveLoop [FloorRing K] (exp : K → K) (dp : ℕ → K) (i_total : List (particle K) → ℤ → K)
    (g : Group) : ℕ → MoveState K (ParticleTranslation K) → EDouble K →
    Option (EDouble K × MoveState K (ParticleTranslation K))
  | 0, s, du => some (du, s)
  | n + 1, s, du =>
    let r := g.random s.slp
    let s0 : MoveState K (ParticleTranslation K) :=
      { s with slp := r.2, self := { s.self with iparticle := r.1 } }
    match vecGet s0.spc.p s0.self.iparticle with
    | none => none
    | some pi =>
      if dp pi.id > 1 / 10 ^ 5 then
        match Movebase.move exp (vt dp i_total) s0 with
        | none => none
        | some r1 => moveLoop exp dp i_total g n r1.2 (du.add r1.1)
      else moveLoop exp dp i_total g n s0 du

/-- The function `ParticleTranslation::move`. -/
def move [FloorRing K] (exp : K → K) (dp : ℕ → K) (i_total : List (particle K) → ℤ → K)
    (s : MoveState K (ParticleTranslation K)) :
    Option (EDouble K × MoveState K (ParticleTranslation K)) :=
  let r := s.base.run s.slp
  let s0 : MoveState K (ParticleTranslation K) := { s with slp := r.2 }
  if r.1 = false then some (EDouble.fin 0, s0)
  else
    match s0.self.igroup with
    | some g =>
      match moveLoop exp dp i_total g g.size.toNat s0 (EDouble.fin 0) with
      | none => none
      | some r1 => some (r1.1, { r1.2 with self := { r1.2.self with iparticle := -1 } })
    | none => Movebase.move exp (vt dp i_total) s0

end ParticleTranslation

/-! ## Configuration, constructors and the driving loop -/

/-- Modelled from the spec: class `InputMap` (`inputfile.h` is not among the sources), the
configuration surface: a value per keyword, when the keyword is present. -/
structure InputMap (K : Type) where
  map : String → Option K

/-- Modelled from the spec: `InputMap::get(key, fallback)`, the configured value of the
keyword or the fallback. -/
def InputMap.get {K : Type} (inp : InputMap K) (key : String) (fallback : K) : K :=
  (inp.map key).getD fallback

/-- The constructor `Movebase::Movebase`: counters and energy sum zero, `runfraction = 1`. -/
def Movebase.Movebase {K : Type} [LinearOrderedField K] : Movebase K :=
  { cnt := 0, cnt_accepted := 0, dusum := EDouble.fin 0, runfraction := 1 }

/-- The driving loop: `n` calls of `Movebase::move` in sequence, the returned values
collected in order. -/
def Movebase.moveN {K σ : Type} [LinearOrderedField K] (exp : K → K) (vt : MoveVT K σ) :
    ℕ → MoveState K σ → Option (List (EDouble K) × MoveState K σ)
  | 0, s => some ([], s)
  | n + 1, s =>
    match Movebase.move exp vt s with
    | none => none
    | some r =>
      match Movebase.moveN exp vt n r.2 with
      | none => none
      | some rs => some (r.1 :: rs.1, rs.2)

/-! ## Group rotation and translation (`src/src/move.cpp`) -/

/-- The data members of `RotateGroup`; the statistics maps have the group name as key. -/
structure RotateGroup (K : Type) where
  igroup : Option Group
  dir : Point K
  groupWiseEnergy : Bool
  dp_trans : K
  dp_rot : K
  angle : K
  sqrmap_t : List (String × average K)
  sqrmap_r : List (String × average K)
  accmap : List (String × average K)

/-- The constructor `RotateGroup::RotateGroup`, with `pc::pi` given; the result is the
base class part and the members of the derived class (`angle` is left unset by the
source, it is 0 here). -/
def RotateGroup.RotateGroup {K : Type} [LinearOrderedField K] (pi : K) (inp : InputMap K)
    (pfx : String) : Movebase K × RotateGroup K :=
  let base : Movebase K := Movebase.Movebase
  let runfraction := inp.get (pfx ++ "_runfraction") 1
  let dp_trans := inp.get (pfx ++ "_transdp") 2
  let dp_rot0 := inp.get (pfx ++ "_rotdp") 100
  let dp_rot := if dp_rot0 > 4 * pi then 4 * pi else dp_rot0
  let runfraction1 := if dp_rot < 1 / 10 ^ 6 ∧ dp_trans < 1 / 10 ^ 6 then 0 else runfraction
  ({ base with runfraction := runfraction1 },
   { igroup := none, dir := ⟨1, 1, 1⟩, groupWiseEnergy := false, dp_trans := dp_trans,
     dp_rot := dp_rot, angle := 0, sqrmap_t := [], sqrmap_r := [], accmap := [] })

/-- The constructor `ParticleTranslation::ParticleTranslation`: the value read by
`in.get(prefix+"_runfraction",0.)` is not assigned to anything. -/
def ParticleTranslation.ParticleTranslation {K : Type} [LinearOrderedField K]
    (inp : InputMap K) (pfx : String) : Movebase K × ParticleTranslation K :=
  let base : Movebase K := Movebase.Movebase
  let _value := inp.get (pfx ++ "_runfraction") 0
  (base, { iparticle := -1, igroup := none, dir := ⟨1, 1, 1⟩, sqrmap := [], accmap := [] })

/-! ## Isobaric volume move (`src/src/move.cpp`) -/

/-- The virtual functions of a geometry with state `G` that the volume move calls, and
its view through the interface of the other moves. -/
structure GeometryVT (K G : Type) where
  getVolume : G → K
  setVolume : G → K → Option G
  scale : G → Point K → K → Option (Point K)
  toGeometrybase : G → Geometrybase K

/-- Modelled from the spec: `Cuboid::boundary` (defined in `geometry.h`, not among the
sources): each coordinate is wrapped by the minimum image rule, `length * round(x/length)`
being subtracted. -/
def Cuboid.boundary {K : Type} [LinearOrderedField K] [FloorRing K] (c : Cuboid K)
    (a : Point K) : Point K :=
  ⟨a.x - c.len.x * (round (a.x / c.len.x) : ℤ), a.y - c.len.y * (round (a.y / c.len.y) : ℤ),
   a.z - c.len.z * (round (a.z / c.len.z) : ℤ)⟩

/-- Modelled from the spec: `Cuboid::sqdist` (defined in `geometry.h`): the Euclidean
squared length of the difference after the boundary convention. -/
def Cuboid.sqdist {K : Type} [LinearOrderedField K] [FloorRing K] (c : Cuboid K)
    (p1 p2 : Point K) : K :=
  (c.boundary (p1.sub p2)).sqdist ⟨0, 0, 0⟩

/-- A cuboid seen through the virtual interface. -/
def Cuboid.toGeometrybase {K : Type} [LinearOrderedField K] [FloorRing K] (c : Cuboid K) :
    Geometrybase K :=
  { boundary := c.boundary, sqdist := c.sqdist, collision := c.collision }

/-- The virtual functions of a cuboid. -/
def Cuboid.geometryVT {K : Type} [LinearOrderedField K] [FloorRing K] (pow : K → K → K) :
    GeometryVT K (Cuboid K) :=
  { getVolume := Cuboid.getVolume
    setVolume := Cuboid.setVolume pow
    scale := Cuboid.scale pow
    toGeometrybase := Cuboid.toGeometrybase }

/-- The virtual functions of a sphere. -/
def Sphere.geometryVT {K : Type} [LinearOrderedField K] (pow : K → K → K) (pi : K) :
    GeometryVT K (Sphere K) :=
  { getVolume := Sphere.getVolume pow pi
    setVolume := Sphere.setVolume pow pi
    scale := Sphere.scale pow pi
    toGeometrybase := Sphere.toGeometrybase }

/-- Modelled from the spec: the interface of the energy oracle (`class Energybase`, not
among the sources) as far as the volume move consults it: group to group, group to
external field, group internal and `external()`; all read the geometry, whose state is
the first argument. -/
structure Energybase (K G : Type) where
  g2g : G → List (particle K) → Group → Group → K
  g_external : G → List (particle K) → Group → K
  g_internal : G → List (particle K) → Group → K
  external : G → K

/-- Modelled from the spec: the number of independently movable entities of a group, its
atoms when the group is atomic and one when it is molecular. -/
def Group.numMolecules (g : Group) : ℤ :=
  if g.id = GroupType.ATOMIC then g.size else 1

/-- Modelled from the spec: the energy term `Energy::ExternalPressure(geometry, P)` (not
among the sources) of the isobaric ensemble.  By spec 4.5 the energy change given to the
Metropolis step folds in `P*dV` and `-(N+1)*ln(V_new/V_old)`, `N` the number of movable
entities: the term gives `P*V - ln V` to `external()` and `-N_g*ln V` to `g_external` of a
group with `N_g` movable entities. -/
def ExternalPressure {K G : Type} [LinearOrderedField K] (log : K → K) (getVolume : G → K)
    (P : K) : Energybase K G :=
  { g2g := fun _ _ _ _ => 0
    g_external := fun geo _ g => -(g.numMolecules : K) * log (getVolume geo)
    g_internal := fun _ _ _ => 0
    external := fun geo => P * getVolume geo - log (getVolume geo) }

/-- Modelled from the spec: `Hamiltonian::create(term)` (not among the sources): the
Hamiltonian gets one more term, each of its energies is the sum over its terms. -/
def Energybase.create {K G : Type} [LinearOrderedField K] (e t : Energybase K G) :
    Energybase K G :=
  { g2g := fun geo p a b => e.g2g geo p a b + t.g2g geo p a b
    g_external := fun geo p a => e.g_external geo p a + t.g_external geo p a
    g_internal := fun geo p a => e.g_internal geo p a + t.g_internal geo p a
    external := fun geo => e.external geo + t.external geo }

/-- A loop `for (int i=beg; i<=end; i++)` with `n` rounds to go, the body being `f`. -/
def forRange {σ : Type} (f : ℤ → σ → Option σ) : ℕ → ℤ → σ → Option σ
  | 0, _, s => some s
  | n + 1, i, s =>
    match f i s with
    | none => none
    | some s1 => forRange f n (i + 1) s1

/-- A loop `for (auto g : spc->g)` with body `f`. -/
def forGroups {σ : Type} (f : Group → σ → Option σ) : List Group → σ → Option σ
  | [], s => some s
  | g :: gs, s =>
    match f g s with
    | none => none
    | some s1 => forGroups f gs s1

/-- Modelled from the spec: `Group::scale(spc, newvolume)` (`group.cpp` is not among the
sources): the trial coordinates of every member are rescaled by the `scale` of the
geometry. -/
def Group.scale {K : Type} [LinearOrderedField K] (scale : Point K → K → Option (Point K))
    (g : Group) (spc : Space K) (newvolume : K) : Option (Space K) :=
  forRange (fun i s =>
    match vecGet s.trial i with
    | none => none
    | some t =>
      match scale t.toPoint newvolume with
      | none => none
      | some q =>
        match vecSet s.trial i { t with toPoint := q } with
        | none => none
        | some tr => some { s with trial := tr }) g.size.toNat g.beg spc

/-- Modelled from the spec: `Group::accept(spc)`: the trial state of every member is
committed to the current configuration. -/
def Group.accept {K : Type} (g : Group) (spc : Space K) : Option (Space K) :=
  forRange (fun i s =>
    match vecGet s.trial i with
    | none => none
    | some t =>
      match vecSet s.p i t with
      | none => none
      | some p1 => some { s with p := p1 }) g.size.toNat g.beg spc

/-- Modelled from the spec: `Group::undo(spc)`: the trial state of every member is
restored from the current configuration. -/
def Group.undo {K : Type} (g : Group) (spc : Space K) : Option (Space K) :=
  forRange (fun i s =>
    match vecGet s.p i with
    | none => none
    | some a =>
      match vecSet s.trial i a with
      | none => none
      | some tr => some { s with trial := tr }) g.size.toNat g.beg spc

/-- The loop `for (int i=g->beg; i<=g->end; i++) if (collision(trial[i],BOUNDARY))
return pc::infty;` with `n` rounds to go: `some true` when a collision was found. -/
def collidesRange {K : Type} (geo : Geometrybase K) (trial : List (particle K)) :
    ℕ → ℤ → Option Bool
  | 0, _ => some false
  | n + 1, i =>
    match vecGet trial i with
    | none => none
    | some t =>
      if geo.collision t collisiontype.BOUNDARY then some true
      else collidesRange geo trial n (i + 1)

/-- The collision loop over all groups. -/
def collidesGroups {K : Type} (geo : Geometrybase K) (trial : List (particle K)) :
    List Group → Option Bool
  | [] => some false
  | g :: gs =>
    match collidesRange geo trial g.size.toNat g.beg with
    | none => none
    | some true => some true
    | some false => collidesGroups geo trial gs

/-- The double loop `for i < size-1, for j > i` of `Isobaric::_energy`, summing `f` over
the pairs of groups. -/
def pairSum {K : Type} [LinearOrderedField K] (f : Group → Group → K) : List Group → K
  | [] => 0
  | a :: t => (t.map (f a)).sum + pairSum f t

/-- The data members of `Isobaric`, with the Hamiltonian it points to and the geometry
object that `spc->geo` and the Hamiltonian share. -/
structure Isobaric (K G : Type) where
  dV : K
  P : K
  oldV : K
  newV : K
  V : average K
  sqrV : average K
  hamiltonian : Energybase K G
  geo : G

namespace Isobaric

variable {K G : Type} [LinearOrderedField K]

/-- Modelled from the spec: `Hamiltonian::setVolume(vol)` (not among the sources): the
active volume of the geometry is switched, by `Geometrybase::setVolume`. -/
def setVolume (gvt : GeometryVT K G) (spc : Space K) (m : Isobaric K G) (vol : K) :
    Option (Space K × Isobaric K G) :=
  match gvt.setVolume m.geo vol with
  | none => none
  | some g1 => some ({ spc with geo := some (gvt.toGeometrybase g1) }, { m with geo := g1 })

/-- The function `Isobaric::_trialMove`, with `exp` and `log` given. -/
def _trialMove (exp log : K → K) (gvt : GeometryVT K G) (spc : Space K) (m : Isobaric K G)
    (slp : Slump K) : Option (Space K × Isobaric K G × Slump K) :=
  if 0 < spc.g.length then
    let oldV := gvt.getVolume m.geo
    let r := slp.randHalf
    let newV := exp (log oldV + r.1 * m.dV)
    match forGroups (fun g s => g.scale (gvt.scale m.geo) s newV) spc.g spc with
    | none => none
    | some spc1 => some (spc1, { m with oldV := oldV, newV := newV }, r.2)
  else none

/-- The function `Isobaric::_energy` on the configuration `p`, the geometry being in
state `geo`.  With an empty group vector the bound `size()-1` of the first loop wraps
around and the vector is read outside its range, which is `none`. -/
def _energy (pot : Energybase K G) (geo : G) (gs : List Group) (p : List (particle K)) :
    Option K :=
  if gs.length = 0 then none
  else
    some (pairSum (pot.g2g geo p) gs +
      (gs.map (fun g => pot.g_external geo p g +
        (if g.id = GroupType.ATOMIC then pot.g_internal geo p g else 0))).sum +
      pot.external geo)

/-- The function `Isobaric::_energyChange`: the geometry is switched to `newV` before the
collision loop and stays so. -/
def _energyChange (gvt : GeometryVT K G) (spc : Space K) (m : Isobaric K G) :
    Option (EDouble K × Space K × Isobaric K G) :=
  match _energy m.hamiltonian m.geo spc.g spc.p with
  | none => none
  | some uold =>
    match setVolume gvt spc m m.newV with
    | none => none
    | some r =>
      match r.1.geo with
      | none => none
      | some geo =>
        match collidesGroups geo r.1.trial r.1.g with
        | none => none
        | some true => some (EDouble.infty, r.1, r.2)
        | some false =>
          match _energy r.2.hamiltonian r.2.geo r.1.g r.1.trial with
          | none => none
          | some unew => some (EDouble.fin (unew - uold), r.1, r.2)

/-- The function `Isobaric::_acceptMove`, with `pow` given. -/
def _acceptMove (pow : K → K → K) (gvt : GeometryVT K G) (spc : Space K) (m : Isobaric K G) :
    Option (Space K × Isobaric K G) :=
  let m1 : Isobaric K G :=
    { m with V := m.V.add m.newV, sqrV := m.sqrV.add (pow (m.oldV - m.newV) 2) }
  match setVolume gvt spc m1 m1.newV with
  | none => none
  | some r =>
    match forGroups (fun g s => g.accept s) r.1.g r.1 with
    | none => none
    | some spc1 => some (spc1, r.2)

/-- The function `Isobaric::_rejectMove`. -/
def _rejectMove (gvt : GeometryVT K G) (spc : Space K) (m : Isobaric K G) :
    Option (Space K × Isobaric K G) :=
  let m1 : Isobaric K G := { m with sqrV := m.sqrV.add 0, V := m.V.add m.oldV }
  match setVolume gvt spc m1 m1.oldV with
  | none => none
  | some r =>
    match forGroups (fun g s => g.undo s) r.1.g r.1 with
    | none => none
    | some spc1 => some (spc1, r.2)

/-- The virtual functions of `Isobaric`. -/
def vt (exp log : K → K) (pow : K → K → K) (gvt : GeometryVT K G) :
    MoveVT K (Isobaric K G) :=
  { _trialMove := _trialMove exp log gvt
    _energyChange := _energyChange gvt
    _acceptMove := _acceptMove pow gvt
    _rejectMove := _rejectMove gvt }

end Isobaric

/-- The constructor `Isobaric::Isobaric`, with `log` and the constant `pc::Nav` given; `e`
is the Hamiltonian and `geo` the geometry object of the space.  The result is the base
class part and the members of the derived class (`oldV`, `newV` are left unset by the
source, they are 0 here). -/
def Isobaric.Isobaric {K G : Type} [LinearOrderedField K] (log : K → K) (Nav : K)
    (gvt : GeometryVT K G) (inp : InputMap K) (e : Energybase K G) (geo : G) (pfx : String) :
    Movebase K × Isobaric K G :=
  let base : Movebase K := Movebase.Movebase
  let dV := inp.get (pfx ++ "_dV") 0
  let P := inp.get (pfx ++ "_P") 0 / 10 ^ 30 * Nav
  let runfraction := inp.get (pfx ++ "_runfraction") 1
  let runfraction1 := if dV < 1 / 10 ^ 6 then 0 else runfraction
  ({ base with runfraction := runfraction1 },
   { dV := dV, P := P, oldV := 0, newV := 0, V := ⟨0, 0⟩, sqrV := ⟨0, 0⟩,
     hamiltonian := e.create (ExternalPressure log gvt.getVolume P), geo := geo })

/-! ## Grand canonical salt bath (`src/src/move.cpp`) -/

/-- Modelled from the spec: an entry `AtomData` of the species table `atom` (`species.h`
is not among the sources), as far as the bath reads it. -/
structure AtomData (K : Type) where
  id : ℕ
  charge : K
  chempot : K
  radius : K
  mw : K

/-- Modelled from the spec: the conversion of a species entry to a particle, as in
`pa=atom[ida]`: the properties of the species at the origin. -/
def AtomData.toParticle {K : Type} [LinearOrderedField K] (a : AtomData K) : particle K :=
  { x := 0, y := 0, z := 0, charge := a.charge, radius := a.radius, mw := a.mw, id := a.id }

/-- The structure `iondata` of the bath: the particle indices `pos` of one species and
its valence `z`. -/
structure iondata where
  pos : List ℤ
  z : ℕ
  deriving DecidableEq

/-- Read of `m[k].z`; `operator[]` gives a zero-initialised entry for an absent key. -/
def mapZ (m : List (ℕ × iondata)) (k : ℕ) : ℕ :=
  match m with
  | [] => 0
  | e :: t => if e.1 = k then e.2.z else mapZ t k

/-- The statement `m[k] = d` on a `std::map<short, iondata>`. -/
def mapSet (m : List (ℕ × iondata)) (k : ℕ) (d : iondata) : List (ℕ × iondata) :=
  match m with
  | [] => [(k, d)]
  | e :: t => if e.1 = k then (e.1, d) :: t else e :: mapSet t k d

/-- The statement `m[k].pos.push_back(i)`; the entry is created when it is absent. -/
def mapPush (m : List (ℕ × iondata)) (k : ℕ) (i : ℤ) : List (ℕ × iondata) :=
  match m with
  | [] => [(k, { pos := [i], z := 0 })]
  | e :: t =>
    if e.1 = k then (e.1, { e.2 with pos := e.2.pos ++ [i] }) :: t else e :: mapPush t k i

/-- The statement `m[k].pos = f(m[k].pos)`, as `std::random_shuffle` makes it; the entry
is created when it is absent. -/
def mapOnPos (m : List (ℕ × iondata)) (k : ℕ) (f : List ℤ → List ℤ) : List (ℕ × iondata) :=
  match m with
  | [] => [(k, { pos := f [], z := 0 })]
  | e :: t =>
    if e.1 = k then (e.1, { e.2 with pos := f e.2.pos }) :: t else e :: mapOnPos t k f

/-- Modelled from the spec: `Space::insert(particle)` (`space.cpp` is not among the
sources): the particle is appended to the current and to the trial configuration. -/
def Space.insert {K : Type} (spc : Space K) (a : particle K) : Space K :=
  { spc with p := spc.p ++ [a], trial := spc.trial ++ [a] }

/-- Modelled from the spec: `Space::remove(j)`: particle `j` is removed from the current
and the trial configuration and every group index behind it is decremented; `none`
outside the range. -/
def Space.remove {K : Type} (spc : Space K) (j : ℤ) : Option (Space K) :=
  if 0 ≤ j ∧ j.toNat < spc.p.length ∧ j.toNat < spc.trial.length then
    some { spc with
      p := spc.p.eraseIdx j.toNat
      trial := spc.trial.eraseIdx j.toNat
      g := spc.g.map (fun g =>
        if j < g.beg then { g with beg := g.beg - 1, end_ := g.end_ - 1 }
        else if j ≤ g.end_ then { g with end_ := g.end_ - 1 } else g) }
  else none

/-- The data members of the class `bath`: the ion ledger (cations and anions by species)
and the trial vectors. -/
structure bath (K : Type) where
  cations : List (ℕ × iondata)
  anions : List (ℕ × iondata)
  trial_ins : List (particle K)
  trial_del : List ℤ

namespace bath

variable {K : Type} [LinearOrderedField K]

/-- The inner loop of `bath::add`: the indices of the range whose particle is of species
`id`, `n` rounds to go. -/
def addScan (p : List (particle K)) (id : ℕ) : ℕ → ℤ → List ℤ → Option (List ℤ)
  | 0, _, pos => some pos
  | n + 1, i, pos =>
    match vecGet p i with
    | none => none
    | some a => addScan p id n (i + 1) (if a.id = id then pos ++ [i] else pos)

/-- The outer loop of `bath::add` over the species table. -/
def addLoop [FloorRing K] (spc : Space K) (g : Group) :
    List (AtomData K) → bath K → Option (bath K)
  | [], b => some b
  | a :: as, b =>
    if a.chempot ≠ 0 then
      match addScan spc.p a.id g.size.toNat g.beg [] with
      | none => none
      | some pos =>
        if pos ≠ [] then
          let d : iondata := { pos := pos, z := (⌊|a.charge|⌋ : ℤ).toNat }
          let b1 : bath K := if a.charge > 0 then { b with cations := mapSet b.cations a.id d } else b
          let b2 : bath K := if a.charge < 0 then { b1 with anions := mapSet b1.anions a.id d } else b1
          addLoop spc g as b2
        else addLoop spc g as b
    else addLoop spc g as b

/-- The function `bath::add`; `atomlist` is `atom.list`.  Both ledgers must be non-empty
afterwards. -/
def add [FloorRing K] (atomlist : List (AtomData K)) (spc : Space K) (b : bath K) (g : Group) :
    Option (bath K) :=
  match addLoop spc g atomlist b with
  | none => none
  | some b1 => if b1.cations ≠ [] ∧ b1.anions ≠ [] then some b1 else none

/-- The statement `pos.erase(pos.begin()+j)`: the element at position `j` is erased;
`none` when there is no such position. -/
def eraseAt (pos : List ℤ) (j : ℤ) : Option (List ℤ) :=
  if 0 ≤ j ∧ j.toNat < pos.length then some (pos.eraseIdx j.toNat) else none

/-- The body of the loops of `bath::remove` on one ledger entry: when the value `j` is
found in `pos`, `erase(begin()+j)`; then every index above `j` is decremented. -/
def removeEntry (j : ℤ) (d : iondata) : Option iondata :=
  match (if j ∈ d.pos then eraseAt d.pos j else some d.pos) with
  | none => none
  | some pos1 => some { d with pos := pos1.map (fun i => if i > j then i - 1 else i) }

/-- A loop `for (auto &m : ledger)` of `bath::remove`. -/
def removeLedger (j : ℤ) : List (ℕ × iondata) → Option (List (ℕ × iondata))
  | [] => some []
  | e :: t =>
    match removeEntry j e.2 with
    | none => none
    | some d =>
      match removeLedger j t with
      | none => none
      | some t1 => some ((e.1, d) :: t1)

/-- The function `bath::remove`. -/
def remove (spc : Space K) (b : bath K) (j : ℤ) : Option (Space K × bath K) :=
  match removeLedger j b.cations with
  | none => none
  | some c1 =>
    match removeLedger j b.anions with
    | none => none
    | some a1 =>
      match spc.remove j with
      | none => none
      | some spc1 => some (spc1, { b with cations := c1, anions := a1 })

/-- The loop of `bath::insert` over the batch, `cnt` being the running index. -/
def insertLoop : List (particle K) → ℤ → Space K → bath K → Space K × bath K
  | [], _, spc, b => (spc, b)
  | t :: ts, cnt, spc, b =>
    let spc1 := spc.insert t
    let b1 : bath K := if t.charge > 0 then { b with cations := mapPush b.cations t.id cnt } else b
    let cnt1 : ℤ := if t.charge > 0 then cnt + 1 else cnt
    let b2 : bath K := if t.charge < 0 then { b1 with anions := mapPush b1.anions t.id cnt1 } else b1
    let cnt2 : ℤ := if t.charge < 0 then cnt1 + 1 else cnt1
    insertLoop ts cnt2 spc1 b2

/-- The function `bath::insert`; the batch must not be empty. -/
def insert (spc : Space K) (b : bath K) : Option (Space K × bath K) :=
  if b.trial_ins ≠ [] then some (insertLoop b.trial_ins (spc.p.length : ℤ) spc b) else none

/-- The loop `do { trial_ins.push_back(pa); } while (Na-->0);` with `Na` as first
argument. -/
def pushLoop (pa : particle K) : ℕ → List (particle K) → List (particle K)
  | 0, l => l ++ [pa]
  | n + 1, l => pushLoop pa n (l ++ [pa])

/-- The loop `for (auto &p : trial_ins) spc->geo->randompos(p);`, the `randompos` of the
geometry being given. -/
def randomposLoop (randompos : Point K → Slump K → Point K × Slump K) :
    List (particle K) → Slump K → List (particle K) × Slump K
  | [], slp => ([], slp)
  | t :: ts, slp =>
    let r := randompos t.toPoint slp
    let rs := randomposLoop randompos ts r.2
    ({ t with toPoint := r.1 } :: rs.1, rs.2)

/-- The function `bath::_trialMove`.  The source declares the species `ida`, `idb` and
leaves the choice open (`//pick by random`): they are arguments here, as are the
permutation of `std::random_shuffle` and the `randompos` of the geometry. -/
def _trialMove (atom : List (AtomData K)) (shuffle : List ℤ → List ℤ)
    (randompos : Point K → Slump K → Point K × Slump K) (ida idb : ℕ) (b : bath K)
    (slp : Slump K) : Option (bath K × Slump K) :=
  let Na := mapZ b.cations ida
  let Nb := mapZ b.anions idb
  let cations1 := mapOnPos b.cations ida shuffle
  let anions1 := mapOnPos b.anions idb shuffle
  match atom.get? ida, atom.get? idb with
  | some a, some c =>
    let l1 := pushLoop a.toParticle Na []
    let l2 := pushLoop c.toParticle Nb l1
    let r := randomposLoop randompos l2 slp
    some ({ cations := cations1, anions := anions1, trial_ins := r.1, trial_del := [] }, r.2)
  | _, _ => none

end bath

/-! ## Grand canonical proton titration (`src/include/faunus/moves/charge.h`) -/

/-- Modelled from the spec: the two outcomes of a proton exchange, the enumeration of
class `titrate` (not among the sources) that `PROTONATED` belongs to. -/
inductive titrate.keys where
  | PROTONATED
  | DEPROTONATED
  deriving DecidableEq

/-- Modelled from the spec: `titrate::action`, the exchange that was made, with the index
of the site and of the bulk proton. -/
structure titrate.action where
  action : titrate.keys
  site : ℤ
  proton : ℤ
  deriving DecidableEq

/-- The members that `HAchargereg::energy` reads: `ph` and the list `protons` of bulk
proton indices, inherited from `titrate`, and `CatPot`. -/
structure HAchargereg (K : Type) where
  ph : K
  protons : List ℤ
  CatPot : K

namespace HAchargereg

variable {K : Type} [LinearOrderedField K]

/-- The function `HAchargereg::energy`, with `log` given; `pka` is the table
`con->d[i].pka` of the species and `getvolume` the value of `con->getvolume()`. -/
def energy (log : K → K) (pka : ℕ → K) (getvolume : K) (h : HAchargereg K)
    (p : List (particle K)) (du : K) (a : titrate.action) : Option K :=
  match vecGet p a.site with
  | none => none
  | some ps =>
    let i := ps.id
    if a.action = titrate.keys.PROTONATED then
      some (du + (log 10 * (h.ph - pka i)) + h.CatPot -
        log ((h.protons.length : K) / getvolume))
    else
      some (du - (log 10 * (h.ph - pka i)) - h.CatPot +
        log (((h.protons.length + 1 : ℕ) : K) / getvolume))

end HAchargereg

/-! ## Trial move of the group rotation (`src/src/move.cpp`) -/

/-- Modelled from the spec: `Group::rotate(spc, endpoint, angle)` (`group.cpp` is not
among the sources): the axis runs from the mass centre `cm` of the group to the end
point, `VectorRotate` is set on it and applied to the trial particle of every member. -/
def Group.rotate {K : Type} [LinearOrderedField K] (sqrt cos sin : K → K) (g : Group)
    (cm : Point K) (spc : Space K) (endpoint : Point K) (angle : K) : Option (Space K) :=
  match spc.geo with
  | none => none
  | some geo =>
    let vrot := VectorRotate.setAxis sqrt cos sin geo cm endpoint angle
    forRange (fun i s =>
      match vecGet s.trial i with
      | none => none
      | some t =>
        match vecSet s.trial i { t with toPoint := vrot.rotate geo t.toPoint } with
        | none => none
        | some tr => some { s with trial := tr }) g.size.toNat g.beg spc

/-- Modelled from the spec: `Group::translate(spc, p)` (`group.cpp` is not among the
sources): the trial particle of every member is displaced by `p` and wrapped by the
boundary of the geometry. -/
def Group.translate {K : Type} [LinearOrderedField K] (g : Group) (spc : Space K)
    (p : Point K) : Option (Space K) :=
  match spc.geo with
  | none => none
  | some geo =>
    forRange (fun i s =>
      match vecGet s.trial i with
      | none => none
      | some t =>
        match vecSet s.trial i { t with toPoint := geo.boundary (t.toPoint.add p) } with
        | none => none
        | some tr => some { s with trial := tr }) g.size.toNat g.beg spc

/-- The function `RotateGroup::setGroup`; the assertion on the address of a reference
always holds. -/
def RotateGroup.setGroup {K : Type} (m : Faunus.RotateGroup K) (g : Group) :
    Faunus.RotateGroup K :=
  { m with igroup := some g }

/-- The loop `while (r>1)` of `RotateGroup::_trialMove` with `n` rounds allowed, `sqrt`
given; `none` when it has not ended within them. -/
def RotateGroup.axisLoop {K : Type} [LinearOrderedField K] (sqrt : K → K) :
    ℕ → Point K → K → Slump K → Option (Point K × Slump K)
  | 0, p, r, slp => if r > 1 then none else some (p, slp)
  | n + 1, p, r, slp =>
    if r > 1 then
      let r1 := slp.randHalf
      let r2 := r1.2.randHalf
      let r3 := r2.2.randHalf
      let p1 : Point K := ⟨2 * r1.1, 2 * r2.1, 2 * r3.1⟩
      RotateGroup.axisLoop sqrt n p1 (sqrt (p1.x * p1.x + p1.y * p1.y + p1.z * p1.z)) r3.2
    else some (p, slp)

/-- The function `RotateGroup::_trialMove`, with `sqrt`, `cos`, `sin` given, `fuel`
rounds allowed to the rejection loop, and `cm` the member `cm` of the bound group (the
class `Group` is not among the sources); a group must be bound. -/
def RotateGroup._trialMove {K : Type} [LinearOrderedField K] (sqrt cos sin : K → K)
    (cm : Point K) (fuel : ℕ) (spc : Space K) (m : Faunus.RotateGroup K) (slp : Slump K) :
    Option (Space K × Faunus.RotateGroup K × Slump K) :=
  match m.igroup with
  | none => none
  | some g =>
    let r0 := slp.randHalf
    let m1 : Faunus.RotateGroup K := { m with angle := m.dp_rot * r0.1 }
    match RotateGroup.axisLoop sqrt fuel ⟨0, 0, 0⟩ 2 r0.2 with
    | none => none
    | some r =>
      let p := cm.add r.1
      match g.rotate sqrt cos sin cm spc p m1.angle with
      | none => none
      | some spc1 =>
        let t1 := r.2.randHalf
        let t2 := t1.2.randHalf
        let t3 := t2.2.randHalf
        let q : Point K :=
          ⟨m1.dir.x * m1.dp_trans * t1.1, m1.dir.y * m1.dp_trans * t2.1,
            m1.dir.z * m1.dp_trans * t3.1⟩
        match g.translate spc1 q with
        | none => none
        | some spc2 => some (spc2, m1, t3.2)

/-! ## Slices, random positions and persistence of the geometries (`src/src/geometry.cpp`) -/

/-- The function `Cuboid::setslice`: six assertions, then the guarded update. -/
def Cuboid.setslice {K : Type} [LinearOrderedField K] (c : Cuboid K) (min max : Point K) :
    Option (Bool × Cuboid K) :=
  if 0 ≤ min.x ∧ 0 ≤ min.y ∧ 0 ≤ min.z ∧ max.x ≤ c.len.x ∧ max.y ≤ c.len.y ∧ max.z ≤ c.len.z then
    if min.x < 0 ∨ min.y < 0 ∨ min.z < 0 then some (false, c)
    else if max.x > c.len.x ∨ max.y > c.len.y ∨ max.z > c.len.z then some (false, c)
    else some (true, { c with slice_min := c.len_half.sub max, slice_max := c.len_half.sub min })
  else none

/-- The loop `while (l>r2)` of `Sphere::randompos` with `n` rounds allowed; `none` when
it has not ended within them.  The variates are those of the random source `slp` of the
geometry. -/
def Sphere.randomposLoop {K : Type} [LinearOrderedField K] (s : Sphere K) :
    ℕ → Point K → K → Slump K → Option (Point K × Slump K)
  | 0, m, l, slp => if l > s.r2 then none else some (m, slp)
  | n + 1, m, l, slp =>
    if l > s.r2 then
      let r1 := slp.randHalf
      let r2 := r1.2.randHalf
      let r3 := r2.2.randHalf
      let m1 : Point K := ⟨r1.1 * s.diameter, r2.1 * s.diameter, r3.1 * s.diameter⟩
      Sphere.randomposLoop s n m1 (m1.x * m1.x + m1.y * m1.y + m1.z * m1.z) r3.2
    else some (m, slp)

/-- The function `Sphere::randompos`, with `fuel` rounds allowed to the rejection loop. -/
def Sphere.randompos {K : Type} [LinearOrderedField K] (s : Sphere K) (fuel : ℕ)
    (m : Point K) (slp : Slump K) : Option (Point K × Slump K) :=
  Sphere.randomposLoop s fuel m (s.r2 + 1) slp

/-- The function `Cuboid::randompos(Point&)`. -/
def Cuboid.randompos {K : Type} [LinearOrderedField K] (c : Cuboid K) (_m : Point K)
    (slp : Slump K) : Point K × Slump K :=
  let r1 := slp.randHalf
  let r2 := r1.2.randHalf
  let r3 := r2.2.randHalf
  (⟨r1.1 * c.len.x, r2.1 * c.len.y, r3.1 * c.len.z⟩, r3.2)

/-- The loop `while (l>r2)` of `Cylinder::randompos` with `n` rounds allowed; `none` when
it has not ended within them. -/
def Cylinder.randomposLoop {K : Type} [LinearOrderedField K] (c : Cylinder K) :
    ℕ → Point K → K → Slump K → Option (Point K × Slump K)
  | 0, m, l, slp => if l > c.r2 then none else some (m, slp)
  | n + 1, m, l, slp =>
    if l > c.r2 then
      let r1 := slp.randHalf
      let r2 := r1.2.randHalf
      let m1 : Point K := { m with x := r1.1 * c.diameter, y := r2.1 * c.diameter }
      Cylinder.randomposLoop c n m1 (m1.x * m1.x + m1.y * m1.y) r2.2
    else some (m, slp)

/-- The function `Cylinder::randompos`, with `fuel` rounds allowed to the rejection
loop. -/
def Cylinder.randompos {K : Type} [LinearOrderedField K] (c : Cylinder K) (fuel : ℕ)
    (m : Point K) (slp : Slump K) : Option (Point K × Slump K) :=
  let r0 := slp.randHalf
  Cylinder.randomposLoop c fuel { m with z := r0.1 * c.len } (c.r2 + 1) r0.2

/-- The function `Geometrybase::save`.  A file is the list of the numbers written to it,
separated by white space (the rounding to ten digits is not modelled); `none` is a file
that does not exist, `writable` tells whether the output stream can be opened.  The
result is the returned flag and the file afterwards. -/
def Geometrybase.save {K : Type} (getVolume : K) (writable : Bool) (file : Option (List K)) :
    Bool × Option (List K) :=
  if writable then (true, some [getVolume]) else (false, file)

/-- The function `Geometrybase::load`: the first number of the file is the volume.  An
empty file leaves `vol` without a value, which is `none`. -/
def Geometrybase.load {K G : Type} (setVolume : G → K → Option G) (g : G)
    (file : Option (List K)) (_resize : Bool) : Option (Bool × G) :=
  match file with
  | some (vol :: _) =>
    match setVolume g vol with
    | none => none
    | some g1 => some (true, g1)
  | some [] => none
  | none => some (false, g)

/-- The function `Cuboid::save`: the volume by `Geometrybase::save`, then the three side
lengths appended. -/
def Cuboid.save {K : Type} [LinearOrderedField K] (c : Cuboid K) (writable : Bool)
    (file : Option (List K)) : Bool × Option (List K) :=
  let r := Geometrybase.save c.getVolume writable file
  if r.1 then
    if writable then
      (true, match r.2 with
        | some l => some (l ++ [c.len.x, c.len.y, c.len.z])
        | none => some [c.len.x, c.len.y, c.len.z])
    else (false, r.2)
  else (false, r.2)

/-- The function `Cuboid::load`: after `Geometrybase::load` the file is opened anew and
`f >> l.x >> l.y >> l.z` reads its first three numbers (a number that is not there
leaves the zero of `Point()`); `setlen(l)` follows, its result dropped. -/
def Cuboid.load {K : Type} [LinearOrderedField K] (pow : K → K → K) (c : Cuboid K)
    (file : Option (List K)) (resize : Bool) : Option (Bool × Cuboid K) :=
  match Geometrybase.load (Cuboid.setVolume pow) c file resize with
  | none => none
  | some r =>
    if r.1 then
      match file with
      | some toks =>
        let l : Point K := ⟨toks.getD 0 0, toks.getD 1 0, toks.getD 2 0⟩
        match r.2.setlen l with
        | none => none
        | some r1 => some (true, r1.2)
      | none => some (false, r.2)
    else some (false, r.2)

/-! ## Legendre polynomials (`src/include/faunus/auxiliary.h`) -/

/-- The data members of the class `legendre`: the order and the stored terms. -/
structure legendre (K : Type) where
  n : ℤ
  P : List K

/-- The loop `for (int i=1; i<n; ++i)` of `legendre::eval` with `m` rounds to go.  The
quotients `(2*i+1)/(i+1)` and `i/(i+1)` are taken between values of type `int`. -/
def legendre.evalLoop {K : Type} [LinearOrderedField K] (x : K) :
    ℕ → ℤ → List K → Option (List K)
  | 0, _, P => some P
  | m + 1, i, P =>
    match vecGet P i, vecGet P (i - 1) with
    | some pi, some pim =>
      match vecSet P (i + 1)
          ((((2 * i + 1) / (i + 1) : ℤ) : K) * x * pi - ((i / (i + 1) : ℤ) : K) * pim) with
      | some P1 => legendre.evalLoop x m (i + 1) P1
      | none => none
    | _, _ => none

/-- The function `legendre::eval`. -/
def legendre.eval {K : Type} [LinearOrderedField K] (l : legendre K) (x : K) :
    Option (legendre K) :=
  if l.n > 0 then
    match vecSet l.P 1 x with
    | none => none
    | some P1 =>
      match legendre.evalLoop x (l.n - 1).toNat 1 P1 with
      | none => none
      | some P2 => some { l with P := P2 }
  else some l

/-- The constructor `legendre(order)`, through `resize`: the order must not be negative,
`P` gets `n+1` elements, the first of them 1. -/
def legendre.legendre {K : Type} [LinearOrderedField K] (order : ℤ) : Option (Faunus.legendre K) :=
  if 0 ≤ order then some { n := order, P := (List.replicate (order.toNat + 1) 0).set 0 1 }
  else none

/-- The Legendre polynomials as the documentation means them: `P_0 = 1`, `P_1 = x` and
`(k+1) P_{k+1} = (2k+1) x P_k - k P_{k-1}`. -/
def legendreP {K : Type} [LinearOrderedField K] (x : K) : ℕ → K
  | 0 => 1
  | 1 => x
  | k + 2 => ((2 * ((k : K) + 1) + 1) * x * legendreP x (k + 1) - ((k : K) + 1) * legendreP x k) /
      ((k : K) + 2)

/-! ## Concrete configurations used for evaluation -/

/-- A random stream given by its first variates, zero afterwards. -/
def streamOf {K : Type} [LinearOrderedField K] (l : List K) : Slump K :=
  { seq := fun n => l.getD n 0, pos := 0 }

/-- One particle at (9/10,0,0) in the sphere of radius 1, bound to a translation move
with `runfraction = 1`, unit direction mask and the trial configuration equal to the
current one; the random stream is given. -/
def oneParticleInSphere {K : Type} [LinearOrderedField K] (draws : List K) :
    MoveState K (ParticleTranslation K) :=
  { base := { cnt := 0, cnt_accepted := 0, dusum := EDouble.fin 0, runfraction := 1 }
    spc := { p := [particle.at (9 / 10) 0 0], trial := [particle.at (9 / 10) 0 0],
             geo := some (Sphere.toGeometrybase ⟨1, 1, 2⟩) }
    self := { iparticle := 0, igroup := none, dir := ⟨1, 1, 1⟩, sqrmap := [], accmap := [] }
    slp := streamOf draws }

/-- A species table for the bath examples: entry 0 without chemical potential, entry 1 a
cation of charge `qa`, entry 2 an anion of charge `-1`. -/
def saltAtoms {K : Type} [LinearOrderedField K] (qa : K) : List (AtomData K) :=
  [⟨0, 0, 0, 0, 0⟩, ⟨1, qa, 1, 0, 0⟩, ⟨2, -1, 1, 0, 0⟩]

/-- A space holding the given species in order, current and trial configuration alike,
without geometry. -/
def saltSpace {K : Type} [LinearOrderedField K] (l : List (AtomData K)) : Space K :=
  { p := l.map AtomData.toParticle, trial := l.map AtomData.toParticle, geo := none }

/-- Two particles in the sphere of radius 10, of species 1 at the origin and of species 2
at (1,0,0), bound as the group `[0,1]` to a translation move with `runfraction = 1`. -/
def twoSpeciesInSphere {K : Type} [LinearOrderedField K] (draws : List K) :
    MoveState K (ParticleTranslation K) :=
  { base := { cnt := 0, cnt_accepted := 0, dusum := EDouble.fin 0, runfraction := 1 }
    spc := { p := [{ particle.at 0 0 0 with id := 1 }, { particle.at 1 0 0 with id := 2 }],
             trial := [{ particle.at 0 0 0 with id := 1 }, { particle.at 1 0 0 with id := 2 }],
             geo := some (Sphere.toGeometrybase ⟨10, 100, 20⟩) }
    self := { iparticle := -1, igroup := some ⟨0, 1, GroupType.ATOMIC⟩, dir := ⟨1, 1, 1⟩,
              sqrmap := [], accmap := [] }
    slp := streamOf draws }

/-! ## Theorems -/

section Theorems

variable {K : Type} [LinearOrderedField K]

/-- C1: for `du ≤ 0` the Metropolis test accepts whatever the random stream holds, and
for a finite `du > 0` it accepts exactly when the single uniform variate it draws is at
most `exp(-du)`. -/
theorem metropolis_accept_iff (exp : K → K) (du : K) (slp : Slump K) :
    (du ≤ 0 → (Movebase.metropolis exp (EDouble.fin du) slp).1 = true) ∧
    (0 < du → ((Movebase.metropolis exp (EDouble.fin du) slp).1 = true ↔
      slp.randOne.1 ≤ exp (-du))) := by
  constructor
  · intro h
    simp [Movebase.metropolis, EDouble.pos, not_lt.mpr h]
  · intro h
    by_cases hr : slp.randOne.1 > exp (-du)
    · simp [Movebase.metropolis, EDouble.pos, EDouble.expNeg, h, hr]
    · simp [Movebase.metropolis, EDouble.pos, EDouble.expNeg, h, hr, not_lt.mp hr]

/-- C8: for a box length `L > 0` with `inv_len = 1/L`, the minimum image squared
distance from `p` to `p` translated by `k` box lengths along a coordinate axis is zero. -/
theorem sqdistMI_box_translation [FloorRing K] (L : K) (hL : 0 < L) (p : Point K)
    (axis : Fin 3) (k : ℤ) :
    Point.sqdistMI p (p.add ((Point.axisUnit axis).smul ((k : K) * L))) L (1 / L) = 0 := by
  have hL0 : L ≠ 0 := ne_of_gt hL
  have h0 : ⌊(1 / 2 : K)⌋ = 0 := by
    rw [Int.floor_eq_iff]; constructor <;> norm_num
  have hk : ∀ t : K, t = -(k : K) * L → ⌊t * (1 / L) + 1 / 2⌋ = -k := by
    intro t ht
    rw [Int.floor_eq_iff]
    subst ht
    have : -(k : K) * L * (1 / L) = -(k : K) := by field_simp
    rw [this]
    push_cast
    constructor <;> linarith
  have hz : ∀ t : K, t = 0 → ⌊t * (1 / L) + 1 / 2⌋ = 0 := by
    intro t ht
    subst ht
    simpa using h0
  fin_cases axis
  · simp only [Point.sqdistMI, Point.add, Point.smul, Point.axisUnit]
    rw [hk (p.x - (p.x + 1 * ((k : K) * L))) (by ring),
      hz (p.y - (p.y + 0 * ((k : K) * L))) (by ring),
      hz (p.z - (p.z + 0 * ((k : K) * L))) (by ring)]
    push_cast
    ring
  · simp only [Point.sqdistMI, Point.add, Point.smul, Point.axisUnit]
    rw [hz (p.x - (p.x + 0 * ((k : K) * L))) (by ring),
      hk (p.y - (p.y + 1 * ((k : K) * L))) (by ring),
      hz (p.z - (p.z + 0 * ((k : K) * L))) (by ring)]
    push_cast
    ring
  · simp only [Point.sqdistMI, Point.add, Point.smul, Point.axisUnit]
    rw [hz (p.x - (p.x + 0 * ((k : K) * L))) (by ring),
      hz (p.y - (p.y + 0 * ((k : K) * L))) (by ring),
      hk (p.z - (p.z + 1 * ((k : K) * L))) (by ring)]
    push_cast
    ring

/-- Witness of C8: box length 2, the point (1/3,0,5), the y axis and three box lengths. -/
theorem sqdistMI_box_translation_witness :
    Point.sqdistMI (⟨1 / 3, 0, 5⟩ : Point ℚ)
      ((⟨1 / 3, 0, 5⟩ : Point ℚ).add ((Point.axisUnit 1).smul (((3 : ℤ) : ℚ) * 2))) 2 (1 / 2) = 0 :=
  sqdistMI_box_translation 2 (by norm_num) ⟨1 / 3, 0, 5⟩ 1 3

/-- The cube of the real cube root: `pow(pow(x,1/3.),3)` gives `x` back for `x ≥ 0`. -/
theorem rpow_third_cubed (x : ℝ) (hx : 0 ≤ x) : Real.rpow (Real.rpow x (1 / 3)) 3 = x := by
  show (x ^ (1 / 3 : ℝ)) ^ (3 : ℝ) = x
  rw [← Real.rpow_mul hx]
  norm_num

/-- The real cube root multiplied three times with itself. -/
theorem rpow_third_mul_self (x : ℝ) (hx : 0 ≤ x) :
    Real.rpow x (1 / 3) * Real.rpow x (1 / 3) * Real.rpow x (1 / 3) = x := by
  have h := rpow_third_cubed x hx
  have h3 : Real.rpow (Real.rpow x (1 / 3)) 3 = (Real.rpow x (1 / 3)) ^ (3 : ℕ) := by
    show (Real.rpow x (1 / 3)) ^ (3 : ℝ) = _
    exact_mod_cast Real.rpow_natCast (Real.rpow x (1 / 3)) 3
  rw [h3] at h
  calc Real.rpow x (1 / 3) * Real.rpow x (1 / 3) * Real.rpow x (1 / 3)
      = (Real.rpow x (1 / 3)) ^ (3 : ℕ) := by ring
    _ = x := h

/-- C6: on a sphere and for every `v > 0`, `setVolume(v)` passes both of its assertions,
the radius becomes `(3v/(4 pi))^(1/3)`, and `getVolume()` is then exactly `v`. -/
theorem sphere_setVolume_getVolume (s : Sphere ℝ) (v : ℝ) (hv : 0 < v) :
    ∃ s' : Sphere ℝ, Sphere.setVolume Real.rpow Real.pi s v = some s' ∧
      s'.r = Real.rpow (3 * v / (4 * Real.pi)) (1 / 3) ∧
      Sphere.getVolume Real.rpow Real.pi s' = v := by
  have hpi : 0 < Real.pi := Real.pi_pos
  have hx : 0 < 3 * v / (4 * Real.pi) := by positivity
  have hr : 0 < Real.rpow (3 * v / (4 * Real.pi)) (1 / 3) := Real.rpow_pos_of_pos hx _
  have hvol : 4 / 3 * Real.pi * Real.rpow (Real.rpow (3 * v / (4 * Real.pi)) (1 / 3)) 3 = v := by
    rw [rpow_third_cubed _ (le_of_lt hx)]
    field_simp
    ring
  refine ⟨{ r := Real.rpow (3 * v / (4 * Real.pi)) (1 / 3),
            r2 := Real.rpow (3 * v / (4 * Real.pi)) (1 / 3) *
              Real.rpow (3 * v / (4 * Real.pi)) (1 / 3),
            diameter := 2 * Real.rpow (3 * v / (4 * Real.pi)) (1 / 3) }, ?_, rfl, ?_⟩
  · have hc : |(v - 4 / 3 * Real.pi *
        Real.rpow (Real.rpow (3 * v / (4 * Real.pi)) (1 / 3)) 3) / v| < 1 / 10 ^ 9 := by
      rw [hvol]; norm_num
    simp only [Sphere.setVolume, Geometrybase.setVolume, Sphere._setVolume, Sphere.setradius,
      Sphere._getVolume, if_pos hv, if_pos hr]
    exact if_pos hc
  · simpa [Sphere.getVolume, Sphere._getVolume] using hvol

/-- Witness of C6: a sphere of radius one set to volume one. -/
theorem sphere_setVolume_getVolume_witness :
    ∃ s' : Sphere ℝ, Sphere.setVolume Real.rpow Real.pi ⟨1, 1, 2⟩ 1 = some s' ∧
      s'.r = Real.rpow (3 * 1 / (4 * Real.pi)) (1 / 3) ∧
      Sphere.getVolume Real.rpow Real.pi s' = 1 :=
  sphere_setVolume_getVolume ⟨1, 1, 2⟩ 1 one_pos

/-- C7: on a cuboid with positive side lengths and for every `v > 0`, `setVolume(v)`
passes all assertions, `getVolume()` is then exactly `v`, every side has been multiplied
by `(v/V)^(1/3)`, and `len_half`, `len_inv` are half and inverse of the new sides. -/
theorem cuboid_setVolume_getVolume (c : Cuboid ℝ) (v : ℝ) (hx : 0 < c.len.x)
    (hy : 0 < c.len.y) (hz : 0 < c.len.z) (hv : 0 < v) :
    ∃ c' : Cuboid ℝ, Cuboid.setVolume Real.rpow c v = some c' ∧
      c'.getVolume = v ∧
      c'.getVolume = c'.len.x * c'.len.y * c'.len.z ∧
      c'.len = c.len.smul (Real.rpow (v / c.getVolume) (1 / 3)) ∧
      c'.len_half = ⟨c'.len.x / 2, c'.len.y / 2, c'.len.z / 2⟩ ∧
      c'.len_inv = ⟨1 / c'.len.x, 1 / c'.len.y, 1 / c'.len.z⟩ := by
  have hV : 0 < c.getVolume := by
    simp only [Cuboid.getVolume, Cuboid._getVolume]; positivity
  have hq : 0 < v / c.getVolume := div_pos hv hV
  have hf : 0 < Real.rpow (v / c.getVolume) (1 / 3) := Real.rpow_pos_of_pos hq _
  have hf3 := rpow_third_mul_self (v / c.getVolume) (le_of_lt hq)
  have hl : 0 < c.len.x * Real.rpow (v / c.getVolume) (1 / 3) ∧
      0 < c.len.y * Real.rpow (v / c.getVolume) (1 / 3) ∧
      0 < c.len.z * Real.rpow (v / c.getVolume) (1 / 3) :=
    ⟨mul_pos hx hf, mul_pos hy hf, mul_pos hz hf⟩
  have hl' : ¬ (c.len.x * Real.rpow (v / c.getVolume) (1 / 3) ≤ 0 ∨
      c.len.y * Real.rpow (v / c.getVolume) (1 / 3) ≤ 0 ∨
      c.len.z * Real.rpow (v / c.getVolume) (1 / 3) ≤ 0) := by
    rintro (h | h | h)
    · exact absurd hl.1 (not_lt.mpr h)
    · exact absurd hl.2.1 (not_lt.mpr h)
    · exact absurd hl.2.2 (not_lt.mpr h)
  have hvol : c.len.x * Real.rpow (v / c.getVolume) (1 / 3) *
      (c.len.y * Real.rpow (v / c.getVolume) (1 / 3)) *
      (c.len.z * Real.rpow (v / c.getVolume) (1 / 3)) = v := by
    have : c.len.x * c.len.y * c.len.z = c.getVolume := rfl
    calc _ = c.getVolume * (Real.rpow (v / c.getVolume) (1 / 3) *
          Real.rpow (v / c.getVolume) (1 / 3) * Real.rpow (v / c.getVolume) (1 / 3)) := by
          rw [← this]; ring
      _ = v := by rw [hf3]; field_simp
  refine ⟨{ c with
      len := c.len.smul (Real.rpow (v / c.getVolume) (1 / 3))
      len_half := (c.len.smul (Real.rpow (v / c.getVolume) (1 / 3))).smul (1 / 2)
      len_inv := ⟨1 / (c.len.x * Real.rpow (v / c.getVolume) (1 / 3)),
        1 / (c.len.y * Real.rpow (v / c.getVolume) (1 / 3)),
        1 / (c.len.z * Real.rpow (v / c.getVolume) (1 / 3))⟩ }, ?_, ?_, rfl, rfl, ?_, rfl⟩
  · have hc : |(v - c.len.x * Real.rpow (v / c.getVolume) (1 / 3) *
        (c.len.y * Real.rpow (v / c.getVolume) (1 / 3)) *
        (c.len.z * Real.rpow (v / c.getVolume) (1 / 3))) / v| < 1 / 10 ^ 9 := by
      rw [hvol]; norm_num
    simp only [Cuboid.setVolume, Geometrybase.setVolume, Cuboid._setVolume, Cuboid.scale,
      Cuboid.setlen, if_pos hv, if_pos hV, Point.smul, if_pos hl, if_neg hl',
      Cuboid._getVolume]
    exact if_pos hc
  · simpa [Cuboid.getVolume, Cuboid._getVolume, Point.smul] using hvol
  · simp only [Point.smul]
    congr 1 <;> ring

/-- Witness of C7: the unit cube set to volume eight. -/
theorem cuboid_setVolume_getVolume_witness :
    ∃ c' : Cuboid ℝ,
      Cuboid.setVolume Real.rpow ⟨⟨1, 1, 1⟩, ⟨1 / 2, 1 / 2, 1 / 2⟩, ⟨1, 1, 1⟩, ⟨-1 / 2, -1 / 2, -1 / 2⟩,
        ⟨1 / 2, 1 / 2, 1 / 2⟩⟩ 8 = some c' ∧
      c'.getVolume = 8 ∧
      c'.getVolume = c'.len.x * c'.len.y * c'.len.z ∧
      c'.len = (⟨1, 1, 1⟩ : Point ℝ).smul (Real.rpow (8 / Cuboid.getVolume
        (⟨⟨1, 1, 1⟩, ⟨1 / 2, 1 / 2, 1 / 2⟩, ⟨1, 1, 1⟩, ⟨-1 / 2, -1 / 2, -1 / 2⟩,
          ⟨1 / 2, 1 / 2, 1 / 2⟩⟩ : Cuboid ℝ)) (1 / 3)) ∧
      c'.len_half = ⟨c'.len.x / 2, c'.len.y / 2, c'.len.z / 2⟩ ∧
      c'.len_inv = ⟨1 / c'.len.x, 1 / c'.len.y, 1 / c'.len.z⟩ :=
  cuboid_setVolume_getVolume _ 8 one_pos one_pos one_pos (by norm_num)

/-- C9, counterexample: in the cube of side 2 the point (3/2,0,0) collides with the
boundary while (1,1,1), strictly further from the center, does not; in the cylinder of
radius 1 and length 20 the point (2,0,0) collides while (0,0,5), strictly further from
the center, does not. -/
theorem collision_not_monotone_in_distance :
    (Cuboid.collision (⟨⟨2, 2, 2⟩, ⟨1, 1, 1⟩, ⟨1 / 2, 1 / 2, 1 / 2⟩, ⟨-1, -1, -1⟩, ⟨1, 1, 1⟩⟩ : Cuboid ℚ)
        (particle.at (3 / 2) 0 0) collisiontype.BOUNDARY = true ∧
      Point.sqdist (particle.at (3 / 2 : ℚ) 0 0).toPoint ⟨0, 0, 0⟩ <
        Point.sqdist (particle.at (1 : ℚ) 1 1).toPoint ⟨0, 0, 0⟩ ∧
      Cuboid.collision (⟨⟨2, 2, 2⟩, ⟨1, 1, 1⟩, ⟨1 / 2, 1 / 2, 1 / 2⟩, ⟨-1, -1, -1⟩, ⟨1, 1, 1⟩⟩ : Cuboid ℚ)
        (particle.at 1 1 1) collisiontype.BOUNDARY = false) ∧
    (Cylinder.init (20 : ℚ) 1 = some ⟨20, 1, 1, 2, 10⟩ ∧
      Cylinder.collision (⟨20, 1, 1, 2, 10⟩ : Cylinder ℚ)
        (particle.at 2 0 0) collisiontype.BOUNDARY = true ∧
      Point.sqdist (particle.at (2 : ℚ) 0 0).toPoint ⟨0, 0, 0⟩ <
        Point.sqdist (particle.at (0 : ℚ) 0 5).toPoint ⟨0, 0, 0⟩ ∧
      Cylinder.collision (⟨20, 1, 1, 2, 10⟩ : Cylinder ℚ)
        (particle.at 0 0 5) collisiontype.BOUNDARY = false) := by
  refine ⟨⟨?_, ?_, ?_⟩, ?_, ?_, ?_, ?_⟩
  · norm_num [Cuboid.collision, particle.at, abs_of_pos]
  · norm_num [Point.sqdist, particle.at]
  · norm_num [Cuboid.collision, particle.at]
  · norm_num [Cylinder.init]
  · norm_num [Cylinder.collision, particle.at]
  · norm_num [Point.sqdist, particle.at]
  · norm_num [Cylinder.collision, particle.at]

/-- C9, amended: a boundary collision persists (i) in a sphere, at every point strictly
further from the center; (ii) in a cuboid, at every point that is at least as far from
the center along each coordinate axis; (iii) in a cylinder, at every point that is at
least as far from the axis and at least as far from the mid-plane. -/
theorem collision_boundary_monotone :
    (∀ (s : Sphere K) (a b : particle K),
      Point.sqdist a.toPoint ⟨0, 0, 0⟩ < Point.sqdist b.toPoint ⟨0, 0, 0⟩ →
      s.collision a collisiontype.BOUNDARY = true →
      s.collision b collisiontype.BOUNDARY = true) ∧
    (∀ (c : Cuboid K) (a b : particle K),
      |a.x| ≤ |b.x| → |a.y| ≤ |b.y| → |a.z| ≤ |b.z| →
      c.collision a collisiontype.BOUNDARY = true →
      c.collision b collisiontype.BOUNDARY = true) ∧
    (∀ (c : Cylinder K) (a b : particle K),
      a.x * a.x + a.y * a.y ≤ b.x * b.x + b.y * b.y → |a.z| ≤ |b.z| →
      c.collision a collisiontype.BOUNDARY = true →
      c.collision b collisiontype.BOUNDARY = true) := by
  refine ⟨?_, ?_, ?_⟩
  · intro s a b hab ha
    simp only [Sphere.collision, Point.sqdist, sub_zero] at *
    by_cases h : a.x * a.x + a.y * a.y + a.z * a.z > s.r2
    · have : b.x * b.x + b.y * b.y + b.z * b.z > s.r2 := lt_trans h hab
      simp [this]
    · simp [h] at ha
  · intro c a b hx hy hz ha
    simp only [Cuboid.collision] at *
    by_cases h : |a.x| > c.len_half.x ∨ |a.y| > c.len_half.y ∨ |a.z| > c.len_half.z
    · have : |b.x| > c.len_half.x ∨ |b.y| > c.len_half.y ∨ |b.z| > c.len_half.z := by
        rcases h with h | h | h
        · exact Or.inl (lt_of_lt_of_le h hx)
        · exact Or.inr (Or.inl (lt_of_lt_of_le h hy))
        · exact Or.inr (Or.inr (lt_of_lt_of_le h hz))
      simp [this]
    · simp [h] at ha
  · intro c a b hr hz ha
    simp only [Cylinder.collision] at *
    by_cases h : a.x * a.x + a.y * a.y > c.r2 ∨ (a.z < -c.halflen ∨ a.z > c.halflen)
    · have : b.x * b.x + b.y * b.y > c.r2 ∨ (b.z < -c.halflen ∨ b.z > c.halflen) := by
        rcases h with h | h | h
        · exact Or.inl (lt_of_lt_of_le h hr)
        · right
          have h1 : -a.z ≤ |a.z| := neg_le_abs a.z
          rcases le_abs'.mp (le_refl |b.z|) with h2 | h2
          · left; linarith
          · right; linarith
        · right
          have h1 : a.z ≤ |a.z| := le_abs_self a.z
          rcases le_abs'.mp (le_refl |b.z|) with h2 | h2
          · left; linarith
          · right; linarith
      simp [this]
    · simp [h] at ha

/-- Witness of C9, amended: in the sphere of radius 1 the collision at (2,0,0) persists
at (3,0,0). -/
theorem collision_boundary_monotone_witness :
    Sphere.collision (⟨1, 1, 2⟩ : Sphere ℚ) (particle.at 3 0 0) collisiontype.BOUNDARY = true :=
  (collision_boundary_monotone (K := ℚ)).1 ⟨1, 1, 2⟩ (particle.at 2 0 0) (particle.at 3 0 0)
    (by norm_num [Point.sqdist, particle.at])
    (by norm_num [Sphere.collision, particle.at])

/-- The axis computed by `setAxis` has unit length when `boundary` is the identity,
`sqdist` is Euclidean and the two end points differ. -/
theorem setAxis_unit (geo : Geometrybase ℝ) (hb : ∀ q, geo.boundary q = q)
    (hs : ∀ a b, geo.sqdist a b = a.sqdist b) (beg end_ : Point ℝ) (hne : beg ≠ end_)
    (angle : ℝ) :
    (VectorRotate.setAxis Real.sqrt Real.cos Real.sin geo beg end_ angle).u.x ^ 2 +
      (VectorRotate.setAxis Real.sqrt Real.cos Real.sin geo beg end_ angle).u.y ^ 2 +
      (VectorRotate.setAxis Real.sqrt Real.cos Real.sin geo beg end_ angle).u.z ^ 2 = 1 := by
  have hpos : 0 < beg.sqdist end_ := by
    simp only [Point.sqdist]
    by_contra hcon
    have hxx := mul_self_nonneg (beg.x - end_.x)
    have hyy := mul_self_nonneg (beg.y - end_.y)
    have hzz := mul_self_nonneg (beg.z - end_.z)
    have hx : beg.x - end_.x = 0 := mul_self_eq_zero.mp (by linarith)
    have hy : beg.y - end_.y = 0 := mul_self_eq_zero.mp (by linarith)
    have hz : beg.z - end_.z = 0 := mul_self_eq_zero.mp (by linarith)
    apply hne
    cases beg; cases end_
    simp only [Point.mk.injEq]
    exact ⟨by linarith, by linarith, by linarith⟩
  have hd : Real.sqrt (beg.sqdist end_) ≠ 0 := ne_of_gt (Real.sqrt_pos.mpr hpos)
  simp only [VectorRotate.setAxis, Geometrybase.dist, hb, hs, Point.sub, Point.smul]
  field_simp
  simp only [Point.sqdist]
  ring

/-- C10: in a geometry whose `boundary` is the identity (and whose `sqdist` is then the
Euclidean one), for an axis with `beg ≠ end`, rotating with the axis set by
`setAxis(geo,beg,end,theta)` and then with `setAxis(geo,beg,end,-theta)` gives the point
back. -/
theorem rotate_then_rotate_back (geo : Geometrybase ℝ) (hb : ∀ q, geo.boundary q = q)
    (hs : ∀ a b, geo.sqdist a b = a.sqdist b) (beg end_ : Point ℝ) (hne : beg ≠ end_)
    (theta : ℝ) (p : Point ℝ) :
    (VectorRotate.setAxis Real.sqrt Real.cos Real.sin geo beg end_ (-theta)).rotate geo
      ((VectorRotate.setAxis Real.sqrt Real.cos Real.sin geo beg end_ theta).rotate geo p)
      = p := by
  have hu := setAxis_unit geo hb hs beg end_ hne theta
  have hcs : Real.cos theta ^ 2 + Real.sin theta ^ 2 = 1 := Real.cos_sq_add_sin_sq theta
  simp only [VectorRotate.setAxis, Geometrybase.dist, hb, hs, Point.sub, Point.smul] at hu
  simp only [VectorRotate.setAxis, VectorRotate.rotate, Geometrybase.dist, hb, hs, Point.sub,
    Point.smul, Real.cos_neg, Real.sin_neg]
  generalize (end_.x - beg.x) * (1 / Real.sqrt (beg.sqdist end_)) = ux at hu ⊢
  generalize (end_.y - beg.y) * (1 / Real.sqrt (beg.sqdist end_)) = uy at hu ⊢
  generalize (end_.z - beg.z) * (1 / Real.sqrt (beg.sqdist end_)) = uz at hu ⊢
  generalize Real.cos theta = c at hcs ⊢
  generalize Real.sin theta = s at hcs ⊢
  cases p with
  | mk px py pz =>
    cases beg with
    | mk ox oy oz =>
      simp only [Point.mk.injEq]
      refine ⟨?_, ?_, ?_⟩
      · linear_combination
          ((px - ox) - ux * (ux * (px - ox) + uy * (py - oy) + uz * (pz - oz))) * hcs +
          ((1 - c) ^ 2 * ux * (ux * (px - ox) + uy * (py - oy) + uz * (pz - oz)) +
            s ^ 2 * (px - ox)) * hu
      · linear_combination
          ((py - oy) - uy * (ux * (px - ox) + uy * (py - oy) + uz * (pz - oz))) * hcs +
          ((1 - c) ^ 2 * uy * (ux * (px - ox) + uy * (py - oy) + uz * (pz - oz)) +
            s ^ 2 * (py - oy)) * hu
      · linear_combination
          ((pz - oz) - uz * (ux * (px - ox) + uy * (py - oy) + uz * (pz - oz))) * hcs +
          ((1 - c) ^ 2 * uz * (ux * (px - ox) + uy * (py - oy) + uz * (pz - oz)) +
            s ^ 2 * (pz - oz)) * hu

/-- Witness of C10: in the sphere of radius 10, about the axis from the origin to
(0,0,1), the angle 1 and the point (1,2,3). -/
theorem rotate_then_rotate_back_witness :
    (VectorRotate.setAxis Real.sqrt Real.cos Real.sin (Sphere.toGeometrybase ⟨10, 100, 20⟩)
        ⟨0, 0, 0⟩ ⟨0, 0, 1⟩ (-1)).rotate (Sphere.toGeometrybase ⟨10, 100, 20⟩)
      ((VectorRotate.setAxis Real.sqrt Real.cos Real.sin (Sphere.toGeometrybase ⟨10, 100, 20⟩)
        ⟨0, 0, 0⟩ ⟨0, 0, 1⟩ 1).rotate (Sphere.toGeometrybase ⟨10, 100, 20⟩) ⟨1, 2, 3⟩)
      = ⟨1, 2, 3⟩ :=
  rotate_then_rotate_back (Sphere.toGeometrybase ⟨10, 100, 20⟩) (fun _ => rfl)
    (fun _ _ => rfl) ⟨0, 0, 0⟩ ⟨0, 0, 1⟩ (by simp) 1 ⟨1, 2, 3⟩

/-- C2, failing input: for `du = pc::infty` and the uniform variate `0` the Metropolis
test accepts, `exp(-inf) = 0` not being exceeded, whereas every variate above `0` is
rejected.  In `Movebase::move`, a particle of the sphere of radius 1 displaced from
(9/10,0,0) to (13/10,0,0), outside the sphere, is then accepted: the call returns
`pc::infty`, `cnt_accepted` becomes 1 and the colliding position is committed. -/
theorem metropolis_infty_accepts_zero_draw :
    (Movebase.metropolis Real.exp EDouble.infty (streamOf [0])).1 = true ∧
    (∀ slp : Slump ℝ, 0 < slp.randOne.1 →
      (Movebase.metropolis Real.exp EDouble.infty slp).1 = false) ∧
    (Movebase.move Real.exp (ParticleTranslation.vt (fun _ => 1) (fun _ _ => 0))
        (oneParticleInSphere [0, 9 / 10, 1 / 2, 1 / 2, 0])).map
      (fun r => (r.1, r.2.base.cnt_accepted, r.2.spc.p)) =
        some (EDouble.infty, 1, [particle.at (13 / 10) 0 0]) := by
  refine ⟨?_, ?_, ?_⟩
  · simp [Movebase.metropolis, EDouble.pos, EDouble.expNeg, streamOf, Slump.randOne]
  · intro slp h
    simp [Movebase.metropolis, EDouble.pos, EDouble.expNeg, h]
  · simp [Movebase.move, Movebase.run, oneParticleInSphere, streamOf, Slump.randOne,
      Movebase.trialMove, ParticleTranslation.vt, ParticleTranslation._trialMove, vecGet, vecSet,
      Slump.randHalf, Geometrybase.boundaryParticle, Sphere.toGeometrybase, Sphere.boundary,
      Movebase.energyChange, ParticleTranslation._energyChange, Sphere.collision, particle.at,
      Movebase.metropolis, EDouble.pos, EDouble.expNeg, Movebase.acceptMove,
      ParticleTranslation._acceptMove, EDouble.add]
    norm_num
    exact ⟨_, _, ⟨rfl, rfl⟩, rfl, rfl, rfl⟩

/-- C3: `run` returns true exactly when the variate it draws is below `runfraction`; when
it is not, `Movebase::move` returns 0 and only the cursor of the random source has
changed: counters, energy sum, current and trial configuration and the members of the
derived class are as before. -/
theorem move_skip_leaves_state {σ : Type} (exp : K → K) (vt : MoveVT K σ)
    (s : MoveState K σ) :
    ((s.base.run s.slp).1 = true ↔ s.slp.randOne.1 < s.base.runfraction) ∧
    (s.base.runfraction ≤ s.slp.randOne.1 →
      ∃ s' : MoveState K σ, Movebase.move exp vt s = some (EDouble.fin 0, s') ∧
        s'.base.cnt = s.base.cnt ∧ s'.base.cnt_accepted = s.base.cnt_accepted ∧
        s'.base.dusum = s.base.dusum ∧ s'.spc.p = s.spc.p ∧ s'.spc.trial = s.spc.trial ∧
        s'.base = s.base ∧ s'.self = s.self) := by
  constructor
  · by_cases h : s.slp.randOne.1 < s.base.runfraction <;> simp [Movebase.run, h]
  · intro h
    have hr : (s.base.run s.slp).1 = false := by
      simp [Movebase.run, not_lt.mpr h]
    exact ⟨{ s with slp := (s.base.run s.slp).2 }, by simp [Movebase.move, hr],
      rfl, rfl, rfl, rfl, rfl, rfl, rfl⟩

/-- Witness of C3: a move with `runfraction = 1/2` that draws `3/4` is skipped. -/
theorem move_skip_leaves_state_witness :
    ∃ s' : MoveState ℚ (ParticleTranslation ℚ),
      Movebase.move (fun _ => (0 : ℚ)) (ParticleTranslation.vt (fun _ => 1) (fun _ _ => 0))
        { oneParticleInSphere [3 / 4] with
          base := { cnt := 5, cnt_accepted := 2, dusum := EDouble.fin 1, runfraction := 1 / 2 } }
        = some (EDouble.fin 0, s') ∧
      s'.base.cnt = 5 ∧ s'.base.cnt_accepted = 2 ∧ s'.base.dusum = EDouble.fin 1 ∧
      s'.spc.p = [particle.at (9 / 10) 0 0] ∧ s'.spc.trial = [particle.at (9 / 10) 0 0] := by
  obtain ⟨s', h, h1, h2, h3, h4, h5, -, -⟩ :=
    (move_skip_leaves_state (fun _ => (0 : ℚ))
      (ParticleTranslation.vt (fun _ => 1) (fun _ _ => 0))
      { oneParticleInSphere [3 / 4] with
        base := { cnt := 5, cnt_accepted := 2, dusum := EDouble.fin 1, runfraction := 1 / 2 } }).2
      (by norm_num [oneParticleInSphere, streamOf, Slump.randOne])
  exact ⟨s', h, h1, h2, h3, h4, h5⟩

/-- Reading a vector at a natural index. -/
theorem vecGet_natCast {α : Type} (v : List α) (i : ℕ) : vecGet v (i : ℤ) = v[i]? := by
  simp [vecGet]

/-- Writing a vector at a natural index inside the range. -/
theorem vecSet_natCast {α : Type} (v : List α) (i : ℕ) (a : α) (h : i < v.length) :
    vecSet v (i : ℤ) a = some (v.set i a) := by
  simp [vecSet, h]

/-- A successful write happens inside the range and is a `List.set`. -/
theorem vecSet_eq_some {α : Type} (v w : List α) (i : ℕ) (a : α)
    (h : vecSet v (i : ℤ) a = some w) : i < v.length ∧ w = v.set i a := by
  by_cases hi : i < v.length
  · rw [vecSet_natCast v i a hi] at h
    exact ⟨hi, (Option.some.inj h).symm⟩
  · simp [vecSet, hi] at h

/-- Writing back the element that is already there changes nothing. -/
theorem list_set_getElem_self {α : Type} (l : List α) (i : ℕ) (h : i < l.length) :
    l.set i (l.get ⟨i, h⟩) = l := by
  induction l generalizing i with
  | nil => simp at h
  | cons a t ih =>
    cases i with
    | zero => simp
    | succ n =>
      simp only [List.length_cons, Nat.add_lt_add_iff_right] at h
      simpa using ih n h

/-- What `Movebase::trialMove` does for a particle-bound translation: the current
configuration and the members of the move are kept, one element of the trial
configuration is rewritten. -/
theorem trialMove_particle_bound [FloorRing K] (dp : ℕ → K)
    (i_total : List (particle K) → ℤ → K) (s s1 : MoveState K (ParticleTranslation K))
    (i : ℕ) (hg : s.self.igroup = none) (hi : s.self.iparticle = (i : ℤ))
    (htm : Movebase.trialMove (ParticleTranslation.vt dp i_total) s = some s1) :
    s1.spc.p = s.spc.p ∧ s1.self = s.self ∧ i < s.spc.trial.length ∧
      ∃ t : particle K, s1.spc.trial = s.spc.trial.set i t := by
  have hi1 : (i : ℤ) > -1 := by omega
  simp only [Movebase.trialMove, ParticleTranslation.vt, ParticleTranslation._trialMove, hg, hi,
    if_pos hi1] at htm
  split at htm
  · split at htm
    · exact absurd htm (by simp)
    · rename_i r hr
      split at hr
      · rename_i geo pi t hgeo hp ht
        split at hr
        · rename_i tr htr
          obtain ⟨hlen, htr'⟩ := vecSet_eq_some _ _ _ _ htr
          have hr' := Option.some.inj hr
          have hs1 := Option.some.inj htm
          subst hs1
          subst hr'
          subst htr'
          refine ⟨rfl, ?_, hlen, ⟨_, rfl⟩⟩
          cases hself : s.self
          simp [hself] at hg hi ⊢
        · exact absurd hr (by simp)
      · exact absurd hr (by simp)
  · exact absurd htm (by simp)

/-- C4: for a particle-bound translation (`iparticle = i` inside the range, no group)
whose trial configuration equals the current one, a `move()` that passes both run tests,
makes its trial and evaluates an energy change that the Metropolis test rejects returns
0, leaves the current configuration as it was, and leaves the trial configuration equal
to the current one again. -/
theorem translation_reject_restores [FloorRing K] (exp : K → K) (dp : ℕ → K)
    (i_total : List (particle K) → ℤ → K) (s s1 : MoveState K (ParticleTranslation K))
    (i : ℕ) (du : EDouble K)
    (hg : s.self.igroup = none) (hi : s.self.iparticle = (i : ℤ))
    (hlt : i < s.spc.p.length) (htrial : s.spc.trial = s.spc.p)
    (hrun1 : (s.base.run s.slp).1 = true)
    (hrun2 : (s.base.run (s.base.run s.slp).2).1 = true)
    (htm : Movebase.trialMove (ParticleTranslation.vt dp i_total)
      { s with slp := (s.base.run (s.base.run s.slp).2).2 } = some s1)
    (hdu : Movebase.energyChange (ParticleTranslation.vt dp i_total) s1 = some (du, s1))
    (hrej : (Movebase.metropolis exp du s1.slp).1 = false) :
    ∃ s' : MoveState K (ParticleTranslation K),
      ParticleTranslation.move exp dp i_total s = some (EDouble.fin 0, s') ∧
      s'.spc.p = s.spc.p ∧ s'.spc.trial = s'.spc.p ∧
      vecGet s'.spc.trial (i : ℤ) = vecGet s'.spc.p (i : ℤ) ∧
      s'.base.cnt_accepted = s.base.cnt_accepted := by
  obtain ⟨hp1, hself1, hlen, t, ht1⟩ :=
    trialMove_particle_bound dp i_total
      { s with slp := (s.base.run (s.base.run s.slp).2).2 } s1 i hg hi htm
  have hi1 : s1.self.iparticle = (i : ℤ) := by rw [hself1]; exact hi
  have hp1' : s1.spc.p = s.spc.p := hp1
  have ht1' : s1.spc.trial = s.spc.trial.set i t := ht1
  have hget : vecGet s1.spc.p s1.self.iparticle = some (s.spc.p.get ⟨i, hlt⟩) := by
    rw [hi1, hp1', vecGet_natCast]
    simp [hlt]
  have hset : vecSet s1.spc.trial s1.self.iparticle (s.spc.p.get ⟨i, hlt⟩) = some s.spc.p := by
    rw [hi1, ht1', vecSet_natCast _ _ _ (by simpa using hlen), List.set_set, htrial,
      list_set_getElem_self]
  have hbase1 : s1.base.cnt_accepted = s.base.cnt_accepted := by
    simp only [Movebase.trialMove] at htm
    split at htm
    · split at htm
      · exact absurd htm (by simp)
      · have := Option.some.inj htm
        subst this
        rfl
    · exact absurd htm (by simp)
  have hbr : (s.base.run s.slp).1 ≠ false := by simp [hrun1]
  have hbr2 : (s.base.run (s.base.run s.slp).2).1 ≠ false := by simp [hrun2]
  refine ⟨{ s1 with
      slp := (Movebase.metropolis exp du s1.slp).2
      spc := { s1.spc with trial := s.spc.p }
      self := { s1.self with
        sqrmap := mapAdd s1.self.sqrmap (s.spc.p.get ⟨i, hlt⟩).id 0
        accmap := mapAdd s1.self.accmap (s.spc.p.get ⟨i, hlt⟩).id 0 } }, ?_, hp1', hp1'.symm,
      ?_, hbase1⟩
  · simp only [ParticleTranslation.move, if_neg hbr, hg, Movebase.move, if_neg hbr2, htm, hdu,
      hrej, if_true]
    simp only [Movebase.rejectMove, ParticleTranslation.vt, ParticleTranslation._rejectMove,
      hget, hset]
  · show vecGet s.spc.p (i : ℤ) = vecGet s1.spc.p (i : ℤ)
    rw [hp1']

/-- Witness of C4: one particle at (9/10,0,0) in the sphere of radius 1 is displaced to
(13/10,0,0), outside the sphere; the energy change is `pc::infty`, the Metropolis
variate is 1/2 and the trial is rejected. -/
theorem translation_reject_restores_witness :
    ∃ s' : MoveState ℝ (ParticleTranslation ℝ),
      ParticleTranslation.move Real.exp (fun _ => 1) (fun _ _ => 0)
        (oneParticleInSphere [0, 0, 9 / 10, 1 / 2, 1 / 2, 1 / 2]) = some (EDouble.fin 0, s') ∧
      s'.spc.p = (oneParticleInSphere [0, 0, 9 / 10, 1 / 2, 1 / 2, 1 / 2]).spc.p ∧
      s'.spc.trial = s'.spc.p ∧
      vecGet s'.spc.trial ((0 : ℕ) : ℤ) = vecGet s'.spc.p ((0 : ℕ) : ℤ) ∧
      s'.base.cnt_accepted = 0 :=
  translation_reject_restores Real.exp (fun _ => 1) (fun _ _ => 0)
    (oneParticleInSphere [0, 0, 9 / 10, 1 / 2, 1 / 2, 1 / 2])
    { base := { cnt := 1, cnt_accepted := 0, dusum := EDouble.fin 0, runfraction := 1 }
      spc := { p := [particle.at (9 / 10) 0 0], trial := [particle.at (13 / 10) 0 0],
               geo := some (Sphere.toGeometrybase ⟨1, 1, 2⟩) }
      self := { iparticle := 0, igroup := none, dir := ⟨1, 1, 1⟩, sqrmap := [], accmap := [] }
      slp := { seq := (streamOf [0, 0, 9 / 10, 1 / 2, 1 / 2, 1 / 2]).seq, pos := 5 } }
    0 EDouble.infty rfl rfl (by simp [oneParticleInSphere]) rfl
    (by simp [Movebase.run, oneParticleInSphere, streamOf, Slump.randOne])
    (by simp [Movebase.run, oneParticleInSphere, streamOf, Slump.randOne])
    (by
      simp [Movebase.trialMove, Movebase.run, oneParticleInSphere, streamOf, Slump.randOne,
        ParticleTranslation.vt, ParticleTranslation._trialMove, vecGet, vecSet, Slump.randHalf,
        Geometrybase.boundaryParticle, Sphere.toGeometrybase, Sphere.boundary, particle.at]
      norm_num)
    (by
      simp [Movebase.energyChange, ParticleTranslation.vt, ParticleTranslation._energyChange,
        vecGet, Sphere.toGeometrybase, Sphere.collision, particle.at]
      norm_num)
    (by
      simp [Movebase.metropolis, EDouble.pos, EDouble.expNeg, streamOf, Slump.randOne])

/-- C5: with a particle bound (`iparticle = i ≥ 0`, inside the range of both
configurations), a geometry set and the asserted invariant that the current position
does not collide, `_energyChange` returns `pc::infty` when the trial position collides
with the boundary and otherwise the difference `i_total(trial,i) - i_total(p,i)` of the
energy oracle. -/
theorem translation_energyChange (i_total : List (particle K) → ℤ → K) (spc : Space K)
    (m : ParticleTranslation K) (geo : Geometrybase K) (pi t : particle K)
    (hi : 0 ≤ m.iparticle) (hgeo : spc.geo = some geo)
    (hp : vecGet spc.p m.iparticle = some pi) (ht : vecGet spc.trial m.iparticle = some t)
    (hassert : geo.collision pi collisiontype.BOUNDARY = false) :
    (geo.collision t collisiontype.BOUNDARY = true →
      ParticleTranslation._energyChange i_total spc m = some EDouble.infty) ∧
    (geo.collision t collisiontype.BOUNDARY = false →
      ParticleTranslation._energyChange i_total spc m =
        some (EDouble.fin (i_total spc.trial m.iparticle - i_total spc.p m.iparticle))) := by
  have h1 : m.iparticle > -1 := by omega
  constructor
  · intro hc
    simp [ParticleTranslation._energyChange, h1, hgeo, hp, ht, hassert, hc]
  · intro hc
    simp [ParticleTranslation._energyChange, h1, hgeo, hp, ht, hassert, hc]

/-- Witness of C5: in the sphere of radius 1 with the current particle at (9/10,0,0)
and the trial particle at (13/10,0,0), the energy change is `pc::infty`. -/
theorem translation_energyChange_witness :
    ParticleTranslation._energyChange (fun _ _ => (0 : ℚ))
      { p := [particle.at (9 / 10) 0 0], trial := [particle.at (13 / 10) 0 0],
        geo := some (Sphere.toGeometrybase ⟨1, 1, 2⟩) }
      { iparticle := 0, igroup := none, dir := ⟨1, 1, 1⟩, sqrmap := [], accmap := [] }
      = some EDouble.infty :=
  (translation_energyChange (fun _ _ => (0 : ℚ))
    { p := [particle.at (9 / 10) 0 0], trial := [particle.at (13 / 10) 0 0],
      geo := some (Sphere.toGeometrybase ⟨1, 1, 2⟩) }
    { iparticle := 0, igroup := none, dir := ⟨1, 1, 1⟩, sqrmap := [], accmap := [] }
    (Sphere.toGeometrybase ⟨1, 1, 2⟩) (particle.at (9 / 10) 0 0) (particle.at (13 / 10) 0 0)
    (le_refl 0) rfl (by simp [vecGet]) (by simp [vecGet])
    (by norm_num [Sphere.toGeometrybase, Sphere.collision, particle.at])).1
    (by norm_num [Sphere.toGeometrybase, Sphere.collision, particle.at])

/-- C19: on a cylinder, `setVolume(v)` and `scale(point, v)` end in a failed assertion
for every volume and every point: neither returns, so no radius, length or point is
produced or changed. -/
theorem cylinder_setVolume_scale_fail (pi : K) (c : Cylinder K) (v : K) (a : Point K) :
    Cylinder.setVolume pi c v = none ∧ Cylinder.scale c a v = none := by
  constructor
  · by_cases hv : 0 < v
    · simp [Cylinder.setVolume, Geometrybase.setVolume, Cylinder._setVolume, hv]
    · simp [Cylinder.setVolume, Geometrybase.setVolume, hv]
  · simp [Cylinder.scale, Geometrybase.scale]

/-- C20: for a site inside the configuration, `HAchargereg::energy` returns
`du + ln(10)(pH - pKa) + CatPot - ln(N/V)` for a protonation and
`du - ln(10)(pH - pKa) - CatPot + ln((N+1)/V)` otherwise, `N` being the number of bulk
protons; the correction of a protonation at `N` bulk protons and the correction of a
deprotonation of the same species at `N - 1` bulk protons sum to zero. -/
theorem HAchargereg_energy_formula (pka : ℕ → ℝ) (V : ℝ) (h : HAchargereg ℝ)
    (p : List (particle ℝ)) (du : ℝ) (site proton : ℤ) (ps : particle ℝ)
    (hs : vecGet p site = some ps) :
    HAchargereg.energy Real.log pka V h p du ⟨titrate.keys.PROTONATED, site, proton⟩ =
      some (du + Real.log 10 * (h.ph - pka ps.id) + h.CatPot -
        Real.log ((h.protons.length : ℝ) / V)) ∧
    HAchargereg.energy Real.log pka V h p du ⟨titrate.keys.DEPROTONATED, site, proton⟩ =
      some (du - Real.log 10 * (h.ph - pka ps.id) - h.CatPot +
        Real.log (((h.protons.length : ℝ) + 1) / V)) ∧
    (∀ (h1 : HAchargereg ℝ) (e e1 : ℝ), h1.ph = h.ph → h1.CatPot = h.CatPot →
      h1.protons.length + 1 = h.protons.length →
      HAchargereg.energy Real.log pka V h p du ⟨titrate.keys.PROTONATED, site, proton⟩ =
        some e →
      HAchargereg.energy Real.log pka V h1 p du ⟨titrate.keys.DEPROTONATED, site, proton⟩ =
        some e1 →
      (e - du) + (e1 - du) = 0) := by
  refine ⟨?_, ?_, ?_⟩
  · simp [HAchargereg.energy, hs]
  · simp [HAchargereg.energy, hs]
  · intro h1 e e1 hph hcat hlen he he1
    simp only [HAchargereg.energy, hs, if_true] at he
    simp only [HAchargereg.energy, hs] at he1
    rw [if_neg (by decide)] at he1
    have he' := Option.some.inj he
    have he1' := Option.some.inj he1
    rw [hlen, hph, hcat] at he1'
    rw [← he', ← he1']
    ring

/-- Witness of C20: one site of species 0 with pKa 4 at pH 7, three bulk protons. -/
theorem HAchargereg_energy_formula_witness :
    HAchargereg.energy Real.log (fun _ => 4) 1000 ⟨7, [1, 2, 3], 0⟩ [particle.at 0 0 0] 0
      ⟨titrate.keys.PROTONATED, 0, 1⟩ =
      some (0 + Real.log 10 * (7 - 4) + 0 - Real.log (((3 : ℕ) : ℝ) / 1000)) :=
  (HAchargereg_energy_formula (fun _ => 4) 1000 ⟨7, [1, 2, 3], 0⟩ [particle.at 0 0 0] 0 0 1
    (particle.at 0 0 0) (by simp [vecGet])).1

/-- C11: in a geometry whose `boundary` is the identity (and whose `sqdist` is then the
Euclidean one), for an axis with `beg ≠ end` and every angle, the axis computed by
`setAxis` has unit length, `rotate` keeps the squared distance of every two points, and
so does `rotate` followed by one common translation. -/
theorem rotate_preserves_sqdist (geo : Geometrybase ℝ) (hb : ∀ r, geo.boundary r = r)
    (hs : ∀ a b, geo.sqdist a b = a.sqdist b) (beg end_ : Point ℝ) (hne : beg ≠ end_)
    (angle : ℝ) (p q t : Point ℝ) :
    (VectorRotate.setAxis Real.sqrt Real.cos Real.sin geo beg end_ angle).u.x ^ 2 +
      (VectorRotate.setAxis Real.sqrt Real.cos Real.sin geo beg end_ angle).u.y ^ 2 +
      (VectorRotate.setAxis Real.sqrt Real.cos Real.sin geo beg end_ angle).u.z ^ 2 = 1 ∧
    Point.sqdist
      ((VectorRotate.setAxis Real.sqrt Real.cos Real.sin geo beg end_ angle).rotate geo p)
      ((VectorRotate.setAxis Real.sqrt Real.cos Real.sin geo beg end_ angle).rotate geo q)
      = Point.sqdist p q ∧
    Point.sqdist
      (((VectorRotate.setAxis Real.sqrt Real.cos Real.sin geo beg end_ angle).rotate geo p).add t)
      (((VectorRotate.setAxis Real.sqrt Real.cos Real.sin geo beg end_ angle).rotate geo q).add t)
      = Point.sqdist p q := by
  have hu := setAxis_unit geo hb hs beg end_ hne angle
  refine ⟨hu, ?_, ?_⟩
  all_goals
    have hcs : Real.cos angle ^ 2 + Real.sin angle ^ 2 = 1 := Real.cos_sq_add_sin_sq angle
    simp only [VectorRotate.setAxis, Geometrybase.dist, hb, hs, Point.sub, Point.smul] at hu
    simp only [VectorRotate.setAxis, VectorRotate.rotate, Geometrybase.dist, hb, hs, Point.sub,
      Point.smul, Point.add]
    generalize (end_.x - beg.x) * (1 / Real.sqrt (beg.sqdist end_)) = ux at hu ⊢
    generalize (end_.y - beg.y) * (1 / Real.sqrt (beg.sqdist end_)) = uy at hu ⊢
    generalize (end_.z - beg.z) * (1 / Real.sqrt (beg.sqdist end_)) = uz at hu ⊢
    generalize Real.cos angle = c at hcs ⊢
    generalize Real.sin angle = s at hcs ⊢
    simp only [Point.sqdist]
    linear_combination
      ((1 - c) ^ 2 * (ux * (p.x - q.x) + uy * (p.y - q.y) + uz * (p.z - q.z)) ^ 2 +
        s ^ 2 * ((p.x - q.x) ^ 2 + (p.y - q.y) ^ 2 + (p.z - q.z) ^ 2)) * hu +
      ((p.x - q.x) ^ 2 + (p.y - q.y) ^ 2 + (p.z - q.z) ^ 2 -
        (ux * (p.x - q.x) + uy * (p.y - q.y) + uz * (p.z - q.z)) ^ 2) * hcs

/-- Witness of C11: in the sphere of radius 10, about the axis from the origin to
(0,0,2), the angle 1, the points (1,2,3) and (4,5,6) and the translation (1,1,1). -/
theorem rotate_preserves_sqdist_witness :
    Point.sqdist
      ((VectorRotate.setAxis Real.sqrt Real.cos Real.sin (Sphere.toGeometrybase ⟨10, 100, 20⟩)
        ⟨0, 0, 0⟩ ⟨0, 0, 2⟩ 1).rotate (Sphere.toGeometrybase ⟨10, 100, 20⟩) ⟨1, 2, 3⟩)
      ((VectorRotate.setAxis Real.sqrt Real.cos Real.sin (Sphere.toGeometrybase ⟨10, 100, 20⟩)
        ⟨0, 0, 0⟩ ⟨0, 0, 2⟩ 1).rotate (Sphere.toGeometrybase ⟨10, 100, 20⟩) ⟨4, 5, 6⟩)
      = Point.sqdist (⟨1, 2, 3⟩ : Point ℝ) ⟨4, 5, 6⟩ :=
  (rotate_preserves_sqdist (Sphere.toGeometrybase ⟨10, 100, 20⟩) (fun _ => rfl)
    (fun _ _ => rfl) ⟨0, 0, 0⟩ ⟨0, 0, 2⟩ (by simp) 1 ⟨1, 2, 3⟩ ⟨4, 5, 6⟩ ⟨1, 1, 1⟩).2.1

/-- The result of `Cuboid::setVolume` on a cuboid with positive sides, for `v > 0`:
every side is multiplied by `(v/V)^(1/3)` and the volume is `v`. -/
theorem cuboid_setVolume_some (c : Cuboid ℝ) (v : ℝ) (hx : 0 < c.len.x)
    (hy : 0 < c.len.y) (hz : 0 < c.len.z) (hv : 0 < v) :
    ∃ c' : Cuboid ℝ, Cuboid.setVolume Real.rpow c v = some c' ∧ c'.getVolume = v ∧
      c'.len = c.len.smul (Real.rpow (v / c.getVolume) (1 / 3)) ∧
      0 < c'.len.x ∧ 0 < c'.len.y ∧ 0 < c'.len.z := by
  have hV : 0 < c.getVolume := by
    simp only [Cuboid.getVolume, Cuboid._getVolume]; positivity
  have hq : 0 < v / c.getVolume := div_pos hv hV
  have hf : 0 < Real.rpow (v / c.getVolume) (1 / 3) := Real.rpow_pos_of_pos hq _
  have hf3 := rpow_third_mul_self (v / c.getVolume) (le_of_lt hq)
  have hl : 0 < c.len.x * Real.rpow (v / c.getVolume) (1 / 3) ∧
      0 < c.len.y * Real.rpow (v / c.getVolume) (1 / 3) ∧
      0 < c.len.z * Real.rpow (v / c.getVolume) (1 / 3) :=
    ⟨mul_pos hx hf, mul_pos hy hf, mul_pos hz hf⟩
  have hl' : ¬ (c.len.x * Real.rpow (v / c.getVolume) (1 / 3) ≤ 0 ∨
      c.len.y * Real.rpow (v / c.getVolume) (1 / 3) ≤ 0 ∨
      c.len.z * Real.rpow (v / c.getVolume) (1 / 3) ≤ 0) := by
    rintro (h | h | h)
    · exact absurd hl.1 (not_lt.mpr h)
    · exact absurd hl.2.1 (not_lt.mpr h)
    · exact absurd hl.2.2 (not_lt.mpr h)
  have hvol : c.len.x * Real.rpow (v / c.getVolume) (1 / 3) *
      (c.len.y * Real.rpow (v / c.getVolume) (1 / 3)) *
      (c.len.z * Real.rpow (v / c.getVolume) (1 / 3)) = v := by
    have : c.len.x * c.len.y * c.len.z = c.getVolume := rfl
    calc _ = c.getVolume * (Real.rpow (v / c.getVolume) (1 / 3) *
          Real.rpow (v / c.getVolume) (1 / 3) * Real.rpow (v / c.getVolume) (1 / 3)) := by
          rw [← this]; ring
      _ = v := by rw [hf3]; field_simp
  refine ⟨{ c with
      len := c.len.smul (Real.rpow (v / c.getVolume) (1 / 3))
      len_half := (c.len.smul (Real.rpow (v / c.getVolume) (1 / 3))).smul (1 / 2)
      len_inv := ⟨1 / (c.len.x * Real.rpow (v / c.getVolume) (1 / 3)),
        1 / (c.len.y * Real.rpow (v / c.getVolume) (1 / 3)),
        1 / (c.len.z * Real.rpow (v / c.getVolume) (1 / 3))⟩ }, ?_, ?_, rfl, hl.1, hl.2.1,
      hl.2.2⟩
  · have hc : |(v - c.len.x * Real.rpow (v / c.getVolume) (1 / 3) *
        (c.len.y * Real.rpow (v / c.getVolume) (1 / 3)) *
        (c.len.z * Real.rpow (v / c.getVolume) (1 / 3))) / v| < 1 / 10 ^ 9 := by
      rw [hvol]; norm_num
    simp only [Cuboid.setVolume, Geometrybase.setVolume, Cuboid._setVolume, Cuboid.scale,
      Cuboid.setlen, if_pos hv, if_pos hV, Point.smul, if_pos hl, if_neg hl',
      Cuboid._getVolume]
    exact if_pos hc
  · simpa [Cuboid.getVolume, Cuboid._getVolume, Point.smul] using hvol

/-- C12: for a cuboid with positive sides (volume `V0`), every `V1 > 0` and every point
`a`: `scale(a,V1)` multiplies `a` by `(V1/V0)^(1/3)`, `setVolume(V1)` succeeds, and
`scale` back to `V0` in the resized cuboid multiplies by `(V0/V1)^(1/3)` and returns `a`. -/
theorem cuboid_scale_roundtrip (c : Cuboid ℝ) (V1 : ℝ) (a : Point ℝ) (hx : 0 < c.len.x)
    (hy : 0 < c.len.y) (hz : 0 < c.len.z) (hV1 : 0 < V1) :
    ∃ (a1 a2 : Point ℝ) (c1 : Cuboid ℝ),
      c.scale Real.rpow a V1 = some a1 ∧
      a1 = a.smul (Real.rpow (V1 / c.getVolume) (1 / 3)) ∧
      c.setVolume Real.rpow V1 = some c1 ∧ c1.getVolume = V1 ∧
      c1.scale Real.rpow a1 c.getVolume = some a2 ∧
      a2 = a1.smul (Real.rpow (c.getVolume / c1.getVolume) (1 / 3)) ∧
      a2 = a := by
  have hV : 0 < c.getVolume := by
    simp only [Cuboid.getVolume, Cuboid._getVolume]; positivity
  obtain ⟨c1, hset, hvol, -, -, -, -⟩ := cuboid_setVolume_some c V1 hx hy hz hV1
  have hV1' : 0 < c1.getVolume := by rw [hvol]; exact hV1
  have hprod : Real.rpow (V1 / c.getVolume) (1 / 3) * Real.rpow (c.getVolume / V1) (1 / 3) = 1 := by
    show (V1 / c.getVolume) ^ (1 / 3 : ℝ) * (c.getVolume / V1) ^ (1 / 3 : ℝ) = 1
    rw [← Real.mul_rpow (le_of_lt (div_pos hV1 hV)) (le_of_lt (div_pos hV hV1))]
    have : V1 / c.getVolume * (c.getVolume / V1) = 1 := by
      field_simp
    rw [this, Real.one_rpow]
  refine ⟨a.smul (Real.rpow (V1 / c.getVolume) (1 / 3)),
    (a.smul (Real.rpow (V1 / c.getVolume) (1 / 3))).smul
      (Real.rpow (c.getVolume / c1.getVolume) (1 / 3)), c1, ?_, rfl, hset, hvol, ?_, rfl, ?_⟩
  · simp [Cuboid.scale, hV, hV1]
  · simp [Cuboid.scale, hV, hV1']
  · rw [hvol]
    cases a with
    | mk ax ay az =>
      simp only [Point.smul, Point.mk.injEq]
      refine ⟨?_, ?_, ?_⟩
      · rw [mul_assoc, hprod, mul_one]
      · rw [mul_assoc, hprod, mul_one]
      · rw [mul_assoc, hprod, mul_one]

/-- Witness of C12: the unit cube, the volume 8 and the point (1,2,3). -/
theorem cuboid_scale_roundtrip_witness :
    ∃ (a1 a2 : Point ℝ) (c1 : Cuboid ℝ),
      Cuboid.scale Real.rpow ⟨⟨1, 1, 1⟩, ⟨1 / 2, 1 / 2, 1 / 2⟩, ⟨1, 1, 1⟩, ⟨-1 / 2, -1 / 2, -1 / 2⟩,
        ⟨1 / 2, 1 / 2, 1 / 2⟩⟩ ⟨1, 2, 3⟩ 8 = some a1 ∧
      Cuboid.setVolume Real.rpow ⟨⟨1, 1, 1⟩, ⟨1 / 2, 1 / 2, 1 / 2⟩, ⟨1, 1, 1⟩,
        ⟨-1 / 2, -1 / 2, -1 / 2⟩, ⟨1 / 2, 1 / 2, 1 / 2⟩⟩ 8 = some c1 ∧
      c1.scale Real.rpow a1 1 = some a2 ∧ a2 = ⟨1, 2, 3⟩ := by
  obtain ⟨a1, a2, c1, h1, -, h2, -, h3, -, h4⟩ :=
    cuboid_scale_roundtrip ⟨⟨1, 1, 1⟩, ⟨1 / 2, 1 / 2, 1 / 2⟩, ⟨1, 1, 1⟩, ⟨-1 / 2, -1 / 2, -1 / 2⟩,
      ⟨1 / 2, 1 / 2, 1 / 2⟩⟩ 8 ⟨1, 2, 3⟩ one_pos one_pos one_pos (by norm_num)
  refine ⟨a1, a2, c1, h1, h2, ?_, h4⟩
  simpa [Cuboid.getVolume, Cuboid._getVolume] using h3

/-- The random source after `run`: one variate has been consumed. -/
theorem run_snd (m : Movebase K) (slp : Slump K) : (m.run slp).2 = slp.randOne.2 := by
  simp only [Movebase.run]
  split <;> rfl

/-- A move whose `runfraction` is 0 is skipped at every call when the variates are not
negative: `n` calls return `n` zeros, nothing aborts, and the base class members are as
before. -/
theorem moveN_disabled {σ : Type} (exp : K → K) (vt : MoveVT K σ) (n : ℕ) :
    ∀ s : MoveState K σ, s.base.runfraction = 0 → (∀ k, 0 ≤ s.slp.seq k) →
      ∃ s' : MoveState K σ, Movebase.moveN exp vt n s = some (List.replicate n (EDouble.fin 0), s') ∧
        s'.base = s.base ∧ s'.spc.p = s.spc.p ∧ s'.spc.trial = s.spc.trial := by
  induction n with
  | zero =>
    intro s _ _
    exact ⟨s, rfl, rfl, rfl, rfl⟩
  | succ n ih =>
    intro s hrf hseq
    have hr : (s.base.run s.slp).1 = false := by
      simp [Movebase.run, Slump.randOne, hrf, not_lt.mpr (hseq s.slp.pos)]
    obtain ⟨s', h1, h2, h3, h4⟩ := ih { s with slp := (s.base.run s.slp).2 } hrf (by
      intro k
      show 0 ≤ (s.base.run s.slp).2.seq k
      rw [run_snd]
      exact hseq k)
    refine ⟨s', ?_, h2, h3, h4⟩
    simp only [Movebase.moveN, Movebase.move, hr, if_true, h1, List.replicate_succ]

/-- C18: an `Isobaric` move constructed with `dV = 0` and a `RotateGroup` move constructed
with rotation and translation step 0 have `runfraction = 0` and `cnt = 0`, whatever
`runfraction` was configured; and for every move with `runfraction = 0` and `cnt = 0`, any
number `n` of `move()` calls on uniform variates that are not negative returns 0 every
time and leaves `cnt` at 0. -/
theorem zero_step_move_never_runs (G σ : Type) (exp log : K → K) (pi Nav : K) :
    (∀ (gvt : GeometryVT K G) (inp : InputMap K) (e : Energybase K G) (geo : G) (pfx : String),
      inp.get (pfx ++ "_dV") 0 = 0 →
      (Isobaric.Isobaric log Nav gvt inp e geo pfx).1.runfraction = 0 ∧
      (Isobaric.Isobaric log Nav gvt inp e geo pfx).1.cnt = 0 ∧
      (Isobaric.Isobaric log Nav gvt inp e geo pfx).2.dV = 0) ∧
    (∀ (inp : InputMap K) (pfx : String),
      inp.get (pfx ++ "_rotdp") 100 = 0 → inp.get (pfx ++ "_transdp") 2 = 0 →
      (RotateGroup.RotateGroup pi inp pfx).1.runfraction = 0 ∧
      (RotateGroup.RotateGroup pi inp pfx).1.cnt = 0) ∧
    (∀ (vt : MoveVT K σ) (s : MoveState K σ) (n : ℕ),
      s.base.runfraction = 0 → s.base.cnt = 0 → (∀ k, 0 ≤ s.slp.seq k) →
      ∃ s' : MoveState K σ,
        Movebase.moveN exp vt n s = some (List.replicate n (EDouble.fin 0), s') ∧
        s'.base.cnt = 0) := by
  have hsmall : (0 : K) < 1 / 10 ^ 6 := by positivity
  refine ⟨?_, ?_, ?_⟩
  · intro gvt inp e geo pfx hdV
    refine ⟨?_, rfl, ?_⟩
    · simp [Isobaric.Isobaric, hdV, hsmall]
    · simp [Isobaric.Isobaric, hdV]
  · intro inp pfx hrot htrans
    refine ⟨?_, rfl⟩
    have h1 : (if (0 : K) > 4 * pi then 4 * pi else 0) < 1 / 10 ^ 6 := by
      split
      · rename_i h
        exact lt_trans h hsmall
      · exact hsmall
    simp only [RotateGroup.RotateGroup, hrot, htrans]
    rw [if_pos ⟨h1, hsmall⟩]
  · intro vt s n hrf hcnt hseq
    obtain ⟨s', h1, h2, -, -⟩ := moveN_disabled exp vt n s hrf hseq
    exact ⟨s', h1, by rw [h2]; exact hcnt⟩

/-- Witness of C18: the `Isobaric` move constructed on the cube of side 20 with `dV = 0`
and `runfraction = 1` configured, called three times on the variates 0, 1/2, 9/10. -/
theorem zero_step_move_never_runs_witness :
    ∃ s' : MoveState ℝ (Isobaric ℝ (Cuboid ℝ)),
      Movebase.moveN Real.exp (Isobaric.vt Real.exp Real.log Real.rpow (Cuboid.geometryVT Real.rpow)) 3
        { base := (Isobaric.Isobaric Real.log 1 (Cuboid.geometryVT Real.rpow)
            ⟨fun key => if key = "npt_dV" then some 0 else some 1⟩
            ⟨fun _ _ _ _ => 0, fun _ _ _ => 0, fun _ _ _ => 0, fun _ => 0⟩
            ⟨⟨20, 20, 20⟩, ⟨10, 10, 10⟩, ⟨1 / 20, 1 / 20, 1 / 20⟩, ⟨-10, -10, -10⟩, ⟨10, 10, 10⟩⟩
            "npt").1
          spc := { p := [particle.at 1 2 3], trial := [particle.at 1 2 3], geo := none,
                   g := [⟨0, 0, GroupType.ATOMIC⟩] }
          self := (Isobaric.Isobaric Real.log 1 (Cuboid.geometryVT Real.rpow)
            ⟨fun key => if key = "npt_dV" then some 0 else some 1⟩
            ⟨fun _ _ _ _ => 0, fun _ _ _ => 0, fun _ _ _ => 0, fun _ => 0⟩
            ⟨⟨20, 20, 20⟩, ⟨10, 10, 10⟩, ⟨1 / 20, 1 / 20, 1 / 20⟩, ⟨-10, -10, -10⟩, ⟨10, 10, 10⟩⟩
            "npt").2
          slp := streamOf [0, 1 / 2, 9 / 10] }
        = some (List.replicate 3 (EDouble.fin 0), s') ∧ s'.base.cnt = 0 :=
  (zero_step_move_never_runs (Cuboid ℝ) (Isobaric ℝ (Cuboid ℝ)) Real.exp Real.log Real.pi 1).2.2
    (Isobaric.vt Real.exp Real.log Real.rpow (Cuboid.geometryVT Real.rpow)) _ 3
    ((zero_step_move_never_runs (Cuboid ℝ) (Isobaric ℝ (Cuboid ℝ)) Real.exp Real.log Real.pi 1).1
      (Cuboid.geometryVT Real.rpow) ⟨fun key => if key = "npt_dV" then some 0 else some 1⟩
      ⟨fun _ _ _ _ => 0, fun _ _ _ => 0, fun _ _ _ => 0, fun _ => 0⟩
      ⟨⟨20, 20, 20⟩, ⟨10, 10, 10⟩, ⟨1 / 20, 1 / 20, 1 / 20⟩, ⟨-10, -10, -10⟩, ⟨10, 10, 10⟩⟩
      "npt" (by simp [InputMap.get])).1
    rfl (by
      intro k
      simp only [streamOf]
      rcases k with _ | _ | _ | k <;> simp
      norm_num)

/-- C13, failing input: a system of two cations (indices 0, 1) and two anions (indices
2, 3) of valence one.  `bath::add` builds the ledger `cations[1].pos = [0,1]`,
`anions[2].pos = [2,3]`; `remove(2)` finds the value 2 in the anion bucket and erases
at position 2 of a vector of two elements, outside its range.  With the cation bucket
in the order `[1,0]`, as `random_shuffle` can leave it, `remove(1)` erases position 1,
the entry of value 0: the ledger is then `cations[1].pos = [1]`, `anions[2].pos = [1,2]`
on the species sequence 1, 2, 2, so the cation entry refers to an anion and the index 1
is stored twice. -/
theorem bath_remove_erases_by_position :
    bath.add (saltAtoms (1 : ℚ))
        (saltSpace [⟨1, 1, 1, 0, 0⟩, ⟨1, 1, 1, 0, 0⟩, ⟨2, -1, 1, 0, 0⟩, ⟨2, -1, 1, 0, 0⟩])
        ⟨[], [], [], []⟩ ⟨0, 3, GroupType.ATOMIC⟩ =
      some ⟨[(1, ⟨[0, 1], 1⟩)], [(2, ⟨[2, 3], 1⟩)], [], []⟩ ∧
    (bath.remove
        (saltSpace [⟨1, (1 : ℚ), 1, 0, 0⟩, ⟨1, 1, 1, 0, 0⟩, ⟨2, -1, 1, 0, 0⟩, ⟨2, -1, 1, 0, 0⟩])
        ⟨[(1, ⟨[0, 1], 1⟩)], [(2, ⟨[2, 3], 1⟩)], [], []⟩ 2).isNone = true ∧
    (bath.remove
        (saltSpace [⟨1, (1 : ℚ), 1, 0, 0⟩, ⟨1, 1, 1, 0, 0⟩, ⟨2, -1, 1, 0, 0⟩, ⟨2, -1, 1, 0, 0⟩])
        ⟨[(1, ⟨[1, 0], 1⟩)], [(2, ⟨[2, 3], 1⟩)], [], []⟩ 1).map
      (fun r => (r.2.cations, r.2.anions, r.1.p.map (fun a => a.id))) =
      some ([(1, ⟨[1], 1⟩)], [(2, ⟨[1, 2], 1⟩)], [1, 2, 2]) := by
  refine ⟨?_, ?_, ?_⟩
  · simp [bath.add, bath.addLoop, bath.addScan, saltAtoms, saltSpace, AtomData.toParticle,
      Group.size, vecGet, mapSet]
    norm_num
  · simp [bath.remove, bath.removeLedger, bath.removeEntry, bath.eraseAt]
  · simp [bath.remove, bath.removeLedger, bath.removeEntry, bath.eraseAt, Space.remove,
      saltSpace, AtomData.toParticle]

/-- The loop `do push while (Na-->0)` appends `Na + 1` copies. -/
theorem pushLoop_eq (pa : particle K) (n : ℕ) :
    ∀ l : List (particle K), bath.pushLoop pa n l = l ++ List.replicate (n + 1) pa := by
  induction n with
  | zero => intro l; simp [bath.pushLoop]
  | succ n ih =>
    intro l
    simp only [bath.pushLoop, ih, List.append_assoc]
    congr 1

/-- The loop over `randompos` changes no charge. -/
theorem randomposLoop_charge (randompos : Point K → Slump K → Point K × Slump K)
    (l : List (particle K)) :
    ∀ slp : Slump K, (bath.randomposLoop randompos l slp).1.map (fun t => t.charge) =
      l.map (fun t => t.charge) := by
  induction l with
  | nil => intro slp; rfl
  | cons t ts ih =>
    intro slp
    simp only [bath.randomposLoop, List.map_cons, ih]

/-- C14, failing input: whatever the permutation and `randompos` are, the batch of
`bath::_trialMove` holds `za + 1` particles of the cation species and `zb + 1` of the
anion species, `za`, `zb` being the valences in the ledger.  For a cation of valence 2
and an anion of valence 1 (ledger built by `bath::add` from one cation and two anions)
the charges of the batch are 2, 2, 2, -1, -1: net charge 4, and 3 * 2 is not 2 * 1. -/
theorem bath_trialMove_batch_charge :
    (∀ (atom : List (AtomData ℚ)) (shuffle : List ℤ → List ℤ)
        (randompos : Point ℚ → Slump ℚ → Point ℚ × Slump ℚ) (ida idb : ℕ) (b : bath ℚ)
        (slp : Slump ℚ) (a c : AtomData ℚ), atom.get? ida = some a → atom.get? idb = some c →
      (bath._trialMove atom shuffle randompos ida idb b slp).map
        (fun r => r.1.trial_ins.map (fun t => t.charge)) =
        some (List.replicate (mapZ b.cations ida + 1) a.charge ++
          List.replicate (mapZ b.anions idb + 1) c.charge)) ∧
    bath.add (saltAtoms (2 : ℚ))
        (saltSpace [⟨1, 2, 1, 0, 0⟩, ⟨2, -1, 1, 0, 0⟩, ⟨2, -1, 1, 0, 0⟩])
        ⟨[], [], [], []⟩ ⟨0, 2, GroupType.ATOMIC⟩ =
      some ⟨[(1, ⟨[0], 2⟩)], [(2, ⟨[1, 2], 1⟩)], [], []⟩ ∧
    (bath._trialMove (saltAtoms (2 : ℚ)) (fun l => l) (fun q s => (q, s)) 1 2
        ⟨[(1, ⟨[0], 2⟩)], [(2, ⟨[1, 2], 1⟩)], [], []⟩ (streamOf [])).map
      (fun r => r.1.trial_ins.map (fun t => t.charge)) = some [2, 2, 2, -1, -1] ∧
    ([2, 2, 2, -1, -1] : List ℚ).sum = 4 ∧
    (([2, 2, 2, -1, -1] : List ℚ).filter (fun q => 0 < q)).length * 2 ≠
      (([2, 2, 2, -1, -1] : List ℚ).filter (fun q => q < 0)).length * 1 := by
  refine ⟨?_, ?_, ?_, ?_, ?_⟩
  · intro atom shuffle randompos ida idb b slp a c ha hc
    simp only [bath._trialMove, ha, hc, Option.map_some', pushLoop_eq, randomposLoop_charge,
      List.nil_append, List.map_append, List.map_replicate, AtomData.toParticle]
  · simp [bath.add, bath.addLoop, bath.addScan, saltAtoms, saltSpace, AtomData.toParticle,
      Group.size, vecGet, mapSet]
    norm_num
  · simp [bath._trialMove, saltAtoms, mapZ, bath.pushLoop, bath.randomposLoop,
      AtomData.toParticle]
  · norm_num
  · simp

/-- One coordinate of the minimum image: `d - L*floor(d/L + 1/2)` lies in `[-L/2, L/2)`. -/
theorem wrap_bounds [FloorRing K] (L : K) (hL : 0 < L) (d : K) :
    -(L / 2) ≤ d - L * (⌊d * (1 / L) + 1 / 2⌋ : ℤ) ∧
      d - L * (⌊d * (1 / L) + 1 / 2⌋ : ℤ) < L / 2 := by
  have h1 : ((⌊d * (1 / L) + 1 / 2⌋ : ℤ) : K) ≤ d * (1 / L) + 1 / 2 := Int.floor_le _
  have h2 : d * (1 / L) + 1 / 2 < (⌊d * (1 / L) + 1 / 2⌋ : ℤ) + 1 := Int.lt_floor_add_one _
  have hd : L * (d * (1 / L)) = d := by field_simp
  have h3 := mul_le_mul_of_nonneg_left h1 (le_of_lt hL)
  have h4 := mul_lt_mul_of_pos_left h2 hL
  rw [mul_add, hd] at h3 h4
  constructor <;> linarith

/-- One coordinate of the minimum image is the shortest among all translates by whole box
lengths. -/
theorem wrap_min [FloorRing K] (L : K) (hL : 0 < L) (d : K) (k : ℤ) :
    (d - L * (⌊d * (1 / L) + 1 / 2⌋ : ℤ)) * (d - L * (⌊d * (1 / L) + 1 / 2⌋ : ℤ)) ≤
      (d - L * (k : K)) * (d - L * (k : K)) := by
  obtain ⟨hlo, hhi⟩ := wrap_bounds L hL d
  generalize hk0 : (⌊d * (1 / L) + 1 / 2⌋ : ℤ) = k0 at hlo hhi ⊢
  have hm : (d - L * (k : K)) = (d - L * (k0 : K)) + L * ((k0 - k : ℤ) : K) := by
    push_cast; ring
  rw [hm]
  generalize d - L * (k0 : K) = r at hlo hhi ⊢
  generalize hmm : k0 - k = m
  rcases lt_trichotomy m 0 with hneg | hzero | hpos
  · have h1 : (m : K) ≤ -1 := by exact_mod_cast Int.le_sub_one_of_lt hneg
    nlinarith [mul_nonneg (le_of_lt hL) (by linarith : (0 : K) ≤ -1 - m),
      mul_nonneg (mul_nonneg (le_of_lt hL) (by linarith : (0 : K) ≤ -m))
        (by nlinarith [mul_nonneg (le_of_lt hL) (by linarith : (0 : K) ≤ -1 - m)] :
          (0 : K) ≤ -(2 * r + L * m))]
  · subst hzero
    simp
  · have h1 : (1 : K) ≤ m := by exact_mod_cast Int.add_one_le_of_lt hpos
    nlinarith [mul_nonneg (le_of_lt hL) (by linarith : (0 : K) ≤ m - 1),
      mul_nonneg (mul_nonneg (le_of_lt hL) (by linarith : (0 : K) ≤ (m : K)))
        (by nlinarith [mul_nonneg (le_of_lt hL) (by linarith : (0 : K) ≤ (m : K) - 1)] :
          (0 : K) ≤ 2 * r + L * m)]

/-- The square of one coordinate of the minimum image does not change with the sign of
the difference. -/
theorem wrap_symm [FloorRing K] (L : K) (hL : 0 < L) (d : K) :
    (-d - L * (⌊-d * (1 / L) + 1 / 2⌋ : ℤ)) * (-d - L * (⌊-d * (1 / L) + 1 / 2⌋ : ℤ)) =
      (d - L * (⌊d * (1 / L) + 1 / 2⌋ : ℤ)) * (d - L * (⌊d * (1 / L) + 1 / 2⌋ : ℤ)) := by
  apply le_antisymm
  · have h := wrap_min L hL (-d) (-⌊d * (1 / L) + 1 / 2⌋)
    have e : (-d - L * ((-⌊d * (1 / L) + 1 / 2⌋ : ℤ) : K)) =
        -(d - L * (⌊d * (1 / L) + 1 / 2⌋ : ℤ)) := by push_cast; ring
    rw [e, neg_mul_neg] at h
    exact h
  · have h := wrap_min L hL d (-⌊-d * (1 / L) + 1 / 2⌋)
    have e : (d - L * ((-⌊-d * (1 / L) + 1 / 2⌋ : ℤ) : K)) =
        -(-d - L * (⌊-d * (1 / L) + 1 / 2⌋ : ℤ)) := by push_cast; ring
    rw [e, neg_mul_neg] at h
    exact h

/-- C30: for `L > 0` and `inv_len = 1/L` the minimum image squared distance of `p` and
`q` is at most the plain squared distance of `p` and every translate of `q` by whole box
lengths, and is the plain squared distance for one such translate: it is the minimum
over the integer vectors.  It is symmetric in `p` and `q`, at most the plain
`sqdist(p,q)` and at most `3*(L/2)^2`. -/
theorem sqdistMI_is_minimum [FloorRing K] (L : K) (hL : 0 < L) (p q : Point K) :
    (∀ kx ky kz : ℤ, Point.sqdistMI p q L (1 / L) ≤
      Point.sqdist p (q.add ⟨L * (kx : K), L * (ky : K), L * (kz : K)⟩)) ∧
    (∃ kx ky kz : ℤ, Point.sqdistMI p q L (1 / L) =
      Point.sqdist p (q.add ⟨L * (kx : K), L * (ky : K), L * (kz : K)⟩)) ∧
    Point.sqdistMI p q L (1 / L) = Point.sqdistMI q p L (1 / L) ∧
    Point.sqdistMI p q L (1 / L) ≤ Point.sqdist p q ∧
    Point.sqdistMI p q L (1 / L) ≤ 3 * (L / 2) ^ 2 := by
  have hmin : ∀ kx ky kz : ℤ, Point.sqdistMI p q L (1 / L) ≤
      Point.sqdist p (q.add ⟨L * (kx : K), L * (ky : K), L * (kz : K)⟩) := by
    intro kx ky kz
    simp only [Point.sqdistMI, Point.sqdist, Point.add]
    have hx := wrap_min L hL (p.x - q.x) kx
    have hy := wrap_min L hL (p.y - q.y) ky
    have hz := wrap_min L hL (p.z - q.z) kz
    have ex : p.x - (q.x + L * (kx : K)) = p.x - q.x - L * (kx : K) := by ring
    have ey : p.y - (q.y + L * (ky : K)) = p.y - q.y - L * (ky : K) := by ring
    have ez : p.z - (q.z + L * (kz : K)) = p.z - q.z - L * (kz : K) := by ring
    rw [ex, ey, ez]
    linarith
  refine ⟨hmin, ?_, ?_, ?_, ?_⟩
  · refine ⟨⌊(p.x - q.x) * (1 / L) + 1 / 2⌋, ⌊(p.y - q.y) * (1 / L) + 1 / 2⌋,
      ⌊(p.z - q.z) * (1 / L) + 1 / 2⌋, ?_⟩
    simp only [Point.sqdistMI, Point.sqdist, Point.add]
    ring
  · simp only [Point.sqdistMI]
    have hx := wrap_symm L hL (p.x - q.x)
    have hy := wrap_symm L hL (p.y - q.y)
    have hz := wrap_symm L hL (p.z - q.z)
    rw [neg_sub] at hx hy hz
    rw [hx, hy, hz]
  · have h := hmin 0 0 0
    simpa [Point.add] using h
  · simp only [Point.sqdistMI]
    obtain ⟨hx1, hx2⟩ := wrap_bounds L hL (p.x - q.x)
    obtain ⟨hy1, hy2⟩ := wrap_bounds L hL (p.y - q.y)
    obtain ⟨hz1, hz2⟩ := wrap_bounds L hL (p.z - q.z)
    nlinarith [mul_nonneg (sub_nonneg.mpr hx1) (le_of_lt (sub_pos.mpr hx2)),
      mul_nonneg (sub_nonneg.mpr hy1) (le_of_lt (sub_pos.mpr hy2)),
      mul_nonneg (sub_nonneg.mpr hz1) (le_of_lt (sub_pos.mpr hz2))]

/-- Witness of C30: box length 2, the points (0,0,0) and (3/2,0,0): the minimum image
squared distance is at most the plain one. -/
theorem sqdistMI_is_minimum_witness :
    Point.sqdistMI (⟨0, 0, 0⟩ : Point ℚ) ⟨3 / 2, 0, 0⟩ 2 (1 / 2) ≤
      Point.sqdist (⟨0, 0, 0⟩ : Point ℚ) ⟨3 / 2, 0, 0⟩ :=
  (sqdistMI_is_minimum 2 (by norm_num) ⟨0, 0, 0⟩ ⟨3 / 2, 0, 0⟩).2.2.2.1

/-- Two Boolean tests of equivalent conditions give the same value. -/
theorem ite_congr_iff {P Q : Prop} [Decidable P] [Decidable Q] (h : P ↔ Q) :
    (if P then true else false) = (if Q then true else false) := by
  by_cases hq : Q
  · rw [if_pos hq, if_pos (h.mpr hq)]
  · rw [if_neg hq, if_neg (fun hp => hq (h.mp hp))]

/-- C24: for every cuboid and particle, `collision(a, ZONE)` is true exactly when
`collision(a, BOUNDARY)` is true or a coordinate lies outside `[slice_min, slice_max]`;
a BOUNDARY collision is a ZONE collision; and after `setlen(l)` followed by
`setslice(0, len)` (the default slice) succeeds and the two modes agree on every
particle. -/
theorem cuboid_zone_iff_boundary_or_slice (c : Cuboid K) (a : particle K) :
    (c.collision a collisiontype.ZONE = true ↔
      (c.collision a collisiontype.BOUNDARY = true ∨
        a.x < c.slice_min.x ∨ a.y < c.slice_min.y ∨ a.z < c.slice_min.z ∨
        a.x > c.slice_max.x ∨ a.y > c.slice_max.y ∨ a.z > c.slice_max.z)) ∧
    (c.collision a collisiontype.BOUNDARY = true → c.collision a collisiontype.ZONE = true) ∧
    (∀ (l : Point K) (c1 : Cuboid K), c.setlen l = some (true, c1) →
      ∃ c2, c1.setslice ⟨0, 0, 0⟩ c1.len = some (true, c2) ∧
        c2.collision a collisiontype.ZONE = c2.collision a collisiontype.BOUNDARY) := by
  have h1 : c.collision a collisiontype.ZONE = true ↔
      (c.collision a collisiontype.BOUNDARY = true ∨
        a.x < c.slice_min.x ∨ a.y < c.slice_min.y ∨ a.z < c.slice_min.z ∨
        a.x > c.slice_max.x ∨ a.y > c.slice_max.y ∨ a.z > c.slice_max.z) := by
    simp only [Cuboid.collision, ite_eq_left_iff, Bool.false_eq_true, imp_false, not_not]
    tauto
  refine ⟨h1, fun h => h1.mpr (Or.inl h), ?_⟩
  intro l c1 hl
  unfold Cuboid.setlen at hl
  by_cases hpos : 0 < l.x ∧ 0 < l.y ∧ 0 < l.z
  · have hn : ¬ (l.x ≤ 0 ∨ l.y ≤ 0 ∨ l.z ≤ 0) := by
      rintro (h | h | h)
      · exact absurd hpos.1 (not_lt.mpr h)
      · exact absurd hpos.2.1 (not_lt.mpr h)
      · exact absurd hpos.2.2 (not_lt.mpr h)
    rw [if_pos hpos, if_neg hn] at hl
    simp only [Option.some.injEq, Prod.mk.injEq, true_and] at hl
    subst hl
    have hc : (0 : K) ≤ 0 ∧ (0 : K) ≤ 0 ∧ (0 : K) ≤ 0 ∧ l.x ≤ l.x ∧ l.y ≤ l.y ∧ l.z ≤ l.z :=
      ⟨le_refl _, le_refl _, le_refl _, le_refl _, le_refl _, le_refl _⟩
    have hn1 : ¬ ((0 : K) < 0 ∨ (0 : K) < 0 ∨ (0 : K) < 0) := by simp
    have hn2 : ¬ (l.x > l.x ∨ l.y > l.y ∨ l.z > l.z) := by simp
    refine ⟨{ len := l, len_half := l.smul (1 / 2), len_inv := ⟨1 / l.x, 1 / l.y, 1 / l.z⟩,
              slice_min := (l.smul (1 / 2)).sub l,
              slice_max := (l.smul (1 / 2)).sub ⟨0, 0, 0⟩ }, ?_, ?_⟩
    · simp only [Cuboid.setslice]
      rw [if_pos hc, if_neg hn1, if_neg hn2]
    · simp only [Cuboid.collision, Point.smul, Point.sub]
      apply ite_congr_iff
      constructor
      · rintro (h | h | h | h | h | h | h | h | h)
        · exact Or.inl h
        · exact Or.inr (Or.inl h)
        · exact Or.inr (Or.inr h)
        · exact Or.inl (lt_abs.mpr (Or.inr (by linarith)))
        · exact Or.inr (Or.inl (lt_abs.mpr (Or.inr (by linarith))))
        · exact Or.inr (Or.inr (lt_abs.mpr (Or.inr (by linarith))))
        · exact Or.inl (lt_abs.mpr (Or.inl (by linarith)))
        · exact Or.inr (Or.inl (lt_abs.mpr (Or.inl (by linarith))))
        · exact Or.inr (Or.inr (lt_abs.mpr (Or.inl (by linarith))))
      · rintro (h | h | h)
        · exact Or.inl h
        · exact Or.inr (Or.inl h)
        · exact Or.inr (Or.inr (Or.inl h))
  · rw [if_neg hpos] at hl
    exact absurd hl (by simp)

/-- Witness of C24: the box 2 x 4 x 6 set by `setlen`, with the particle at (1,0,0). -/
theorem cuboid_zone_iff_boundary_or_slice_witness :
    ∃ c2, Cuboid.setslice (⟨⟨2, 4, 6⟩, ⟨1, 2, 3⟩, ⟨1 / 2, 1 / 4, 1 / 6⟩, ⟨0, 0, 0⟩, ⟨0, 0, 0⟩⟩ : Cuboid ℚ)
        ⟨0, 0, 0⟩ ⟨2, 4, 6⟩ = some (true, c2) ∧
      c2.collision (particle.at 1 0 0) collisiontype.ZONE =
        c2.collision (particle.at 1 0 0) collisiontype.BOUNDARY :=
  (cuboid_zone_iff_boundary_or_slice (⟨⟨1, 1, 1⟩, ⟨0, 0, 0⟩, ⟨1, 1, 1⟩, ⟨0, 0, 0⟩, ⟨0, 0, 0⟩⟩ : Cuboid ℚ)
    (particle.at 1 0 0)).2.2 ⟨2, 4, 6⟩
    ⟨⟨2, 4, 6⟩, ⟨1, 2, 3⟩, ⟨1 / 2, 1 / 4, 1 / 6⟩, ⟨0, 0, 0⟩, ⟨0, 0, 0⟩⟩
    (by simp [Cuboid.setlen, Point.smul]; norm_num)

/-- The rejection loop of `Sphere::randompos` ends only with a point within the radius. -/
theorem sphere_randomposLoop_inside (s : Sphere K) :
    ∀ (n : ℕ) (m : Point K) (l : K) (slp : Slump K) (r : Point K × Slump K),
      (l ≤ s.r2 → l = m.x * m.x + m.y * m.y + m.z * m.z) →
      Sphere.randomposLoop s n m l slp = some r →
      r.1.x * r.1.x + r.1.y * r.1.y + r.1.z * r.1.z ≤ s.r2 := by
  intro n
  induction n with
  | zero =>
    intro m l slp r hl h
    unfold Sphere.randomposLoop at h
    by_cases hc : l > s.r2
    · rw [if_pos hc] at h
      exact absurd h (by simp)
    · rw [if_neg hc] at h
      simp only [Option.some.injEq] at h
      subst h
      have := hl (not_lt.mp hc)
      exact this ▸ not_lt.mp hc
  | succ n ih =>
    intro m l slp r hl h
    unfold Sphere.randomposLoop at h
    by_cases hc : l > s.r2
    · rw [if_pos hc] at h
      exact ih _ _ _ r (fun _ => rfl) h
    · rw [if_neg hc] at h
      simp only [Option.some.injEq] at h
      subst h
      have := hl (not_lt.mp hc)
      exact this ▸ not_lt.mp hc

/-- The rejection loop of `Cylinder::randompos` keeps `z` and ends only with `x`, `y`
within the radius. -/
theorem cylinder_randomposLoop_inside (c : Cylinder K) :
    ∀ (n : ℕ) (m : Point K) (l : K) (slp : Slump K) (r : Point K × Slump K),
      (l ≤ c.r2 → l = m.x * m.x + m.y * m.y) →
      Cylinder.randomposLoop c n m l slp = some r →
      r.1.x * r.1.x + r.1.y * r.1.y ≤ c.r2 ∧ r.1.z = m.z := by
  intro n
  induction n with
  | zero =>
    intro m l slp r hl h
    unfold Cylinder.randomposLoop at h
    by_cases hc : l > c.r2
    · rw [if_pos hc] at h
      exact absurd h (by simp)
    · rw [if_neg hc] at h
      simp only [Option.some.injEq] at h
      subst h
      have := hl (not_lt.mp hc)
      exact ⟨this ▸ not_lt.mp hc, rfl⟩
  | succ n ih =>
    intro m l slp r hl h
    unfold Cylinder.randomposLoop at h
    by_cases hc : l > c.r2
    · rw [if_pos hc] at h
      have h2 := ih _ _ _ r (fun _ => rfl) h
      exact h2
    · rw [if_neg hc] at h
      simp only [Option.some.injEq] at h
      subst h
      have := hl (not_lt.mp hc)
      exact ⟨this ▸ not_lt.mp hc, rfl⟩

/-- C25: with every variate of the random source in `[0,1)`, so that `randHalf()` lies
in `[-1/2,1/2)`, the point produced by `randompos` does not collide with the container
in the mode BOUNDARY: for a sphere and for a cylinder set by `init` whenever the
rejection loop ends (within any number `fuel` of rounds), for a cuboid set by `setlen`
always. -/
theorem randompos_inside (a : particle K) (slp : Slump K)
    (hslp : ∀ k, 0 ≤ slp.seq k ∧ slp.seq k < 1) :
    (∀ (s : Sphere K) (fuel : ℕ) (m : Point K) (r : Point K × Slump K),
      s.randompos fuel m slp = some r →
      s.collision { a with toPoint := r.1 } collisiontype.BOUNDARY = false) ∧
    (∀ (c0 c : Cuboid K) (l m : Point K), c0.setlen l = some (true, c) →
      c.collision { a with toPoint := (c.randompos m slp).1 } collisiontype.BOUNDARY = false) ∧
    (∀ (length radius : K) (c : Cylinder K) (fuel : ℕ) (m : Point K) (r : Point K × Slump K),
      Cylinder.init length radius = some c → c.randompos fuel m slp = some r →
      c.collision { a with toPoint := r.1 } collisiontype.BOUNDARY = false) := by
  refine ⟨?_, ?_, ?_⟩
  · intro s fuel m r h
    have hin := sphere_randomposLoop_inside s fuel m (s.r2 + 1) slp r
      (fun hle => absurd hle (by linarith)) h
    simp only [Sphere.collision]
    rw [if_neg (not_lt.mpr hin)]
  · intro c0 c l m hl
    unfold Cuboid.setlen at hl
    by_cases hpos : 0 < l.x ∧ 0 < l.y ∧ 0 < l.z
    · have hn : ¬ (l.x ≤ 0 ∨ l.y ≤ 0 ∨ l.z ≤ 0) := by
        rintro (h | h | h)
        · exact absurd hpos.1 (not_lt.mpr h)
        · exact absurd hpos.2.1 (not_lt.mpr h)
        · exact absurd hpos.2.2 (not_lt.mpr h)
      rw [if_pos hpos, if_neg hn] at hl
      simp only [Option.some.injEq, Prod.mk.injEq, true_and] at hl
      subst hl
      have key : ∀ (u L : K), 0 ≤ u → u < 1 → 0 < L → ¬ |(u - 1 / 2) * L| > L * (1 / 2) := by
        intro u L h0 h1 hL
        rw [not_lt, abs_le]
        constructor <;> nlinarith
      obtain ⟨a0, a1⟩ := hslp slp.pos
      obtain ⟨b0, b1⟩ := hslp (slp.pos + 1)
      obtain ⟨c0, c1⟩ := hslp (slp.pos + 1 + 1)
      simp only [Cuboid.collision, Cuboid.randompos, Slump.randHalf, Point.smul]
      rw [if_neg]
      rintro (h | h | h)
      · exact key _ _ a0 a1 hpos.1 h
      · exact key _ _ b0 b1 hpos.2.1 h
      · exact key _ _ c0 c1 hpos.2.2 h
    · rw [if_neg hpos] at hl
      exact absurd hl (by simp)
  · intro length radius c fuel m r hi h
    unfold Cylinder.init at hi
    by_cases hpos : 0 < length ∧ 0 < radius
    · rw [if_pos hpos] at hi
      simp only [Option.some.injEq] at hi
      subst hi
      unfold Cylinder.randompos at h
      obtain ⟨hxy, hz⟩ := cylinder_randomposLoop_inside _ fuel _ _ _ r
        (fun hle => absurd hle (by linarith)) h
      obtain ⟨a0, a1⟩ := hslp slp.pos
      simp only [Slump.randHalf] at hz
      simp only [Cylinder.collision]
      rw [if_neg]
      rintro (h1 | h1 | h1)
      · exact absurd h1 (not_lt.mpr hxy)
      · rw [hz] at h1
        nlinarith [hpos.1]
      · rw [hz] at h1
        nlinarith [hpos.1]
    · rw [if_neg hpos] at hi
      exact absurd hi (by simp)

/-- The variates of the stream used below lie in `[0,1)`. -/
theorem randompos_stream_range (k : ℕ) :
    0 ≤ (streamOf ([9 / 10, 9 / 10, 9 / 10, 1 / 2, 3 / 4, 1 / 4] : List ℚ)).seq k ∧
      (streamOf ([9 / 10, 9 / 10, 9 / 10, 1 / 2, 3 / 4, 1 / 4] : List ℚ)).seq k < 1 := by
  simp only [streamOf]
  rcases k with _ | _ | _ | _ | _ | _ | k <;> norm_num [List.getD]

/-- In the sphere of radius 1 the first triple of variates gives the point
(4/5,4/5,4/5), which is rejected, the second one the point (0,1/2,-1/2), which is
returned. -/
theorem randompos_sphere_eval :
    Sphere.randompos (⟨1, 1, 2⟩ : Sphere ℚ) 2 ⟨0, 0, 0⟩
        (streamOf [9 / 10, 9 / 10, 9 / 10, 1 / 2, 3 / 4, 1 / 4]) =
      some (⟨0, 1 / 2, -1 / 2⟩,
        ⟨(streamOf [9 / 10, 9 / 10, 9 / 10, 1 / 2, 3 / 4, 1 / 4]).seq, 6⟩) := by
  have e2 : (2 : ℕ) = 0 + 1 + 1 := rfl
  rw [e2]
  simp only [Sphere.randompos, Sphere.randomposLoop, Slump.randHalf, streamOf,
    List.getD_cons_zero, List.getD_cons_succ]
  norm_num

/-- Witness of C25: the point returned in the sphere of radius 1 after one rejected
triple of variates does not collide. -/
theorem randompos_inside_witness :
    Sphere.collision (⟨1, 1, 2⟩ : Sphere ℚ)
      { particle.at (0 : ℚ) 0 0 with toPoint := ⟨0, 1 / 2, -1 / 2⟩ }
      collisiontype.BOUNDARY = false :=
  (randompos_inside (particle.at (0 : ℚ) 0 0) _ randompos_stream_range).1 _ 2 ⟨0, 0, 0⟩ _
    randompos_sphere_eval

/-- Adding the double 0 changes no double, plus infinity included. -/
theorem EDouble_add_zero (d : EDouble K) : d.add (EDouble.fin 0) = d := by
  cases d with
  | fin a => simp [EDouble.add]
  | infty => rfl

/-- One call of `Movebase::move`: either it is skipped, or a trial is counted and then
rejected, or a trial is counted and accepted. -/
theorem move_step_counters {σ : Type} (exp : K → K) (vt : MoveVT K σ)
    (s : MoveState K σ) (r : EDouble K × MoveState K σ)
    (h : Movebase.move exp vt s = some r) :
    ((s.base.run s.slp).1 = false ∧ r.1 = EDouble.fin 0 ∧ r.2.base = s.base) ∨
    ((s.base.run s.slp).1 = true ∧ r.1 = EDouble.fin 0 ∧
      r.2.base = { s.base with cnt := s.base.cnt + 1 }) ∨
    ((s.base.run s.slp).1 = true ∧
      r.2.base = { s.base with cnt := s.base.cnt + 1,
                               cnt_accepted := s.base.cnt_accepted + 1,
                               dusum := s.base.dusum.add r.1 }) := by
  by_cases hrun : (s.base.run s.slp).1 = false
  · simp only [Movebase.move, if_pos hrun] at h
    have hm := Option.some.inj h
    subst hm
    exact Or.inl ⟨hrun, rfl, rfl⟩
  · have hrt : (s.base.run s.slp).1 = true := by simpa using hrun
    simp only [Movebase.move, if_neg hrun] at h
    split at h
    · exact absurd h (by simp)
    · rename_i s1 htm
      have hb1 : s1.base = { s.base with cnt := s.base.cnt + 1 } := by
        simp only [Movebase.trialMove] at htm
        split at htm
        · split at htm
          · exact absurd htm (by simp)
          · have := Option.some.inj htm
            subst this
            rfl
        · exact absurd htm (by simp)
      split at h
      · exact absurd h (by simp)
      · rename_i e hec
        have hb2 : e.2.base = s1.base := by
          simp only [Movebase.energyChange] at hec
          split at hec
          · exact absurd hec (by simp)
          · have := Option.some.inj hec
            subst this
            rfl
        split at h
        · split at h
          · exact absurd h (by simp)
          · rename_i s3 hrej
            have hb3 : s3.base = e.2.base := by
              simp only [Movebase.rejectMove] at hrej
              split at hrej
              · exact absurd hrej (by simp)
              · have := Option.some.inj hrej
                subst this
                rfl
            have hm := Option.some.inj h
            subst hm
            refine Or.inr (Or.inl ⟨hrt, rfl, ?_⟩)
            show s3.base = _
            rw [hb3, hb2, hb1]
        · split at h
          · exact absurd h (by simp)
          · rename_i s3 hacc
            have hb3 : s3.base = { e.2.base with cnt_accepted := e.2.base.cnt_accepted + 1 } := by
              simp only [Movebase.acceptMove] at hacc
              split at hacc
              · exact absurd hacc (by simp)
              · have := Option.some.inj hacc
                subst this
                rfl
            have hm := Option.some.inj h
            subst hm
            refine Or.inr (Or.inr ⟨hrt, ?_⟩)
            show ({ s3.base with dusum := s3.base.dusum.add e.1 } : Movebase K) = _
            rw [hb3, hb2, hb1]

/-- The counters along `n` calls of `Movebase::move`. -/
theorem moveN_counters {σ : Type} (exp : K → K) (vt : MoveVT K σ) (n : ℕ) :
    ∀ (s s' : MoveState K σ) (rs : List (EDouble K)),
      Movebase.moveN exp vt n s = some (rs, s') →
      s.base.cnt_accepted ≤ s.base.cnt →
      s'.base.cnt_accepted ≤ s'.base.cnt ∧ s'.base.cnt ≤ s.base.cnt + n ∧
        s.base.cnt ≤ s'.base.cnt ∧
        s'.base.dusum = rs.foldl EDouble.add s.base.dusum ∧ rs.length = n := by
  induction n with
  | zero =>
    intro s s' rs h hle
    simp only [Movebase.moveN, Option.some.injEq, Prod.mk.injEq] at h
    obtain ⟨h1, h2⟩ := h
    subst h1
    subst h2
    exact ⟨hle, le_refl _, le_refl _, rfl, rfl⟩
  | succ n ih =>
    intro s s' rs h hle
    simp only [Movebase.moveN] at h
    split at h
    · exact absurd h (by simp)
    · rename_i r hr
      split at h
      · exact absurd h (by simp)
      · rename_i q hq
        have hm := Option.some.inj h
        have h1 : r.1 :: q.1 = rs := congrArg Prod.fst hm
        have h2 : q.2 = s' := congrArg Prod.snd hm
        subst h1
        subst h2
        have hstep := move_step_counters exp vt s r hr
        have hle1 : r.2.base.cnt_accepted ≤ r.2.base.cnt := by
          rcases hstep with ⟨-, -, hb⟩ | ⟨-, -, hb⟩ | ⟨-, hb⟩
          · rw [hb]
            exact hle
          · rw [hb]
            show s.base.cnt_accepted ≤ s.base.cnt + 1
            omega
          · rw [hb]
            show s.base.cnt_accepted + 1 ≤ s.base.cnt + 1
            omega
        have hcnt : r.2.base.cnt ≤ s.base.cnt + 1 ∧ s.base.cnt ≤ r.2.base.cnt := by
          rcases hstep with ⟨-, -, hb⟩ | ⟨-, -, hb⟩ | ⟨-, hb⟩
          · rw [hb]
            omega
          · rw [hb]
            show s.base.cnt + 1 ≤ s.base.cnt + 1 ∧ s.base.cnt ≤ s.base.cnt + 1
            omega
          · rw [hb]
            show s.base.cnt + 1 ≤ s.base.cnt + 1 ∧ s.base.cnt ≤ s.base.cnt + 1
            omega
        obtain ⟨i1, i2, i3, i4, i5⟩ := ih r.2 q.2 q.1 (by rw [hq]) hle1
        refine ⟨i1, ?_, ?_, ?_, ?_⟩
        · omega
        · omega
        · rw [i4, List.foldl_cons]
          rcases hstep with ⟨-, h0, hb⟩ | ⟨-, h0, hb⟩ | ⟨-, hb⟩
          · rw [hb, h0, EDouble_add_zero]
          · rw [hb, h0, EDouble_add_zero]
          · rw [hb]
        · rw [List.length_cons, i5]

/-- C28: for a move whose counters are those set by the constructor `Movebase::Movebase`
(`cnt = 0`, `cnt_accepted = 0`, `dusum = 0`), after any number `n` of `Movebase::move`
calls that return, `cnt_accepted <= cnt <= n` and `dusum` is the sum, in order, of the
`n` values returned; and each single call either is skipped (returns 0, all counters
unchanged), or counts one trial and rejects (returns 0, `cnt` one more, `cnt_accepted`
and `dusum` unchanged), or counts one trial and accepts (`cnt` and `cnt_accepted` one
more, the returned value added to `dusum`). -/
theorem move_counters_invariant {σ : Type} (exp : K → K) (vt : MoveVT K σ) (n : ℕ)
    (s s' : MoveState K σ) (rs : List (EDouble K))
    (hc : s.base.cnt = (Movebase.Movebase : Movebase K).cnt)
    (ha : s.base.cnt_accepted = (Movebase.Movebase : Movebase K).cnt_accepted)
    (hd : s.base.dusum = (Movebase.Movebase : Movebase K).dusum)
    (h : Movebase.moveN exp vt n s = some (rs, s')) :
    (s'.base.cnt_accepted ≤ s'.base.cnt ∧ s'.base.cnt ≤ n ∧
      s'.base.dusum = rs.foldl EDouble.add (EDouble.fin 0) ∧ rs.length = n) ∧
    (∀ (t : MoveState K σ) (r : EDouble K × MoveState K σ), Movebase.move exp vt t = some r →
      ((t.base.run t.slp).1 = false ∧ r.1 = EDouble.fin 0 ∧ r.2.base = t.base) ∨
      ((t.base.run t.slp).1 = true ∧ r.1 = EDouble.fin 0 ∧
        r.2.base = { t.base with cnt := t.base.cnt + 1 }) ∨
      ((t.base.run t.slp).1 = true ∧
        r.2.base = { t.base with cnt := t.base.cnt + 1,
                                 cnt_accepted := t.base.cnt_accepted + 1,
                                 dusum := t.base.dusum.add r.1 })) := by
  have hc0 : s.base.cnt = 0 := hc
  have ha0 : s.base.cnt_accepted = 0 := ha
  have hd0 : s.base.dusum = EDouble.fin 0 := hd
  obtain ⟨i1, i2, -, i4, i5⟩ := moveN_counters exp vt n s s' rs h (by rw [hc0, ha0])
  refine ⟨⟨i1, ?_, ?_, i5⟩, fun t r ht => move_step_counters exp vt t r ht⟩
  · rw [hc0] at i2
    omega
  · rw [i4, hd0]

/-- Two calls of `Movebase::move` on the one-particle configuration return. -/
theorem moveN_two_isSome :
    (Movebase.moveN Real.exp (ParticleTranslation.vt (fun _ => 1) (fun _ _ => 0)) 2
      (oneParticleInSphere [0, 1 / 2, 1 / 2, 1 / 2, 0, 9 / 10, 1 / 2, 1 / 2, 1 / 2])).isSome
      = true := by
  have e2 : (2 : ℕ) = 0 + 1 + 1 := rfl
  rw [e2]
  norm_num [Movebase.moveN, Movebase.move, Movebase.run, oneParticleInSphere, streamOf,
    Slump.randOne, Slump.randHalf, Movebase.trialMove, ParticleTranslation.vt,
    ParticleTranslation._trialMove, vecGet, vecSet, Geometrybase.boundaryParticle,
    Sphere.toGeometrybase, Sphere.boundary, Sphere.collision, Sphere.sqdist, Point.sqdist,
    particle.at, Movebase.energyChange, ParticleTranslation._energyChange,
    Movebase.metropolis, EDouble.pos, EDouble.expNeg, Movebase.acceptMove,
    ParticleTranslation._acceptMove, Movebase.rejectMove, ParticleTranslation._rejectMove,
    mapAdd, average.add]

/-- Witness of C28: two calls on one particle in the sphere of radius 1, the first
accepted without displacement, the second (a step out of the sphere) rejected. -/
theorem move_counters_invariant_witness :
    ∃ (rs : List (EDouble ℝ)) (s' : MoveState ℝ (ParticleTranslation ℝ)),
      Movebase.moveN Real.exp (ParticleTranslation.vt (fun _ => 1) (fun _ _ => 0)) 2
        (oneParticleInSphere [0, 1 / 2, 1 / 2, 1 / 2, 0, 9 / 10, 1 / 2, 1 / 2, 1 / 2]) =
          some (rs, s') ∧
      s'.base.cnt_accepted ≤ s'.base.cnt ∧ s'.base.cnt ≤ 2 ∧
      s'.base.dusum = rs.foldl EDouble.add (EDouble.fin 0) ∧ rs.length = 2 := by
  obtain ⟨r, hr⟩ := Option.isSome_iff_exists.mp moveN_two_isSome
  exact ⟨r.1, r.2, hr, (move_counters_invariant Real.exp
    (ParticleTranslation.vt (fun _ => 1) (fun _ _ => 0)) 2
    (oneParticleInSphere [0, 1 / 2, 1 / 2, 1 / 2, 0, 9 / 10, 1 / 2, 1 / 2, 1 / 2]) r.2 r.1
    rfl rfl rfl hr).1⟩

/-- C29, failing input: a particle-bound `ParticleTranslation::move` with
`runfraction = 1/2` on the uniform variates 1/10, 9/10.  The first variate is below
`runfraction`, so the test `run()` of `ParticleTranslation::move` passes; `Movebase::move`
then calls `run()` once more, on the second variate, and skips: the call returns 0 with
`cnt = 0`, two variates drawn and the trial configuration untouched.  With both variates
below `runfraction` (1/10, 2/10) the trial is made. -/
theorem translation_move_two_run_tests :
    ((⟨0, 0, EDouble.fin 0, 1 / 2⟩ : Movebase ℝ).run (streamOf [1 / 10, 9 / 10])).1 = true ∧
    (ParticleTranslation.move Real.exp (fun _ => 1) (fun _ _ => 0)
        { oneParticleInSphere ([1 / 10, 9 / 10] : List ℝ) with
          base := ⟨0, 0, EDouble.fin 0, 1 / 2⟩ }).map
      (fun r => (r.1, r.2.base.cnt, r.2.slp.pos, r.2.spc.trial)) =
        some (EDouble.fin 0, 0, 2, [particle.at (9 / 10) 0 0]) ∧
    (ParticleTranslation.move Real.exp (fun _ => 1) (fun _ _ => 0)
        { oneParticleInSphere ([1 / 10, 2 / 10, 1 / 2, 1 / 2, 1 / 2] : List ℝ) with
          base := ⟨0, 0, EDouble.fin 0, 1 / 2⟩ }).map
      (fun r => (r.1, r.2.base.cnt, r.2.slp.pos)) = some (EDouble.fin 0, 1, 5) := by
  refine ⟨?_, ?_, ?_⟩
  · norm_num [Movebase.run, streamOf, Slump.randOne]
  · norm_num [ParticleTranslation.move, Movebase.move, Movebase.run, oneParticleInSphere,
      streamOf, Slump.randOne]
  · norm_num [ParticleTranslation.move, Movebase.move, Movebase.run, oneParticleInSphere,
      streamOf, Slump.randOne, Slump.randHalf, Movebase.trialMove, ParticleTranslation.vt,
      ParticleTranslation._trialMove, vecGet, vecSet, Geometrybase.boundaryParticle,
      Sphere.toGeometrybase, Sphere.boundary, Sphere.collision, Sphere.sqdist, Point.sqdist,
      particle.at, Movebase.energyChange, ParticleTranslation._energyChange,
      Movebase.metropolis, EDouble.pos, EDouble.expNeg, Movebase.acceptMove,
      ParticleTranslation._acceptMove, mapAdd, average.add, EDouble.add]

/-- The first translation move on the variates 0, 0, 9/10, 1/2, 1/2, 0: the step from
(9/10,0,0) to (13/10,0,0) is accepted. -/
theorem translation_collision_first_move :
    ParticleTranslation.move Real.exp (fun _ => 1) (fun _ _ => 0)
        (oneParticleInSphere [0, 0, 9 / 10, 1 / 2, 1 / 2, 0, 0, 0, 1 / 2, 1 / 2, 1 / 2]) =
      some (EDouble.infty,
        { base := ⟨1, 1, EDouble.infty, 1⟩
          spc := { p := [particle.at (13 / 10) 0 0], trial := [particle.at (13 / 10) 0 0],
                   geo := some (Sphere.toGeometrybase ⟨1, 1, 2⟩) }
          self := { iparticle := 0, igroup := none, dir := ⟨1, 1, 1⟩,
                    sqrmap := [(0, ⟨4 / 25, 1⟩)], accmap := [(0, ⟨1, 1⟩)] }
          slp := ⟨(streamOf [0, 0, 9 / 10, 1 / 2, 1 / 2, 0, 0, 0, 1 / 2, 1 / 2, 1 / 2]).seq,
            6⟩ }) := by
  simp [ParticleTranslation.move, Movebase.move, Movebase.run, oneParticleInSphere,
      streamOf, Slump.randOne, Slump.randHalf, Movebase.trialMove, ParticleTranslation.vt,
      ParticleTranslation._trialMove, vecGet, vecSet, Geometrybase.boundaryParticle,
      Sphere.toGeometrybase, Sphere.boundary, Sphere.collision, Sphere.sqdist, Point.sqdist,
      particle.at, Movebase.energyChange, ParticleTranslation._energyChange,
      Movebase.metropolis, EDouble.pos, EDouble.expNeg, Movebase.acceptMove,
      ParticleTranslation._acceptMove, mapAdd, average.add, EDouble.add]
  norm_num
  constructor
  · norm_num [mapAdd, average.add, Sphere.sqdist, Point.sqdist]
  · norm_num [mapAdd, average.add]

/-- The translation move that follows, from the state with the particle at (13/10,0,0),
fails the assertion of `_energyChange`. -/
theorem translation_collision_second_move :
    ParticleTranslation.move Real.exp (fun _ => 1) (fun _ _ => 0)
        { base := ⟨1, 1, EDouble.infty, 1⟩
          spc := { p := [particle.at (13 / 10) 0 0], trial := [particle.at (13 / 10) 0 0],
                   geo := some (Sphere.toGeometrybase ⟨1, 1, 2⟩) }
          self := { iparticle := 0, igroup := none, dir := ⟨1, 1, 1⟩,
                    sqrmap := [(0, ⟨4 / 25, 1⟩)], accmap := [(0, ⟨1, 1⟩)] }
          slp := ⟨(streamOf [0, 0, 9 / 10, 1 / 2, 1 / 2, 0, 0, 0, 1 / 2, 1 / 2, 1 / 2]).seq,
            6⟩ } = none := by
  simp [ParticleTranslation.move, Movebase.move, Movebase.run,
      streamOf, Slump.randOne, Slump.randHalf, Movebase.trialMove, ParticleTranslation.vt,
      ParticleTranslation._trialMove, vecGet, vecSet, Geometrybase.boundaryParticle,
      Sphere.toGeometrybase, Sphere.boundary, Sphere.collision,
      particle.at, Movebase.energyChange, ParticleTranslation._energyChange]
  norm_num

/-- C27, failing input: one particle at (9/10,0,0) in the sphere of radius 1, which does
not collide, and a `ParticleTranslation::move` with step size 1 on the uniform variates
0, 0 (both run tests), 9/10, 1/2, 1/2 (displacement to (13/10,0,0)) and 0 (Metropolis
test).  The move returns `pc::infty`, is counted as accepted and leaves the particle at
(13/10,0,0), which collides with the container; the next move then fails the assertion
at the start of `_energyChange`. -/
theorem translation_move_commits_collision :
    (Sphere.toGeometrybase (⟨1, 1, 2⟩ : Sphere ℝ)).collision (particle.at (9 / 10) 0 0)
      collisiontype.BOUNDARY = false ∧
    (ParticleTranslation.move Real.exp (fun _ => 1) (fun _ _ => 0)
        (oneParticleInSphere [0, 0, 9 / 10, 1 / 2, 1 / 2, 0, 0, 0, 1 / 2, 1 / 2, 1 / 2])).map
      (fun r => (r.1, r.2.base.cnt_accepted, r.2.spc.p, r.2.slp.pos)) =
        some (EDouble.infty, 1, [particle.at (13 / 10) 0 0], 6) ∧
    (Sphere.toGeometrybase (⟨1, 1, 2⟩ : Sphere ℝ)).collision (particle.at (13 / 10) 0 0)
      collisiontype.BOUNDARY = true ∧
    (ParticleTranslation.move Real.exp (fun _ => 1) (fun _ _ => 0)
        (oneParticleInSphere [0, 0, 9 / 10, 1 / 2, 1 / 2, 0, 0, 0, 1 / 2, 1 / 2, 1 / 2])).bind
      (fun r => ParticleTranslation.move Real.exp (fun _ => 1) (fun _ _ => 0) r.2) = none := by
  refine ⟨?_, ?_, ?_, ?_⟩
  · norm_num [Sphere.toGeometrybase, Sphere.collision, particle.at]
  · rw [translation_collision_first_move]
    rfl
  · norm_num [Sphere.toGeometrybase, Sphere.collision, particle.at]
  · rw [translation_collision_first_move]
    exact translation_collision_second_move

/-- C22, failing input: a configuration with `mv_runfraction = 0`.  Whatever the
configuration holds, the move constructed by `ParticleTranslation::ParticleTranslation`
has `runfraction = 1`, the value set by `Movebase::Movebase`; with 0 configured under
the key, the constructed move bound to particle 0 of the one-particle configuration
makes a trial on its first call (`cnt = 1`). -/
theorem translation_ctor_ignores_runfraction :
    (∀ (inp : InputMap ℝ) (pfx : String),
      (ParticleTranslation.ParticleTranslation inp pfx).1.runfraction = 1) ∧
    InputMap.get (⟨fun key => if key = "mv_runfraction" then some 0 else none⟩ : InputMap ℝ)
      ("mv" ++ "_runfraction") 1 = 0 ∧
    (ParticleTranslation.move Real.exp (fun _ => 1) (fun _ _ => 0)
        { base := (ParticleTranslation.ParticleTranslation
            (⟨fun key => if key = "mv_runfraction" then some 0 else none⟩ : InputMap ℝ) "mv").1
          spc := (oneParticleInSphere ([] : List ℝ)).spc
          self := (ParticleTranslation.ParticleTranslation
            (⟨fun key => if key = "mv_runfraction" then some 0 else none⟩ : InputMap ℝ)
              "mv").2.setParticle 0
          slp := streamOf [1 / 2, 1 / 2, 1 / 2, 1 / 2, 1 / 2] }).map
      (fun r => (r.1, r.2.base.cnt, r.2.base.cnt_accepted)) = some (EDouble.fin 0, 1, 1) := by
  refine ⟨fun _ _ => rfl, ?_, ?_⟩
  · simp [InputMap.get]
  · norm_num [ParticleTranslation.ParticleTranslation, Movebase.Movebase,
      ParticleTranslation.setParticle,
      ParticleTranslation.move, Movebase.move, Movebase.run, oneParticleInSphere,
      streamOf, Slump.randOne, Slump.randHalf, Movebase.trialMove, ParticleTranslation.vt,
      ParticleTranslation._trialMove, vecGet, vecSet, Geometrybase.boundaryParticle,
      Sphere.toGeometrybase, Sphere.boundary, Sphere.collision, Sphere.sqdist, Point.sqdist,
      particle.at, Movebase.energyChange, ParticleTranslation._energyChange,
      Movebase.metropolis, EDouble.pos, EDouble.expNeg, Movebase.acceptMove,
      ParticleTranslation._acceptMove, mapAdd, average.add, EDouble.add]

/-- C23, failing input: the group `[0,1]` of a particle of species 1 (step size 1) at
index 0 and a particle of species 2 (step size 0) at index 1, and the uniform variates
0 (run test), 0 (the loop draws index 0, whose step size passes the test), 0 (run test
of `Movebase::move`), 1/2 (`_trialMove` draws anew: index 1), 1/2, 1/2, 1/2
(displacement), 1/2 (the loop draws index 1, skipped).  The one sub-move made is a trial
on the particle of species 2: `cnt = 1`, `cnt_accepted = 1`, and the acceptance and
displacement statistics both get an entry for species 2 and none for species 1. -/
theorem translation_group_moves_frozen_species :
    (ParticleTranslation.move Real.exp (fun id => if id = 1 then 1 else 0) (fun _ _ => 0)
        (twoSpeciesInSphere [0, 0, 0, 1 / 2, 1 / 2, 1 / 2, 1 / 2, 1 / 2])).map
      (fun r => (r.2.base.cnt, r.2.base.cnt_accepted, r.2.self.accmap, r.2.self.sqrmap,
        r.2.slp.pos)) =
      some (1, 1, [(2, ⟨1, 1⟩)], [(2, ⟨0, 1⟩)], 8) := by
  have e2 : ((2 : ℤ).toNat) = 0 + 1 + 1 := rfl
  simp [ParticleTranslation.move, ParticleTranslation.moveLoop, Group.random, Group.size,
      Movebase.move, Movebase.run, twoSpeciesInSphere,
      streamOf, Slump.randOne, Slump.randHalf, Movebase.trialMove, ParticleTranslation.vt,
      ParticleTranslation._trialMove, vecGet, vecSet, Geometrybase.boundaryParticle,
      Sphere.toGeometrybase, Sphere.boundary, Sphere.collision, Sphere.sqdist, Point.sqdist,
      particle.at, Movebase.energyChange, ParticleTranslation._energyChange,
      Movebase.metropolis, EDouble.pos, EDouble.expNeg, Movebase.acceptMove,
      ParticleTranslation._acceptMove, mapAdd, average.add, EDouble.add, e2]
  norm_num
  exact ⟨_, _, ⟨rfl, rfl⟩, rfl, rfl, rfl, rfl, rfl⟩

/-- What `Cuboid::load` makes of the file written by `Cuboid::save`: with positive side
lengths on both sides the call returns true, and the side lengths read are the first
three numbers of the file, the volume and the first two sides. -/
theorem cuboid_load_after_save (c c0 : Cuboid ℝ) (resize : Bool)
    (hx : 0 < c.len.x) (hy : 0 < c.len.y) (hz : 0 < c.len.z)
    (hx0 : 0 < c0.len.x) (hy0 : 0 < c0.len.y) (hz0 : 0 < c0.len.z) :
    c.save true none = (true, some [c.getVolume, c.len.x, c.len.y, c.len.z]) ∧
    ∃ c1 : Cuboid ℝ, Cuboid.load Real.rpow c0 (c.save true none).2 resize = some (true, c1) ∧
      c1.len = ⟨c.getVolume, c.len.x, c.len.y⟩ ∧
      c1.getVolume = c.getVolume * c.len.x * c.len.y := by
  have hV : 0 < c.getVolume := by
    simp only [Cuboid.getVolume, Cuboid._getVolume]; positivity
  have hs : c.save true none = (true, some [c.getVolume, c.len.x, c.len.y, c.len.z]) := by
    simp [Cuboid.save, Geometrybase.save]
  obtain ⟨g1, hg1, -, -, -⟩ := cuboid_setVolume_some c0 c.getVolume hx0 hy0 hz0 hV
  refine ⟨hs, ?_⟩
  have hpos : 0 < c.getVolume ∧ 0 < c.len.x ∧ 0 < c.len.y := ⟨hV, hx, hy⟩
  have hn : ¬ (c.getVolume ≤ 0 ∨ c.len.x ≤ 0 ∨ c.len.y ≤ 0) := by
    rintro (h | h | h)
    · exact absurd hV (not_lt.mpr h)
    · exact absurd hx (not_lt.mpr h)
    · exact absurd hy (not_lt.mpr h)
  refine ⟨{ g1 with len := ⟨c.getVolume, c.len.x, c.len.y⟩,
                    len_half := (⟨c.getVolume, c.len.x, c.len.y⟩ : Point ℝ).smul (1 / 2),
                    len_inv := ⟨1 / c.getVolume, 1 / c.len.x, 1 / c.len.y⟩ }, ?_, rfl, rfl⟩
  rw [hs]
  simp only [Cuboid.load, Geometrybase.load, hg1, List.getD_cons_zero, List.getD_cons_succ,
    if_true, Cuboid.setlen, if_pos hpos, if_neg hn]

/-- C21, failing input: the box with sides 2, 3, 4.  `Cuboid::save` writes the numbers
24, 2, 3, 4; `Cuboid::load` of that file returns true, but after `Geometrybase::load` has
read the volume it opens the file anew and reads its first three numbers as the side
lengths, so that the box has sides 24, 2, 3 and volume 144 afterwards.  The same holds
for every box: the sides read are the saved volume and the first two saved sides. -/
theorem cuboid_load_reads_volume_as_length :
    (∀ (c c0 : Cuboid ℝ) (resize : Bool), 0 < c.len.x → 0 < c.len.y → 0 < c.len.z →
      0 < c0.len.x → 0 < c0.len.y → 0 < c0.len.z →
      ∃ c1 : Cuboid ℝ, Cuboid.load Real.rpow c0 (c.save true none).2 resize = some (true, c1) ∧
        c1.len = ⟨c.getVolume, c.len.x, c.len.y⟩) ∧
    Cuboid.save (⟨⟨2, 3, 4⟩, ⟨1, 3 / 2, 2⟩, ⟨1 / 2, 1 / 3, 1 / 4⟩, ⟨-1, -3 / 2, -2⟩,
      ⟨1, 3 / 2, 2⟩⟩ : Cuboid ℝ) true none = (true, some [24, 2, 3, 4]) ∧
    ∃ c1 : Cuboid ℝ,
      Cuboid.load Real.rpow ⟨⟨2, 3, 4⟩, ⟨1, 3 / 2, 2⟩, ⟨1 / 2, 1 / 3, 1 / 4⟩,
        ⟨-1, -3 / 2, -2⟩, ⟨1, 3 / 2, 2⟩⟩ (some [24, 2, 3, 4]) false = some (true, c1) ∧
      c1.len = ⟨24, 2, 3⟩ ∧ c1.getVolume = 144 := by
  have hb := cuboid_load_after_save
    (⟨⟨2, 3, 4⟩, ⟨1, 3 / 2, 2⟩, ⟨1 / 2, 1 / 3, 1 / 4⟩, ⟨-1, -3 / 2, -2⟩, ⟨1, 3 / 2, 2⟩⟩ : Cuboid ℝ)
    ⟨⟨2, 3, 4⟩, ⟨1, 3 / 2, 2⟩, ⟨1 / 2, 1 / 3, 1 / 4⟩, ⟨-1, -3 / 2, -2⟩, ⟨1, 3 / 2, 2⟩⟩ false
    (by norm_num) (by norm_num) (by norm_num) (by norm_num) (by norm_num) (by norm_num)
  have hv : Cuboid.getVolume (⟨⟨2, 3, 4⟩, ⟨1, 3 / 2, 2⟩, ⟨1 / 2, 1 / 3, 1 / 4⟩,
      ⟨-1, -3 / 2, -2⟩, ⟨1, 3 / 2, 2⟩⟩ : Cuboid ℝ) = 24 := by
    norm_num [Cuboid.getVolume, Cuboid._getVolume]
  refine ⟨?_, ?_, ?_⟩
  · intro c c0 resize hx hy hz hx0 hy0 hz0
    obtain ⟨-, c1, h1, h2, -⟩ := cuboid_load_after_save c c0 resize hx hy hz hx0 hy0 hz0
    exact ⟨c1, h1, h2⟩
  · rw [hb.1, hv]
  · obtain ⟨hs, c1, h1, h2, h3⟩ := hb
    rw [hs, hv] at h1
    rw [hv] at h2 h3
    refine ⟨c1, h1, h2, ?_⟩
    rw [h3]
    norm_num

/-- C26, failing input: order 2 and `x = 2`.  The quotients `(2*i+1)/(i+1)` and `i/(i+1)`
of `legendre::eval` are taken between values of type `int`: for `i = 1` they are 1 and 0,
so that `P[2] = x*P[1]`.  For every `x` the terms stored for the orders 2 and 3 are the
powers `1, x, x*x, x*x*x`; at `x = 2` the stored `P[2]` is 4, whereas the Legendre
polynomial `(3x^2 - 1)/2` is 11/2. -/
theorem legendre_eval_integer_division :
    ((2 * 1 + 1) / (1 + 1) : ℤ) = 1 ∧ (1 / (1 + 1) : ℤ) = 0 ∧
    (∀ x : ℚ, ((legendre.legendre 2).bind (fun l => l.eval x)).map (fun l => l.P) =
      some [1, x, x * x]) ∧
    (∀ x : ℚ, ((legendre.legendre 3).bind (fun l => l.eval x)).map (fun l => l.P) =
      some [1, x, x * x, x * x * x]) ∧
    ((legendre.legendre 2).bind (fun l => l.eval (2 : ℚ))).map (fun l => l.P) =
      some [1, 2, 4] ∧
    legendreP (2 : ℚ) 2 = 11 / 2 ∧
    (∀ x : ℚ, legendreP x 2 = (3 * x ^ 2 - 1) / 2) := by
  refine ⟨by decide, by decide, ?_, ?_, ?_, ?_, ?_⟩
  · intro x
    simp [legendre.legendre, legendre.eval, legendre.evalLoop, vecGet, vecSet,
      List.replicate]
  · intro x
    simp [legendre.legendre, legendre.eval, legendre.evalLoop, vecGet, vecSet,
      List.replicate]
    ring
  · simp [legendre.legendre, legendre.eval, legendre.evalLoop, vecGet, vecSet,
      List.replicate]
    norm_num
  · simp [legendreP]
    norm_num
  · intro x
    simp [legendreP]
    ring

/-- C32, failing input: the cylinder of length 1 and radius 1.  For every cylinder set by
`init(length, radius)` the region without collision is `x^2 + y^2 <= radius^2`,
`|z| <= length/2`, a cylinder of volume `pi * radius^2 * length`, whereas `getVolume()`
returns `2 * radius^2 * pi * length`, twice as much; for length 1 and radius 1 it returns
`2 pi`. -/
theorem cylinder_getVolume_twice :
    (∀ (length radius : ℝ) (c : Cylinder ℝ), Cylinder.init length radius = some c →
      (∀ a : particle ℝ, c.collision a collisiontype.BOUNDARY = false ↔
        (a.x * a.x + a.y * a.y ≤ radius * radius ∧ |a.z| ≤ length / 2)) ∧
      c.getVolume Real.pi = 2 * (Real.pi * radius ^ 2 * length) ∧
      c.getVolume Real.pi ≠ Real.pi * radius ^ 2 * length) ∧
    (Cylinder.init (1 : ℝ) 1).map (fun c => c.getVolume Real.pi) = some (2 * Real.pi) := by
  have hpi : 0 < Real.pi := Real.pi_pos
  refine ⟨?_, ?_⟩
  · intro length radius c hc
    unfold Cylinder.init at hc
    by_cases hpos : 0 < length ∧ 0 < radius
    · rw [if_pos hpos] at hc
      have hc' := Option.some.inj hc
      subst hc'
      have hvol : 0 < Real.pi * radius ^ 2 * length :=
        mul_pos (mul_pos hpi (pow_pos hpos.2 2)) hpos.1
      refine ⟨?_, ?_, ?_⟩
      · intro a
        simp only [Cylinder.collision]
        constructor
        · intro h
          by_cases hcol : a.x * a.x + a.y * a.y > radius * radius ∨
              (a.z < -(length / 2) ∨ a.z > length / 2)
          · rw [if_pos hcol] at h
            exact absurd h (by simp)
          · refine ⟨not_lt.mp (fun h1 => hcol (Or.inl h1)), abs_le.mpr ⟨?_, ?_⟩⟩
            · exact not_lt.mp (fun h1 => hcol (Or.inr (Or.inl h1)))
            · exact not_lt.mp (fun h1 => hcol (Or.inr (Or.inr h1)))
        · rintro ⟨h1, h2⟩
          rw [if_neg]
          rintro (h | h | h)
          · exact absurd h (not_lt.mpr h1)
          · exact absurd h (not_lt.mpr (abs_le.mp h2).1)
          · exact absurd h (not_lt.mpr (abs_le.mp h2).2)
      · simp only [Cylinder.getVolume, Cylinder._getVolume]
        ring
      · simp only [Cylinder.getVolume, Cylinder._getVolume]
        intro h
        nlinarith
    · rw [if_neg hpos] at hc
      exact absurd hc (by simp)
  · simp [Cylinder.init, Cylinder.getVolume, Cylinder._getVolume]

/-- C33, failing input: the move as `ParticleTranslation::ParticleTranslation` leaves it
(`iparticle = -1`, no group bound) on a one-particle configuration, with the uniform
variates 0, 0 for the two run tests.  `_trialMove` changes nothing and `_energyChange`
returns 0, so the Metropolis test accepts and `_acceptMove` is called, which indexes
`spc->p[-1]` and `spc->trial[-1]`: for every configuration `_acceptMove` (and
`_rejectMove`) with `iparticle = -1` uses an index outside the range, and the call of
`move()` does not return 0 but ends there, the trial counter already raised. -/
theorem translation_unbound_indexes_out_of_range :
    (∀ (spc : Space ℝ) (m : ParticleTranslation ℝ), m.iparticle = -1 →
      vecGet spc.p m.iparticle = none ∧
      ParticleTranslation._acceptMove spc m = none ∧
      ParticleTranslation._rejectMove spc m = none) ∧
    ((ParticleTranslation.ParticleTranslation (⟨fun _ => none⟩ : InputMap ℝ) "mv").2.iparticle
        = -1 ∧
      (ParticleTranslation.ParticleTranslation (⟨fun _ => none⟩ : InputMap ℝ) "mv").2.igroup
        = none) ∧
    (Movebase.trialMove (ParticleTranslation.vt (fun _ => 1) (fun _ _ => 0))
        { base := (ParticleTranslation.ParticleTranslation
            (⟨fun _ => none⟩ : InputMap ℝ) "mv").1
          spc := (oneParticleInSphere ([] : List ℝ)).spc
          self := (ParticleTranslation.ParticleTranslation
            (⟨fun _ => none⟩ : InputMap ℝ) "mv").2
          slp := streamOf [0, 0] }).map
      (fun s => (s.base.cnt, s.spc.trial, s.self.iparticle)) =
        some (1, [particle.at (9 / 10) 0 0], -1) ∧
    ParticleTranslation._energyChange (fun _ _ => (0 : ℝ))
        (oneParticleInSphere ([] : List ℝ)).spc
        (ParticleTranslation.ParticleTranslation (⟨fun _ => none⟩ : InputMap ℝ) "mv").2
      = some (EDouble.fin 0) ∧
    ParticleTranslation.move Real.exp (fun _ => 1) (fun _ _ => 0)
        { base := (ParticleTranslation.ParticleTranslation
            (⟨fun _ => none⟩ : InputMap ℝ) "mv").1
          spc := (oneParticleInSphere ([] : List ℝ)).spc
          self := (ParticleTranslation.ParticleTranslation
            (⟨fun _ => none⟩ : InputMap ℝ) "mv").2
          slp := streamOf [0, 0] } = none := by
  refine ⟨?_, ⟨rfl, rfl⟩, ?_, ?_, ?_⟩
  · intro spc m hm
    have hv : ∀ l : List (particle ℝ), vecGet l (-1) = none := by
      intro l
      simp [vecGet]
    refine ⟨by rw [hm]; exact hv _, ?_, ?_⟩
    · simp only [ParticleTranslation._acceptMove, hm, hv]
      cases spc.geo <;> rfl
    · simp only [ParticleTranslation._rejectMove, hm, hv]
  · simp [Movebase.trialMove, ParticleTranslation.ParticleTranslation, Movebase.Movebase,
      ParticleTranslation.vt, ParticleTranslation._trialMove, oneParticleInSphere]
  · simp [ParticleTranslation._energyChange, ParticleTranslation.ParticleTranslation]
  · norm_num [ParticleTranslation.ParticleTranslation, Movebase.Movebase,
      ParticleTranslation.move, Movebase.move, Movebase.run, oneParticleInSphere,
      streamOf, Slump.randOne, Slump.randHalf, Movebase.trialMove, ParticleTranslation.vt,
      ParticleTranslation._trialMove, vecGet, vecSet, Geometrybase.boundaryParticle,
      Sphere.toGeometrybase, Movebase.energyChange, ParticleTranslation._energyChange,
      Movebase.metropolis, EDouble.pos, EDouble.expNeg, Movebase.acceptMove,
      ParticleTranslation._acceptMove]

/-- The value of `dp_rot` left by the constructor `RotateGroup::RotateGroup`. -/
theorem rotateGroup_ctor_dp_rot (inp : InputMap ℝ) (pfx : String) :
    (RotateGroup.RotateGroup Real.pi inp pfx).2.dp_rot =
      if inp.get (pfx ++ "_rotdp") 100 > 4 * Real.pi then 4 * Real.pi
      else inp.get (pfx ++ "_rotdp") 100 := rfl

/-- The trial move of a group rotation constructed with `rot_rotdp = -100`, on the
variates 0 (angle), 0, 1/2, 1/2 (axis) and 1/2, 1/2, 1/2 (translation): the angle drawn
is 50. -/
theorem rotateGroup_negative_step_angle :
    (RotateGroup._trialMove Real.sqrt Real.cos Real.sin ⟨9 / 10, 0, 0⟩ 1
        (oneParticleInSphere ([] : List ℝ)).spc
        (RotateGroup.setGroup (RotateGroup.RotateGroup Real.pi
          (⟨fun key => if key = "rot_rotdp" then some (-100) else none⟩ : InputMap ℝ)
          "rot").2 ⟨0, 0, GroupType.MOLECULAR⟩)
        (streamOf [0, 0, 1 / 2, 1 / 2, 1 / 2, 1 / 2, 1 / 2])).map
      (fun r => (r.2.1.angle, r.2.2.pos)) = some (50, 7) := by
  have hpi : 0 < Real.pi := Real.pi_pos
  have h1 : ¬ ((-100 : ℝ) > 4 * Real.pi) := by
    rw [not_lt]
    linarith
  have h1' : ¬ (4 * Real.pi < (-100 : ℝ)) := h1
  have e1 : (1 : ℕ) = 0 + 1 := rfl
  rw [e1]
  simp [RotateGroup._trialMove, RotateGroup.setGroup, RotateGroup.RotateGroup,
    InputMap.get, h1', RotateGroup.axisLoop, Slump.randHalf, streamOf, oneParticleInSphere,
    Group.rotate, Group.translate, Group.size, forRange, vecGet, vecSet]
  norm_num

/-- C34, failing input: the configuration `rot_rotdp = -100` (a rotation step below
`-4 pi`) and the uniform variate 0, that is `randHalf() = -1/2`.  The constructor only
limits `dp_rot` from above (`dp_rot > 4 pi`), so `dp_rot` stays -100, the move stays
enabled (`runfraction = 1`), and `_trialMove` draws the angle 50, beyond `2 pi`.  For
every configured step of at least `-4 pi` the angle is within `2 pi` in absolute
value. -/
theorem rotateGroup_angle_exceeds_two_pi :
    (RotateGroup.RotateGroup Real.pi
      (⟨fun key => if key = "rot_rotdp" then some (-100) else none⟩ : InputMap ℝ)
      "rot").2.dp_rot = -100 ∧
    (RotateGroup.RotateGroup Real.pi
      (⟨fun key => if key = "rot_rotdp" then some (-100) else none⟩ : InputMap ℝ)
      "rot").1.runfraction = 1 ∧
    (RotateGroup._trialMove Real.sqrt Real.cos Real.sin ⟨9 / 10, 0, 0⟩ 1
        (oneParticleInSphere ([] : List ℝ)).spc
        (RotateGroup.setGroup (RotateGroup.RotateGroup Real.pi
          (⟨fun key => if key = "rot_rotdp" then some (-100) else none⟩ : InputMap ℝ)
          "rot").2 ⟨0, 0, GroupType.MOLECULAR⟩)
        (streamOf [0, 0, 1 / 2, 1 / 2, 1 / 2, 1 / 2, 1 / 2])).map
      (fun r => r.2.1.angle) = some 50 ∧
    2 * Real.pi < 50 ∧
    (∀ (inp : InputMap ℝ) (pfx : String) (h : ℝ),
      -(4 * Real.pi) ≤ inp.get (pfx ++ "_rotdp") 100 → |h| ≤ 1 / 2 →
      |(RotateGroup.RotateGroup Real.pi inp pfx).2.dp_rot * h| ≤ 2 * Real.pi) := by
  have hpi : 0 < Real.pi := Real.pi_pos
  have h1 : ¬ ((-100 : ℝ) > 4 * Real.pi) := by
    rw [not_lt]
    linarith
  have h1' : ¬ (4 * Real.pi < (-100 : ℝ)) := h1
  refine ⟨?_, ?_, ?_, ?_, ?_⟩
  · rw [rotateGroup_ctor_dp_rot]
    simp [InputMap.get, h1']
  · simp [RotateGroup.RotateGroup, Movebase.Movebase, InputMap.get, h1']
    intro _
    norm_num
  · have h := rotateGroup_negative_step_angle
    rw [Option.map_eq_some'] at h ⊢
    obtain ⟨r, hr, he⟩ := h
    exact ⟨r, hr, congrArg Prod.fst he⟩
  · have := Real.pi_le_four
    linarith
  · intro inp pfx h hlo hh
    rw [rotateGroup_ctor_dp_rot]
    have habs := abs_le.mp hh
    by_cases hc : inp.get (pfx ++ "_rotdp") 100 > 4 * Real.pi
    · rw [if_pos hc, abs_le]
      constructor <;> nlinarith
    · rw [if_neg hc]
      have hup := not_lt.mp hc
      rw [abs_mul]
      have h2 : |inp.get (pfx ++ "_rotdp") 100| ≤ 4 * Real.pi := abs_le.mpr ⟨hlo, hup⟩
      calc |inp.get (pfx ++ "_rotdp") 100| * |h| ≤ 4 * Real.pi * (1 / 2) :=
            mul_le_mul h2 hh (abs_nonneg _) (by positivity)
        _ = 2 * Real.pi := by ring

/-- The rejection loop of `RotateGroup::_trialMove` ends only with a vector of length at
most 1. -/
theorem axisLoop_length_le_one :
    ∀ (n : ℕ) (p : Point ℝ) (r : ℝ) (slp : Slump ℝ) (res : Point ℝ × Slump ℝ),
      (r ≤ 1 → r = Real.sqrt (p.x * p.x + p.y * p.y + p.z * p.z)) →
      RotateGroup.axisLoop Real.sqrt n p r slp = some res →
      Real.sqrt (res.1.x * res.1.x + res.1.y * res.1.y + res.1.z * res.1.z) ≤ 1 := by
  intro n
  induction n with
  | zero =>
    intro p r slp res hr h
    unfold RotateGroup.axisLoop at h
    by_cases hc : r > 1
    · rw [if_pos hc] at h
      exact absurd h (by simp)
    · rw [if_neg hc] at h
      simp only [Option.some.injEq] at h
      subst h
      have := hr (not_lt.mp hc)
      exact this ▸ not_lt.mp hc
  | succ n ih =>
    intro p r slp res hr h
    unfold RotateGroup.axisLoop at h
    by_cases hc : r > 1
    · rw [if_pos hc] at h
      have h2 := ih _ _ _ res (fun _ => rfl) h
      exact h2
    · rw [if_neg hc] at h
      simp only [Option.some.injEq] at h
      subst h
      have := hr (not_lt.mp hc)
      exact this ▸ not_lt.mp hc

/-- The trial move of a group rotation on the variates 1/4 (angle), 1/2, 1/2, 1/2 (axis)
and 1/2, 1/2, 1/2 (translation) returns after one round of the rejection loop. -/
theorem rotateGroup_zero_axis_trial :
    (RotateGroup._trialMove Real.sqrt Real.cos Real.sin ⟨9 / 10, 0, 0⟩ 1
        (oneParticleInSphere ([] : List ℝ)).spc
        (RotateGroup.setGroup (RotateGroup.RotateGroup Real.pi
          (⟨fun _ => none⟩ : InputMap ℝ) "rot").2 ⟨0, 0, GroupType.MOLECULAR⟩)
        (streamOf [1 / 4, 1 / 2, 1 / 2, 1 / 2, 1 / 2, 1 / 2, 1 / 2])).map
      (fun r => r.2.2.pos) = some 7 := by
  have e1 : (1 : ℕ) = 0 + 1 := rfl
  rw [e1]
  simp [RotateGroup._trialMove, RotateGroup.setGroup, RotateGroup.RotateGroup,
    InputMap.get, RotateGroup.axisLoop, Slump.randHalf, streamOf, oneParticleInSphere,
    Group.rotate, Group.translate, Group.size, forRange, vecGet, vecSet]
  norm_num
  exact ⟨_, _, _, ⟨rfl, rfl, rfl⟩, rfl⟩

/-- C35, failing input: the uniform variates 1/2, 1/2, 1/2 in the rejection loop, that is
`randHalf() = 0` three times.  The loop accepts the vector `p = (0,0,0)` in its first
round (`r = 0` is not above 1), so the end point `cm + p` of the rotation axis is the
mass centre itself, the distance `geo.dist(beg,end)` by which `setAxis` divides is 0 and
the axis `u` it computes has not unit length.  Every vector the loop accepts has length
at most 1. -/
theorem rotateGroup_axis_zero_vector :
    (RotateGroup.axisLoop Real.sqrt 1 ⟨0, 0, 0⟩ 2
        ⟨(streamOf ([1 / 4, 1 / 2, 1 / 2, 1 / 2, 1 / 2, 1 / 2, 1 / 2] : List ℝ)).seq, 1⟩).map
      (fun r => (r.1, r.2.pos)) = some (⟨0, 0, 0⟩, 4) ∧
    (⟨9 / 10, 0, 0⟩ : Point ℝ).add ⟨0, 0, 0⟩ = ⟨9 / 10, 0, 0⟩ ∧
    Geometrybase.dist Real.sqrt (Sphere.toGeometrybase (⟨1, 1, 2⟩ : Sphere ℝ))
      ⟨9 / 10, 0, 0⟩ ((⟨9 / 10, 0, 0⟩ : Point ℝ).add ⟨0, 0, 0⟩) = 0 ∧
    (VectorRotate.setAxis Real.sqrt Real.cos Real.sin
        (Sphere.toGeometrybase (⟨1, 1, 2⟩ : Sphere ℝ)) ⟨9 / 10, 0, 0⟩
        ((⟨9 / 10, 0, 0⟩ : Point ℝ).add ⟨0, 0, 0⟩) (1 / 4)).u.x ^ 2 +
      (VectorRotate.setAxis Real.sqrt Real.cos Real.sin
        (Sphere.toGeometrybase (⟨1, 1, 2⟩ : Sphere ℝ)) ⟨9 / 10, 0, 0⟩
        ((⟨9 / 10, 0, 0⟩ : Point ℝ).add ⟨0, 0, 0⟩) (1 / 4)).u.y ^ 2 +
      (VectorRotate.setAxis Real.sqrt Real.cos Real.sin
        (Sphere.toGeometrybase (⟨1, 1, 2⟩ : Sphere ℝ)) ⟨9 / 10, 0, 0⟩
        ((⟨9 / 10, 0, 0⟩ : Point ℝ).add ⟨0, 0, 0⟩) (1 / 4)).u.z ^ 2 ≠ 1 ∧
    (RotateGroup._trialMove Real.sqrt Real.cos Real.sin ⟨9 / 10, 0, 0⟩ 1
        (oneParticleInSphere ([] : List ℝ)).spc
        (RotateGroup.setGroup (RotateGroup.RotateGroup Real.pi
          (⟨fun _ => none⟩ : InputMap ℝ) "rot").2 ⟨0, 0, GroupType.MOLECULAR⟩)
        (streamOf [1 / 4, 1 / 2, 1 / 2, 1 / 2, 1 / 2, 1 / 2, 1 / 2])).map
      (fun r => r.2.2.pos) = some 7 ∧
    (∀ (n : ℕ) (slp : Slump ℝ) (res : Point ℝ × Slump ℝ),
      RotateGroup.axisLoop Real.sqrt n ⟨0, 0, 0⟩ 2 slp = some res →
      Real.sqrt (res.1.x * res.1.x + res.1.y * res.1.y + res.1.z * res.1.z) ≤ 1) := by
  refine ⟨?_, ?_, ?_, ?_, rotateGroup_zero_axis_trial, ?_⟩
  · have e1 : (1 : ℕ) = 0 + 1 := rfl
    rw [e1]
    simp [RotateGroup.axisLoop, Slump.randHalf, streamOf]
  · simp [Point.add]
  · simp [Geometrybase.dist, Sphere.toGeometrybase, Sphere.sqdist, Point.sqdist, Point.add]
  · simp [VectorRotate.setAxis, Geometrybase.dist, Sphere.toGeometrybase, Sphere.sqdist,
      Sphere.boundary, Point.sqdist, Point.add, Point.sub, Point.smul]
  · intro n slp res h
    exact axisLoop_length_le_one n ⟨0, 0, 0⟩ 2 slp res (fun h2 => absurd h2 (by norm_num)) h

end Theorems

end Faunus
